import Mathlib

/-!
# Email content extraction engine of the Shopify auto-fulfilment backend

A shallow embedding of `backend/src/services/parserService.js`.

* JavaScript strings are lists of characters (`Str`). The patterns of the
  source have no `u` flag and run on UTF-16 code units; every class they use
  treats the two halves of a surrogate pair like the character itself (only
  `[^\d]` accepts them) and every group holds ASCII digits, ASCII letters or
  whitespace, so matching on characters gives the same groups.
* The regular expressions of the source are values of `Pattern`, run by a
  backtracking matcher with the priority order of the JavaScript matcher
  (leftmost start position first, greedy quantifiers from the longest count
  down to the shortest).
* `cheerio` is an external library: the four queries the source makes on a
  loaded document are the fields of `Dom`, and `cheerio.load` is the field
  `load` of the parameter `Cheerio`.
* `try { ... } catch { return null }` is an `Except` body whose error is
  mapped to `none`.
-/

namespace ParserService

/-- A JavaScript string, as the list of its characters. -/
abbrev Str := List Char

/-! ## Character classes -/

/-- The class `\d`: the ten ASCII digits. -/
def isDigit (c : Char) : Bool := 48 ≤ c.toNat && c.toNat ≤ 57

/-- The class `[A-Za-z]`; it is also what `[A-Z]` matches under the `i` flag. -/
def isLetter (c : Char) : Bool :=
  (65 ≤ c.toNat && c.toNat ≤ 90) || (97 ≤ c.toNat && c.toNat ≤ 122)

/-- The class `\s`, which is also the set removed by `String.prototype.trim`:
the ECMAScript WhiteSpace and LineTerminator code points. -/
def isSpace (c : Char) : Bool :=
  let n := c.toNat
  n == 9 || n == 10 || n == 11 || n == 12 || n == 13 || n == 32 || n == 160 ||
  n == 5760 || (8192 ≤ n && n ≤ 8202) || n == 8232 || n == 8233 || n == 8239 ||
  n == 8287 || n == 12288 || n == 65279

/-- The class `[^\d]`. -/
def isNonDigit (c : Char) : Bool := !isDigit c

/-- The class `[A-Za-z\s]`. -/
def isNameChar (c : Char) : Bool := isLetter c || isSpace c

/-- Canonicalisation of the `i` flag, on character codes, for an ASCII
pattern character: the code of the ASCII upper-case form (a character
outside ASCII never canonicalises to an ASCII one, so only the two ASCII
cases of a letter match it). -/
def upperCode (n : Nat) : Nat := if 97 ≤ n ∧ n ≤ 122 then n - 32 else n

/-- A pattern character matched exactly. -/
def isChar (p : Char) (c : Char) : Bool := c == p

/-- A pattern character matched under the `i` flag. -/
def isCharI (p : Char) (c : Char) : Bool := upperCode c.toNat == upperCode p.toNat

/-! ## Patterns and the backtracking matcher -/

/-- One term of a pattern: a character class under a greedy quantifier
`{min,max}` (`max = none` is unbounded), `cap` telling whether the term lies
inside capture group 1. -/
structure Atom where
  cls : Char → Bool
  min : Nat
  max : Option Nat
  cap : Bool

/-- A pattern is a sequence of terms. -/
abbrev Pattern := List Atom

/-- The term of one pattern character. -/
def one (cls : Char → Bool) : Atom := ⟨cls, 1, some 1, false⟩

/-- The term `cls+` outside the group. -/
def plus (cls : Char → Bool) : Atom := ⟨cls, 1, none, false⟩

/-- The term `cls*` outside the group. -/
def star (cls : Char → Bool) : Atom := ⟨cls, 0, none, false⟩

/-- The term `cls?` outside the group. -/
def opt (cls : Char → Bool) : Atom := ⟨cls, 0, some 1, false⟩

/-- The term `cls{min,max}` inside the capture group. -/
def group (cls : Char → Bool) (min : Nat) (max : Option Nat) : Atom := ⟨cls, min, max, true⟩

/-- A literal text, matched exactly. -/
def lit (s : String) : Pattern := s.toList.map fun p => one (isChar p)

/-- A literal text, matched under the `i` flag. -/
def litI (s : String) : Pattern := s.toList.map fun p => one (isCharI p)

/-- The largest count a greedy term can take at the head of `s`. -/
def greedyCount (a : Atom) (s : Str) : Nat :=
  match a.max with
  | none => (s.takeWhile a.cls).length
  | some m => Nat.min (s.takeWhile a.cls).length m

/-- One attempt of a term with exactly `n` characters, followed by the rest
of the pattern `cont`; the characters taken are put in front of the capture
when the term is inside the group. -/
def attempt (a : Atom) (cont : Str → Option Str) (s : Str) (n : Nat) : Option Str :=
  if a.min ≤ n then
    match cont (s.drop n) with
    | some c => some (if a.cap then s.take n ++ c else c)
    | none => none
  else none

/-- Greedy backtracking: the counts `n, n - 1, ..., 0` in that order, the
first success wins. -/
def backtrack (a : Atom) (cont : Str → Option Str) (s : Str) : Nat → Option Str
  | 0 => attempt a cont s 0
  | n + 1 =>
    match attempt a cont s (n + 1) with
    | some c => some c
    | none => backtrack a cont s n

/-- Match a pattern at the head of `s`; the result is the text of capture
group 1. -/
def matchHere : Pattern → Str → Option Str
  | [], _ => some []
  | a :: rest, s => backtrack a (matchHere rest) s (greedyCount a s)

/-- The method `String.prototype.match` with a non-global pattern, reduced
to what the source reads of it: `none` is a `null` match, `some c` a match
whose group 1 is `c`. Start positions are tried from the left. -/
def reMatch (p : Pattern) : Str → Option Str
  | [] => matchHere p []
  | c :: cs =>
    match matchHere p (c :: cs) with
    | some r => some r
    | none => reMatch p cs

/-- The method `String.prototype.trim`. -/
def trim (s : Str) : Str :=
  ((s.dropWhile isSpace).reverse.dropWhile isSpace).reverse

/-- The method `String.prototype.includes`. -/
def includes : Str → Str → Bool
  | [], sub => sub.isEmpty
  | c :: cs, sub => sub.isPrefixOf (c :: cs) || includes cs sub

/-! ## The patterns of the source -/

/-- The pattern `/\(#(\d+)\)/`. -/
def subjectPattern : Pattern :=
  lit "(#" ++ [group isDigit 1 none] ++ lit ")"

/-- The pattern `/Order\s+#(\d+)/i`. -/
def orderTextPattern : Pattern :=
  litI "Order" ++ [plus isSpace] ++ litI "#" ++ [group isDigit 1 none]

/-- The pattern `/(\d{5,})/`. -/
def orderElementPattern : Pattern := [group isDigit 5 none]

/-- The three patterns of `uspsPatterns`:
`/USPS\s+Tracking[^\d]*(\d+)/i`, `/Tracking\s+Number[^\d]*(\d+)/i`,
`/tracking\s+number\s*:\s*(\d+)/i`. -/
def uspsPatterns : List Pattern :=
  [ litI "USPS" ++ [plus isSpace] ++ litI "Tracking" ++ [star isNonDigit] ++ [group isDigit 1 none],
    litI "Tracking" ++ [plus isSpace] ++ litI "Number" ++ [star isNonDigit] ++ [group isDigit 1 none],
    litI "tracking" ++ [plus isSpace] ++ litI "number" ++ [star isSpace] ++ litI ":" ++
      [star isSpace] ++ [group isDigit 1 none] ]

/-- The two patterns of `upsPatterns`:
`/UPS\s+Tracking[^\d]*(\d+)/i`, `/UPS[^\d]*(\d{1,2}[A-Z]\d{10})/i`. -/
def upsPatterns : List Pattern :=
  [ litI "UPS" ++ [plus isSpace] ++ litI "Tracking" ++ [star isNonDigit] ++ [group isDigit 1 none],
    litI "UPS" ++ [star isNonDigit] ++
      [group isDigit 1 (some 2), group isLetter 1 (some 1), group isDigit 10 (some 10)] ]

/-- The pattern `/(\d{10,})/`. -/
def hrefPattern : Pattern := [group isDigit 10 none]

/-- The pattern `/Billing Address\s*(?::|)\s*([A-Za-z\s]+)/`; the
alternative `(?::|)` tries the colon first and the empty text second, which
is the greedy optional colon. -/
def billingPattern : Pattern :=
  lit "Billing Address" ++ [star isSpace, opt (isChar ':'), star isSpace, group isNameChar 1 none]

/-- The pattern `/Dear\s+([A-Za-z\s]+),/`. -/
def dearPattern : Pattern :=
  lit "Dear" ++ [plus isSpace, group isNameChar 1 none] ++ lit ","

/-- The pattern `/Thank you,\s+([A-Za-z\s]+)/`. -/
def thankYouPattern : Pattern :=
  lit "Thank you," ++ [plus isSpace, group isNameChar 1 none]

/-! ## Values, documents and the loaded HTML -/

/-- The value of a property of the email object: missing, `null`, a string,
or any other value (of which only the truthiness matters). -/
inductive JsValue where
  | undefined
  | null
  | str (s : Str)
  | other (truthy : Bool)

/-- JavaScript truthiness of a property value. -/
def JsValue.truthy : JsValue → Bool
  | .str (_ :: _) => true
  | .other t => t
  | _ => false

/-- Truthiness of a string-or-null local variable. -/
def truthyStr : Option Str → Bool
  | some (_ :: _) => true
  | _ => false

/-- The email content object handed to the extractors. -/
structure EmailContent where
  subject : JsValue
  body : JsValue

/-- What the source reads from a document loaded by cheerio. -/
structure Dom where
  /-- The text of the body element. -/
  bodyText : Str
  /-- The text of each element whose class attribute contains "order". -/
  orderElements : List Str
  /-- The href of each anchor whose href contains "tracking", in document order. -/
  trackingHrefs : List Str
  /-- The text of each element of the closest table, div or section ancestors
  of the elements that contain "Billing Address". -/
  billingSections : List Str

/-- The method `text()` of a selection: the combined text of its elements. -/
def selectionText (els : List Str) : Str := els.flatten

/-- The library: `load` on a string, and `load` on a truthy value that is
not a string (which may throw). -/
structure Cheerio where
  load : Str → Dom
  loadOther : Except String Dom

/-- The call `cheerio.load(emailContent.body)`. -/
def cheerioLoad (ch : Cheerio) : JsValue → Except String Dom
  | .str b => .ok (ch.load b)
  | _ => ch.loadOther

/-- The call `value.match(pattern)`: a TypeError when the value is not a string. -/
def jsMatch (v : JsValue) (p : Pattern) : Except String (Option Str) :=
  match v with
  | .str s => .ok (reMatch p s)
  | _ => .error "TypeError"

/-- The result object of the tracking extractor. -/
structure TrackingInfo where
  orderNumber : Option Str
  trackingNumber : Option Str
  carrier : Option Str
  deriving DecidableEq

/-! ## The three extractors -/

/-- The first pattern of a list that matches the text with a truthy group:
the loops over `uspsPatterns` and `upsPatterns`. -/
def firstMatch (text : Str) : List Pattern → Option Str
  | [] => none
  | p :: ps =>
    if truthyStr (reMatch p text) then reMatch p text else firstMatch text ps

/-- The body of the `try` block of `extractOrderNumberFromTrackingEmail`. -/
def orderNumberTry (ch : Cheerio) (emailContent : Option EmailContent) :
    Except String (Option Str) :=
  match emailContent with
  | none => .ok none
  | some e =>
    if !e.subject.truthy then .ok none
    else do
      let subjectMatch ← jsMatch e.subject subjectPattern
      if truthyStr subjectMatch then return subjectMatch
      if e.body.truthy then
        let dom ← cheerioLoad ch e.body
        let orderText := reMatch orderTextPattern dom.bodyText
        if truthyStr orderText then return orderText
        let orderElement := reMatch orderElementPattern (selectionText dom.orderElements)
        if truthyStr orderElement then return orderElement
      return none

/-- The method `extractOrderNumberFromTrackingEmail`. -/
def extractOrderNumberFromTrackingEmail (ch : Cheerio)
    (emailContent : Option EmailContent) : Option Str :=
  match orderNumberTry ch emailContent with
  | .ok r => r
  | .error _ => none

/-- The tracking-link step: the first anchor only. -/
def linkStep (dom : Dom) : Option Str × Option Str :=
  match dom.trackingHrefs with
  | [] => (none, none)
  | href :: _ =>
    let m := reMatch hrefPattern href
    if truthyStr m then
      (m, some (if includes href "usps".toList then "USPS".toList
                else if includes href "ups".toList then "UPS".toList else "Other".toList))
    else (none, none)

/-- The three steps that set `trackingNumber` and `carrier`. -/
def trackingSteps (dom : Dom) : Option Str × Option Str :=
  let usps := firstMatch dom.bodyText uspsPatterns
  if truthyStr usps then (usps, some "USPS".toList)
  else
    let ups := firstMatch dom.bodyText upsPatterns
    if truthyStr ups then (ups, some "UPS".toList)
    else linkStep dom

/-- The body of the `try` block of `extractTrackingNumberFromEmail`. -/
def trackingTry (ch : Cheerio) (emailContent : Option EmailContent) :
    Except String (Option TrackingInfo) :=
  match emailContent with
  | none => .ok none
  | some e =>
    if !e.body.truthy then .ok none
    else do
      let dom ← cheerioLoad ch e.body
      let subjectMatch ← jsMatch e.subject subjectPattern
      let orderNumber := if truthyStr subjectMatch then subjectMatch else none
      let (trackingNumber, carrier) := trackingSteps dom
      if truthyStr trackingNumber then
        return some ⟨orderNumber, trackingNumber, carrier⟩
      return none

/-- The method `extractTrackingNumberFromEmail`. -/
def extractTrackingNumberFromEmail (ch : Cheerio)
    (emailContent : Option EmailContent) : Option TrackingInfo :=
  match trackingTry ch emailContent with
  | .ok r => r
  | .error _ => none

/-- A match whose group is truthy, trimmed: `m && m[1]` then `m[1].trim()`. -/
def trimmedGroup (m : Option Str) : Option Str :=
  if truthyStr m then m.map trim else none

/-- The billing step of the customer-name extractor. -/
def billingStep (dom : Dom) : Option Str :=
  if dom.billingSections.length > 0 then
    trimmedGroup (reMatch billingPattern (selectionText dom.billingSections))
  else none

/-- The three steps that set `customerName`. -/
def customerNameSteps (dom : Dom) : Option Str :=
  let c1 := billingStep dom
  let c2 := if !truthyStr c1 then
      (let m := reMatch dearPattern dom.bodyText
       if truthyStr m then m.map trim else c1)
    else c1
  let c3 := if !truthyStr c2 then
      (let m := reMatch thankYouPattern dom.bodyText
       if truthyStr m then m.map trim else c2)
    else c2
  c3

/-- The body of the `try` block of `extractCustomerNameFromConfirmationEmail`. -/
def customerNameTry (ch : Cheerio) (emailContent : Option EmailContent) :
    Except String (Option Str) :=
  match emailContent with
  | none => .ok none
  | some e =>
    if !e.body.truthy then .ok none
    else do
      let dom ← cheerioLoad ch e.body
      let customerName := customerNameSteps dom
      if truthyStr customerName then return customerName
      return none

/-- The method `extractCustomerNameFromConfirmationEmail`. -/
def extractCustomerNameFromConfirmationEmail (ch : Cheerio)
    (emailContent : Option EmailContent) : Option Str :=
  match customerNameTry ch emailContent with
  | .ok r => r
  | .error _ => none


/-! ## The methods with their `catch` handler -/

/-- The whole method `extractOrderNumberFromTrackingEmail` as a computation
that may raise: the `try` block, and the `catch` handler that logs the error
and returns null. -/
def orderNumberMethod (ch : Cheerio) (emailContent : Option EmailContent) :
    Except String (Option Str) :=
  tryCatch (orderNumberTry ch emailContent) fun _ => pure none

/-- The whole method `extractTrackingNumberFromEmail` as a computation that may raise. -/
def trackingMethod (ch : Cheerio) (emailContent : Option EmailContent) :
    Except String (Option TrackingInfo) :=
  tryCatch (trackingTry ch emailContent) fun _ => pure none

/-- The whole method `extractCustomerNameFromConfirmationEmail` as a
computation that may raise. -/
def customerNameMethod (ch : Cheerio) (emailContent : Option EmailContent) :
    Except String (Option Str) :=
  tryCatch (customerNameTry ch emailContent) fun _ => pure none

/-! ## Vocabulary of the statements -/

/-- Whether the text starts with the characters `l`, each compared by `f`. -/
def startsWith (f : Char → Char → Bool) : List Char → Str → Bool
  | [], _ => true
  | _ :: _, [] => false
  | p :: ps, c :: cs => f p c && startsWith f ps cs

/-- The text `s` holds `(#` + `ds` + `)` right after the prefix `pre`, where
`ds` is one or more decimal digits. -/
def OrderRefAt (s pre ds : Str) : Prop :=
  ds ≠ [] ∧ (∀ c ∈ ds, isDigit c = true) ∧
    ∃ post, s = pre ++ "(#".toList ++ ds ++ ")".toList ++ post

/-- The digits `ds` are those of the leftmost `(#digits)` of the text `s`. -/
def LeftmostOrderRef (s ds : Str) : Prop :=
  ∃ pre, OrderRefAt s pre ds ∧ ∀ pre' ds', OrderRefAt s pre' ds' → pre.length ≤ pre'.length

/-- The text `s` holds no `(#digits)` at all. -/
def NoOrderRef (s : Str) : Prop := ∀ pre ds, ¬ OrderRefAt s pre ds

/-- The text `u` is the literal `l` up to ASCII letter case. -/
def EqIgnoreCase (u : Str) (l : String) : Prop :=
  u.map Char.toUpper = l.toList.map Char.toUpper

instance instDecidableEqIgnoreCase (u : Str) (l : String) : Decidable (EqIgnoreCase u l) :=
  inferInstanceAs (Decidable (u.map Char.toUpper = l.toList.map Char.toUpper))

/-- The text `s` holds, right after the prefix `pre`, the word `w1`, one or
more whitespace characters and the word `w2` (both in any letter case), and
`rest` is what follows. -/
def PhraseAt (w1 w2 : String) (s pre rest : Str) : Prop :=
  ∃ u ws v, s = pre ++ u ++ ws ++ v ++ rest ∧ EqIgnoreCase u w1 ∧
    ws ≠ [] ∧ (∀ c ∈ ws, isSpace c = true) ∧ EqIgnoreCase v w2

/-- The run `ds` is the first maximal run of decimal digits of the text `t`. -/
def FirstDigitRun (t ds : Str) : Prop :=
  ∃ mid post, t = mid ++ ds ++ post ∧ (∀ c ∈ mid, isDigit c = false) ∧
    ds ≠ [] ∧ (∀ c ∈ ds, isDigit c = true) ∧ (∀ c ∈ post.head?, isDigit c = false)

/-- The text `t` is optional whitespace, an optional colon, optional
whitespace and then `run`, a maximal run of ASCII letters and whitespace that
holds at least one letter. -/
def NameAfterLabel (t run : Str) : Prop :=
  ∃ ws1 col ws2 post, t = ws1 ++ col ++ ws2 ++ run ++ post ∧
    (∀ c ∈ ws1, isSpace c = true) ∧ (col = [] ∨ col = [':']) ∧
    (∀ c ∈ ws2, isSpace c = true) ∧ (∀ c ∈ run, isNameChar c = true) ∧
    (∃ c ∈ run, isLetter c = true) ∧ (∀ c ∈ post.head?, isNameChar c = false)


/-- No USPS pattern and no UPS pattern matches the body text, and the first
tracking link, if there is one, holds no run of ten digits. -/
def NothingFound (dom : Dom) : Prop :=
  (∀ p ∈ uspsPatterns, reMatch p dom.bodyText = none) ∧
  (∀ p ∈ upsPatterns, reMatch p dom.bodyText = none) ∧
  (∀ href ∈ dom.trackingHrefs.head?, reMatch hrefPattern href = none)

/-- A property value that is absent or the empty string. -/
def AbsentOrEmpty (v : JsValue) : Prop :=
  v = .undefined ∨ v = .null ∨ v = .str []

/-- The pattern has a term inside the group that takes at least one character. -/
def HasGroup (p : Pattern) : Prop := ∃ a ∈ p, a.cap = true ∧ 1 ≤ a.min


/-- The run `ds` is the first maximal run of digits after the leftmost place
where the text holds the word `w1`, whitespace and the word `w2` with a
decimal digit somewhere after them. -/
def LeftmostPhraseDigits (w1 w2 : String) (text ds : Str) : Prop :=
  ∃ pre rest, PhraseAt w1 w2 text pre rest ∧ FirstDigitRun rest ds ∧
    ∀ pre' rest', PhraseAt w1 w2 text pre' rest' →
      (∃ c ∈ rest', isDigit c = true) → pre.length ≤ pre'.length


/-- The value `v` is that of the leftmost occurrence in `text`, where
`Occ text pre v` says that an occurrence with value `v` starts right after
the prefix `pre` of `text`. -/
def Leftmost (Occ : Str → Str → Str → Prop) (text v : Str) : Prop :=
  ∃ pre, Occ text pre v ∧ ∀ pre' v', Occ text pre' v' → pre.length ≤ pre'.length

/-- The run `ds` is the maximal run of decimal digits at the head of `t`, and
it is not empty. -/
def LeadingDigitRun (t ds : Str) : Prop :=
  ∃ post, t = ds ++ post ∧ ds ≠ [] ∧ (∀ c ∈ ds, isDigit c = true) ∧
    (∀ c ∈ post.head?, isDigit c = false)

/-- Right after the prefix `pre`, the text holds the word `Order` (any letter
case), one or more whitespace characters, `#` and the digits `ds`, all the
digits that follow. -/
def OrderTextAt (text pre ds : Str) : Prop :=
  ∃ rest, PhraseAt "Order" "#" text pre rest ∧ LeadingDigitRun rest ds


/-- Right after the prefix `pre`, the text holds the digits `ds`, at least
`n` of them, and no digit follows them. -/
def LongDigitRunAt (n : Nat) (text pre ds : Str) : Prop :=
  ∃ post, text = pre ++ ds ++ post ∧ n ≤ ds.length ∧ (∀ c ∈ ds, isDigit c = true) ∧
    (∀ c ∈ post.head?, isDigit c = false)

/-- The run `ds` is the leftmost maximal run of `n` or more digits of the
text: no digit stands before it, none after it, it has at least `n` digits,
and no `n` digits in a row start before it. -/
def LeftmostLongDigitRun (n : Nat) (text ds : Str) : Prop :=
  ∃ pre post, text = pre ++ ds ++ post ∧ n ≤ ds.length ∧ (∀ c ∈ ds, isDigit c = true) ∧
    (∀ c ∈ pre.getLast?, isDigit c = false) ∧ (∀ c ∈ post.head?, isDigit c = false) ∧
    ∀ pre' ds' post', text = pre' ++ ds' ++ post' → n ≤ ds'.length →
      (∀ c ∈ ds', isDigit c = true) → pre.length ≤ pre'.length

/-- The text holds no `n` digits in a row. -/
def NoLongDigitRun (n : Nat) (text : Str) : Prop :=
  ∀ pre ds post, text = pre ++ ds ++ post → (∀ c ∈ ds, isDigit c = true) → ds.length < n


/-- Right after the prefix `pre`, the text holds `UPS` (any letter case), any
characters that are not digits, and then `code`: one or two digits, an ASCII
letter and ten digits. -/
def UpsCodeAt (text pre code : Str) : Prop :=
  ∃ u mid d l ten post, text = pre ++ u ++ mid ++ d ++ [l] ++ ten ++ post ∧
    EqIgnoreCase u "UPS" ∧ (∀ c ∈ mid, isDigit c = false) ∧
    (d.length = 1 ∨ d.length = 2) ∧ (∀ c ∈ d, isDigit c = true) ∧ isLetter l = true ∧
    ten.length = 10 ∧ (∀ c ∈ ten, isDigit c = true) ∧ code = d ++ [l] ++ ten


/-- The shape `\d{1,2}[A-Z]\d{10}` under the `i` flag at the head of `t`: one
or two digits, an ASCII letter and ten digits, which together are `code`. -/
def UpsCodeHere (t code : Str) : Prop :=
  ∃ d l ten post, t = d ++ [l] ++ ten ++ post ∧
    (d.length = 1 ∨ d.length = 2) ∧ (∀ c ∈ d, isDigit c = true) ∧ isLetter l = true ∧
    ten.length = 10 ∧ (∀ c ∈ ten, isDigit c = true) ∧ code = d ++ [l] ++ ten


/-- The text `s` contains the text `sub`. -/
def Contains (s : Str) (sub : String) : Prop := ∃ a b, s = a ++ sub.toList ++ b


/-- The text `after` is one or more whitespace characters, then `run`, a run
of ASCII letters and whitespace that holds at least one letter, and then a
comma. -/
def NameAfterDear (after run : Str) : Prop :=
  ∃ ws post, after = ws ++ run ++ ",".toList ++ post ∧ ws ≠ [] ∧
    (∀ c ∈ ws, isSpace c = true) ∧ (∀ c ∈ run, isNameChar c = true) ∧
    (∃ c ∈ run, isLetter c = true)


/-! ## The order-number extractor as a run on a state

A run of the method works on a state made of the document it is handed and
of the lines written through the logger. Every step of the method takes the
state and gives it back, so that the state after a run is the one the steps
of the method have produced. -/

/-- A line written through the logger: its level and its message. -/
structure LogLine where
  level : Str
  message : Str
  deriving DecidableEq

/-- The state a run works on: the document and the lines logged so far. -/
structure RunState where
  document : Option EmailContent
  log : List LogLine

/-- A call of the logger: one more line in the log. -/
def logWrite (level : String) (message : Str) (st : RunState) : RunState :=
  { st with log := st.log ++ [⟨level.toList, message⟩] }

/-- The message of the call of `logger.info` that reports where the number
was found. -/
def extractedMessage (number : Option Str) (place : String) : Str :=
  "Extracted order number ".toList ++ number.getD [] ++ " from ".toList ++ place.toList

/-- The `try` block of `extractOrderNumberFromTrackingEmail`, step by step on
the state: the value returned or the error raised, and the state reached. -/
def orderNumberBody (ch : Cheerio) (st : RunState) : Except String (Option Str) × RunState :=
  match st.document with
  | none => (.ok none, logWrite "error" "Invalid email content provided".toList st)
  | some e =>
    if !e.subject.truthy then
      (.ok none, logWrite "error" "Invalid email content provided".toList st)
    else
      match jsMatch e.subject subjectPattern with
      | .error err => (.error err, st)
      | .ok subjectMatch =>
        if truthyStr subjectMatch then
          (.ok subjectMatch, logWrite "info" (extractedMessage subjectMatch "subject") st)
        else if e.body.truthy then
          match cheerioLoad ch e.body with
          | .error err => (.error err, st)
          | .ok dom =>
            let orderText := reMatch orderTextPattern dom.bodyText
            if truthyStr orderText then
              (.ok orderText, logWrite "info" (extractedMessage orderText "body text") st)
            else
              let orderElement := reMatch orderElementPattern (selectionText dom.orderElements)
              if truthyStr orderElement then
                (.ok orderElement,
                  logWrite "info" (extractedMessage orderElement "order element") st)
              else
                (.ok none, logWrite "warn" "Could not extract order number from email".toList st)
        else (.ok none, logWrite "warn" "Could not extract order number from email".toList st)

/-- One run of `extractOrderNumberFromTrackingEmail` on a state: the `catch`
handler logs the error and returns null. -/
def orderNumberRun (ch : Cheerio) (st : RunState) : Option Str × RunState :=
  match orderNumberBody ch st with
  | (.ok r, st1) => (r, st1)
  | (.error message, st1) =>
    (none, logWrite "error" ("Error extracting order number: ".toList ++ message.toList) st1)

/-! ## The tracking extractor over a list of USPS patterns

The same method with the list `uspsPatterns` made a parameter, to compare
the source with a version that holds fewer patterns. -/

/-- The steps of `trackingSteps` over a given list of USPS patterns. -/
def trackingStepsOver (usps : List Pattern) (dom : Dom) : Option Str × Option Str :=
  let found := firstMatch dom.bodyText usps
  if truthyStr found then (found, some "USPS".toList)
  else
    let ups := firstMatch dom.bodyText upsPatterns
    if truthyStr ups then (ups, some "UPS".toList)
    else linkStep dom

/-- The `try` block of `trackingTry` over a given list of USPS patterns. -/
def trackingTryOver (usps : List Pattern) (ch : Cheerio) (emailContent : Option EmailContent) :
    Except String (Option TrackingInfo) :=
  match emailContent with
  | none => .ok none
  | some e =>
    if !e.body.truthy then .ok none
    else do
      let dom ← cheerioLoad ch e.body
      let subjectMatch ← jsMatch e.subject subjectPattern
      let orderNumber := if truthyStr subjectMatch then subjectMatch else none
      let (trackingNumber, carrier) := trackingStepsOver usps dom
      if truthyStr trackingNumber then
        return some ⟨orderNumber, trackingNumber, carrier⟩
      return none

/-- The tracking extractor over a given list of USPS patterns. -/
def extractTrackingOver (usps : List Pattern) (ch : Cheerio)
    (emailContent : Option EmailContent) : Option TrackingInfo :=
  match trackingTryOver usps ch emailContent with
  | .ok r => r
  | .error _ => none

/-- The list that holds only the first two USPS patterns. -/
def uspsFirstTwo : List Pattern := uspsPatterns.take 2

end ParserService

/-!
# The email content normalizer

A shallow embedding of `getEmailContent` of
`backend/src/services/gmailService.js`. The raw envelope is any JSON value,
such as the mail API returns; it is read the way the source reads it, so
that a value that is not what the source expects stands where it belongs:

* the envelope: absent when the value is falsy (the method returns null at
  once);
* a payload, a body object: absent when the value is undefined or null
  (reading a property of it raises a TypeError); a value of another type,
  which has none of the properties read, is the object without them;
* `payload.headers`: absent when the value is not an array (the call of
  `forEach` raises a TypeError);
* an entry of the header array: its name is absent when the entry is null or
  its `name` is not a string (the call of `toLowerCase` raises a TypeError);
  its value is a string or absent (a value of another type raises no error
  either, and is the one thing left out);
* `payload.parts`: absent when falsy, an array, or another truthy value (the
  call of `find` raises a TypeError); an entry of the array is absent when it
  is null (reading its `mimeType` raises a TypeError);
* `data`: absent when falsy and not a string, a string, or another truthy
  value, which `Buffer.from` rejects with a TypeError or reads as bytes.

`String.prototype.toLowerCase` and the decoding
`Buffer.from(data, 'base64').toString('utf8')` of a string are parameters of
the method; `nodeBase64` below is the decoding of the platform.
-/

namespace GmailService

open ParserService (Str)

/-- One entry of `payload.headers`: `name` is absent when the entry is null
or has no string as its name, `value` is absent when the entry has none. -/
structure Header where
  name : Option Str
  value : Option Str

/-- The property `data` of a body object. -/
inductive BodyData where
  /-- The value is undefined, null or another falsy value that is no string -/
  | absent
  /-- The value is a string; the empty string is falsy -/
  | text (s : Str)
  /-- The value is truthy and no string: `Buffer.from` raises a TypeError on
  it (`none`: a number, a boolean, a plain object), or reads it as bytes of
  which `decoded` is the text (an array) -/
  | other (decoded : Option Str)
  deriving DecidableEq

/-- The object `body` of a payload or of a part. -/
structure MessageBody where
  data : BodyData

/-- One entry of `payload.parts` that is not null. -/
structure Part where
  mimeType : Option Str
  body : Option MessageBody

/-- The property `payload.parts`. -/
inductive Parts where
  /-- The value is falsy -/
  | absent
  /-- The value is an array; an entry is absent when it is null -/
  | array (items : List (Option Part))
  /-- The value is truthy and no array -/
  | other

/-- The object `payload` of a raw email. -/
structure Payload where
  headers : Option (List Header)
  body : Option MessageBody
  parts : Parts

/-- The raw email handed to `getEmailContent`. -/
structure Email where
  id : Option Str
  threadId : Option Str
  payload : Option Payload

/-- The built-ins the method calls on strings: `name.toLowerCase()` and
`Buffer.from(data, 'base64').toString('utf8')`. -/
structure Node where
  toLowerCase : Str → Str
  decodeBase64 : Str → Str

/-- The object literal `{}` used as a mapping: its own properties, in
insertion order; the value of a property is a string or undefined. -/
abbrev Obj := List (Str × Option Str)

/-- Writing an own property: an existing key keeps its place. -/
def setOwn : Obj → Str → Option Str → Obj
  | [], k, v => [(k, v)]
  | (k', v') :: rest, k, v =>
    if k' = k then (k', v) :: rest else (k', v') :: setOwn rest k v

/-- Reading an own property. -/
def getOwn : Obj → Str → Option Str
  | [], _ => none
  | (k', v') :: rest, k => if k' = k then v' else getOwn rest k

/-- The assignment `headers[k] = v` of a string or of undefined to an object
created by `{}`. For every key but one it writes an own property. The key
`__proto__` is an accessor inherited from `Object.prototype`, whose setter
ignores a value that is neither an object nor null: the assignment then
changes nothing. -/
def assign (o : Obj) (k : Str) (v : Option Str) : Obj :=
  if k = "__proto__".toList then o else setOwn o k v

/-- The callback of `forEach`: `headers[header.name.toLowerCase()] = header.value`. -/
def headerStep (node : Node) (o : Obj) (header : Header) : Except String Obj :=
  match header.name with
  | none => .error "TypeError"
  | some name => .ok (assign o (node.toLowerCase name) header.value)

/-- The loop `payload.headers.forEach(...)` on the empty object. -/
def buildHeaders (node : Node) : List Header → Obj → Except String Obj
  | [], o => .ok o
  | header :: rest, o =>
    match headerStep node o header with
    | .error e => .error e
    | .ok o1 => buildHeaders node rest o1

/-- The expression `value || ''` on a string or undefined. -/
def orEmpty : Option Str → Str
  | some (c :: cs) => c :: cs
  | _ => []

/-- Truthiness of `body.data`. -/
def truthyData : BodyData → Bool
  | .text (_ :: _) => true
  | .other _ => true
  | _ => false

/-- The expression `Buffer.from(data, 'base64').toString('utf8')`. -/
def decodeData (node : Node) : BodyData → Except String Str
  | .text s => .ok (node.decodeBase64 s)
  | .other (some decoded) => .ok decoded
  | .other none => .error "TypeError"
  | .absent => .error "TypeError"

/-- The call `parts.find(part => part.mimeType === mime)`: the callback
raises on a null entry that it reaches. -/
def findPart (mime : Str) : List (Option Part) → Except String (Option Part)
  | [] => .ok none
  | none :: _ => .error "TypeError"
  | some part :: rest =>
    if part.mimeType == some mime then .ok (some part) else findPart mime rest

/-- The expression `part.body.data`: a TypeError when the part has no body. -/
def partBodyData (part : Part) : Except String BodyData :=
  match part.body with
  | none => .error "TypeError"
  | some b => .ok b.data

/-- The expression `part && part.body.data` on the result of `find`. -/
def foundPartData : Option Part → Except String BodyData
  | none => .ok .absent
  | some part => partBodyData part

/-- The branch `else if (email.payload.parts)` on an array: the two calls of
`find`, then the html part first and the plain text part second. -/
def bodyFromParts (node : Node) (items : List (Option Part)) : Except String Str := do
  let htmlPart ← findPart "text/html".toList items
  let textPart ← findPart "text/plain".toList items
  let htmlData ← foundPartData htmlPart
  if truthyData htmlData then decodeData node htmlData
  else
    let textData ← foundPartData textPart
    if truthyData textData then decodeData node textData
    else pure []

/-- The statement that sets `body`: the data of the payload body when there
is some, else the parts when there are parts, else the empty text. -/
def selectBody (node : Node) (payloadBody : MessageBody) (parts : Parts) :
    Except String Str :=
  if truthyData payloadBody.data then decodeData node payloadBody.data
  else
    match parts with
    | .absent => pure []
    | .other => .error "TypeError"
    | .array items => bodyFromParts node items

/-- The object returned by `getEmailContent`; `sender` is its property `from`. -/
structure EmailDocument where
  id : Option Str
  threadId : Option Str
  subject : Str
  body : Str
  headers : Obj
  date : Option Str
  sender : Option Str
  deriving DecidableEq

/-- The body of the `try` block of `getEmailContent`. -/
def getEmailContentTry (node : Node) (email : Option Email) :
    Except String (Option EmailDocument) :=
  match email with
  | none => .ok none
  | some email => do
    let payload ← match email.payload with
      | none => Except.error "TypeError"
      | some p => pure p
    let hs ← match payload.headers with
      | none => Except.error "TypeError"
      | some hs => pure hs
    let headers ← buildHeaders node hs []
    let subject := orEmpty (getOwn headers "subject".toList)
    let payloadBody ← match payload.body with
      | none => Except.error "TypeError"
      | some b => pure b
    let body ← selectBody node payloadBody payload.parts
    return some ⟨email.id, email.threadId, subject, body, headers,
      getOwn headers "date".toList, getOwn headers "from".toList⟩

/-- The method `getEmailContent`: the `catch` handler returns null. -/
def getEmailContent (node : Node) (email : Option Email) : Option EmailDocument :=
  match getEmailContentTry node email with
  | .ok r => r
  | .error _ => none

/-- The method `getEmailContent` as a computation that may raise: the `try`
block, and the `catch` handler that logs the error and returns null. -/
def getEmailContentMethod (node : Node) (email : Option Email) :
    Except String (Option EmailDocument) :=
  tryCatch (getEmailContentTry node email) fun _ => pure none

/-! ## Vocabulary of the statements on the envelope -/

/-- The mapping that the loop builds when every entry has a name. -/
def headersOf (node : Node) (hs : List Header) : Obj :=
  hs.foldl (fun o h => assign o (node.toLowerCase (h.name.getD [])) h.value) []

/-- Some entry of the header array is null or has no string as its name. -/
def namelessHeader (hs : List Header) : Bool :=
  hs.any fun h => h.name.isNone

/-- The first part of a MIME type, the null entries set aside. -/
def firstPart (mime : Str) : List (Option Part) → Option Part
  | [] => none
  | none :: rest => firstPart mime rest
  | some part :: rest =>
    if part.mimeType == some mime then some part else firstPart mime rest

/-- A null entry stands before the first part of a MIME type, or anywhere in
an array without a part of that type. -/
def nullBefore (mime : Str) : List (Option Part) → Bool
  | [] => false
  | none :: _ => true
  | some part :: rest =>
    if part.mimeType == some mime then false else nullBefore mime rest

/-- The data of the first part of a MIME type: absent when there is no such
part or when it has no body object. -/
def partData (mime : Str) (items : List (Option Part)) : BodyData :=
  match firstPart mime items with
  | some ⟨_, some b⟩ => b.data
  | _ => .absent

/-- The first part of a MIME type exists and has no body object. -/
def firstPartLacksBody (mime : Str) (items : List (Option Part)) : Bool :=
  match firstPart mime items with
  | some ⟨_, none⟩ => true
  | _ => false

/-- The data is a truthy value that is no string and that `Buffer.from`
rejects. -/
def rejected : BodyData → Bool
  | .other none => true
  | _ => false

/-- Reading the array of parts raises an error: a null entry stands before
the first `text/html` part or before the first `text/plain` part; or the
first `text/html` part has no body object, or data that is rejected; or no
data comes from the `text/html` part and the first `text/plain` part has no
body object, or data that is rejected. -/
def partsRaise (items : List (Option Part)) : Bool :=
  nullBefore "text/html".toList items || nullBefore "text/plain".toList items ||
    firstPartLacksBody "text/html".toList items ||
    rejected (partData "text/html".toList items) ||
    (!truthyData (partData "text/html".toList items) &&
      (firstPartLacksBody "text/plain".toList items ||
        rejected (partData "text/plain".toList items)))

/-- Setting the body raises an error: the data of the payload body is
rejected; or the payload body carries no data and the parts are a truthy
value that is no array, or an array the reading of which raises. -/
def selectionRaises (payloadBody : MessageBody) (parts : Parts) : Bool :=
  rejected payloadBody.data ||
    (!truthyData payloadBody.data &&
      match parts with
      | .absent => false
      | .other => true
      | .array items => partsRaise items)

/-- The selected body data: the data of the payload body when it is truthy,
else that of the first `text/html` part when it is truthy, else that of the
first `text/plain` part when it is truthy, else none. -/
def selectedData (payloadBody : MessageBody) (parts : Parts) : BodyData :=
  if truthyData payloadBody.data then payloadBody.data
  else
    match parts with
    | .array items =>
      if truthyData (partData "text/html".toList items) then partData "text/html".toList items
      else if truthyData (partData "text/plain".toList items) then
        partData "text/plain".toList items
      else .absent
    | _ => .absent

/-- The body made of the selected data: the decoding of a string, the text
of the bytes of another value, or the empty text when no data is selected. -/
def bodyOf (node : Node) : BodyData → Str
  | .text s => node.decodeBase64 s
  | .other (some decoded) => decoded
  | _ => []

/-- The payload, its header array or its body object is missing. -/
def missingObject (email : Email) : Bool :=
  match email.payload with
  | none => true
  | some p => p.headers.isNone || p.body.isNone

/-- Some part of the payload has no body object. -/
def somePartLacksBody (email : Email) : Bool :=
  match email.payload with
  | some ⟨_, _, .array items⟩ =>
    items.any fun item =>
      match item with
      | some part => part.body.isNone
      | none => false
  | _ => false

/-! ## The decoder of the platform

`Buffer.from(data, 'base64')` on a string does not validate it: it reads the
characters of the standard and of the URL-safe alphabet, passes over every
other character (white space among them) and stops at the first `=`; four
characters give three bytes, a rest of three gives two and a rest of two
gives one. `toString('utf8')` then decodes the bytes as UTF-8, with U+FFFD
for every byte sequence that is not well formed. The functions below follow
that behaviour for data made of characters below U+0100, which is all that
the statements use them for. -/

/-- The six bits of a character of the standard or of the URL-safe alphabet. -/
def unbase64 (c : Char) : Option Nat :=
  let n := c.toNat
  if 65 ≤ n ∧ n ≤ 90 then some (n - 65)
  else if 97 ≤ n ∧ n ≤ 122 then some (n - 71)
  else if 48 ≤ n ∧ n ≤ 57 then some (n + 4)
  else if c = '+' ∨ c = '-' then some 62
  else if c = '/' ∨ c = '_' then some 63
  else none

/-- The sextets of the characters that the decoder reads: those of the two
alphabets that stand before the first `=`. -/
def readableSextets (data : Str) : List Nat :=
  (data.takeWhile fun c => c != '=').filterMap unbase64

/-- Groups of four sextets give three bytes; a rest of three gives two bytes,
a rest of two gives one. -/
def sextetsToBytes : List Nat → List Nat
  | a :: b :: c :: d :: rest =>
    (a * 4 + b / 16) :: ((b % 16) * 16 + c / 4) :: ((c % 4) * 64 + d) :: sextetsToBytes rest
  | [a, b, c] => [a * 4 + b / 16, (b % 16) * 16 + c / 4]
  | [a, b] => [a * 4 + b / 16]
  | _ => []

/-- The state of the UTF-8 decoder: the number of bytes that the open
sequence still needs, the code point read so far, and the bounds of the next
byte. -/
structure Utf8State where
  needed : Nat
  codePoint : Nat
  lower : Nat
  upper : Nat

/-- The state between two sequences. -/
def utf8Idle : Utf8State := ⟨0, 0, 128, 191⟩

/-- A byte read between two sequences: an ASCII character, the first byte of
a sequence of two, three or four bytes, or a byte that opens nothing, which
gives U+FFFD. -/
def utf8First (b : Nat) : Option Char × Utf8State :=
  if b ≤ 127 then (some (Char.ofNat b), utf8Idle)
  else if 194 ≤ b ∧ b ≤ 223 then (none, ⟨1, b % 32, 128, 191⟩)
  else if 224 ≤ b ∧ b ≤ 239 then
    (none, ⟨2, b % 16, if b = 224 then 160 else 128, if b = 237 then 159 else 191⟩)
  else if 240 ≤ b ∧ b ≤ 244 then
    (none, ⟨3, b % 8, if b = 240 then 144 else 128, if b = 244 then 143 else 191⟩)
  else (some (Char.ofNat 65533), utf8Idle)

/-- The UTF-8 decoding of a list of bytes from a state. A byte that cannot
continue the open sequence ends it with U+FFFD and is read again as a first
byte; a sequence left open at the end gives U+FFFD. -/
def utf8Decode : List Nat → Utf8State → Str
  | [], st => if st.needed = 0 then [] else [Char.ofNat 65533]
  | b :: rest, st =>
    if st.needed = 0 then
      match utf8First b with
      | (some c, st1) => c :: utf8Decode rest st1
      | (none, st1) => utf8Decode rest st1
    else if st.lower ≤ b ∧ b ≤ st.upper then
      if st.needed = 1 then Char.ofNat (st.codePoint * 64 + b % 64) :: utf8Decode rest utf8Idle
      else utf8Decode rest ⟨st.needed - 1, st.codePoint * 64 + b % 64, 128, 191⟩
    else
      match utf8First b with
      | (some c, st1) => Char.ofNat 65533 :: c :: utf8Decode rest st1
      | (none, st1) => Char.ofNat 65533 :: utf8Decode rest st1

/-- The expression `Buffer.from(data, 'base64').toString('utf8')` on a string. -/
def nodeBase64 (data : Str) : Str :=
  utf8Decode (sextetsToBytes (readableSextets data)) utf8Idle

/-- The built-ins of the examples: ASCII lower-casing and the decoder of the
platform. -/
def exampleNode : Node := ⟨fun s => s.map Char.toLower, nodeBase64⟩

/-- A character of the URL-safe alphabet. -/
def isBase64UrlChar (c : Char) : Bool :=
  let n := c.toNat
  (65 ≤ n && n ≤ 90) || (97 ≤ n && n ≤ 122) || (48 ≤ n && n ≤ 57) || c == '-' || c == '_'

/-- A valid base64url encoding: characters of the URL-safe alphabet, their
number not one more than a multiple of four, then at most two `=` that, when
present, complete the last group of four. -/
def validBase64Url (data : Str) : Bool :=
  let core := data.takeWhile isBase64UrlChar
  let pad := data.dropWhile isBase64UrlChar
  pad.all (fun c => c == '=') && core.length % 4 != 1 &&
    (pad.isEmpty || (pad.length ≤ 2 && (core.length + pad.length) % 4 == 0))

end GmailService

/-!
# The two email listings of the API

A shallow embedding of the handlers of `GET /emails/tracking` and
`GET /emails/confirmation/:orderNumber` of `backend/src/index.js`, from the
list of fetched emails on. The callback of `emails.map` reads
`content.subject` of what `getEmailContent` returned, which raises a
TypeError on null; an exception in the callback ends the `map` and is caught
by the handler, which answers with status 500.
-/

namespace ApiRoutes

open ParserService (Str Cheerio EmailContent TrackingInfo JsValue)
open GmailService (Email EmailDocument Node)

/-- The document as the extractors read it: its subject and its body. -/
def toContent : Option EmailDocument → Option EmailContent
  | none => none
  | some doc => some ⟨.str doc.subject, .str doc.body⟩

/-- One entry of the tracking listing. -/
structure TrackingEntry where
  id : Option Str
  threadId : Option Str
  subject : Str
  date : Option Str
  sender : Option Str
  orderNumber : Option Str
  trackingInfo : Option TrackingInfo
  deriving DecidableEq

/-- One entry of the confirmation listing. -/
structure ConfirmationEntry where
  id : Option Str
  threadId : Option Str
  subject : Str
  date : Option Str
  sender : Option Str
  orderNumber : Str
  customerName : Option Str
  deriving DecidableEq

/-- What a handler sends: `res.json({success: true, emails})`, or
`res.status(code).json({success: false, error})`. -/
inductive Response (α : Type) where
  | json (emails : List α)
  | status (code : Nat) (error : String)
  deriving DecidableEq

/-- The callback of `emails.map` in the tracking listing. -/
def trackingEntry (node : Node) (ch : Cheerio) (email : Email) : Except String TrackingEntry :=
  let content := GmailService.getEmailContent node (some email)
  let orderNumber := ParserService.extractOrderNumberFromTrackingEmail ch (toContent content)
  let trackingInfo := ParserService.extractTrackingNumberFromEmail ch (toContent content)
  match content with
  | none => .error "TypeError"
  | some doc =>
    .ok ⟨email.id, email.threadId, doc.subject, doc.date, doc.sender, orderNumber, trackingInfo⟩

/-- The handler of `GET /emails/tracking` on the list of fetched emails. -/
def trackingListing (node : Node) (ch : Cheerio) (emails : List Email) :
    Response TrackingEntry :=
  match emails.mapM (trackingEntry node ch) with
  | .ok processedEmails => .json processedEmails
  | .error message => .status 500 message

/-- The callback of `emails.map` in the confirmation listing. -/
def confirmationEntry (node : Node) (ch : Cheerio) (orderNumber : Str) (email : Email) :
    Except String ConfirmationEntry :=
  let content := GmailService.getEmailContent node (some email)
  let customerName :=
    ParserService.extractCustomerNameFromConfirmationEmail ch (toContent content)
  match content with
  | none => .error "TypeError"
  | some doc =>
    .ok ⟨email.id, email.threadId, doc.subject, doc.date, doc.sender, orderNumber, customerName⟩

/-- The handler of `GET /emails/confirmation/:orderNumber` on the list of
fetched emails; a missing order number is answered with status 400. -/
def confirmationListing (node : Node) (ch : Cheerio) (orderNumber : Str)
    (emails : List Email) : Response ConfirmationEntry :=
  if orderNumber.isEmpty then .status 400 "Order number is required"
  else
    match emails.mapM (confirmationEntry node ch orderNumber) with
    | .ok processedEmails => .json processedEmails
    | .error message => .status 500 message

end ApiRoutes

/-!
# The order service

A shallow embedding of the name filter of
`searchUnfulfilledOrdersByCustomerName` and of `fulfillOrder` of
`backend/src/services/shopifyService.js`. The HTTP client is a parameter:
`get` and `post` give what the source reads of the response
(`data.order`, `data.fulfillment`) or reject with a message. A call of
`fulfillOrder` gives its result together with the HTTP requests it issued,
in order.
-/

namespace ShopifyService

open ParserService (Str trim includes)

/-! ## The name filter -/

/-- The method `String.prototype.split(' ')`. -/
def splitSpaces : Str → List Str
  | [] => [[]]
  | c :: cs =>
    if c = ' ' then [] :: splitSpaces cs
    else
      match splitSpaces cs with
      | [] => [[c]]
      | p :: ps => (c :: p) :: ps

/-- The property `length` of a string: the number of its UTF-16 code units,
two for a character outside the basic plane. -/
def utf16Length (s : Str) : Nat :=
  (s.map fun c => if c.toNat < 65536 then 1 else 2).sum

/-- The two nested loops of the partial match. -/
def partialMatch (searchNameParts orderNameParts : List Str) : Bool :=
  searchNameParts.any fun searchPart =>
    if utf16Length searchPart < 3 then false
    else orderNameParts.any fun orderPart =>
      includes orderPart searchPart || includes searchPart orderPart

/-- The callback of `allOrders.filter`, on the normalized search name and the
customer name of an order. -/
def nameMatches (toLowerCase : Str → Str) (normalizedSearchName customerName : Str) : Bool :=
  if customerName.isEmpty then false
  else
    let orderCustomerName := trim (toLowerCase customerName)
    if orderCustomerName = normalizedSearchName then true
    else partialMatch (splitSpaces normalizedSearchName) (splitSpaces orderCustomerName)

/-- An order as `getUnfulfilledOrders` returns it, reduced to its identifier
and its customer name. -/
structure ProcessedOrder where
  id : Str
  customerName : Str
  deriving DecidableEq

/-- The method `searchUnfulfilledOrdersByCustomerName` on the list that
`getUnfulfilledOrders` returned. -/
def searchUnfulfilledOrdersByCustomerName (toLowerCase : Str → Str)
    (allOrders : List ProcessedOrder) (customerName : Str) : List ProcessedOrder :=
  if customerName.isEmpty then []
  else
    let normalizedSearchName := trim (toLowerCase customerName)
    allOrders.filter fun order => nameMatches toLowerCase normalizedSearchName order.customerName

/-! ## Fulfillment -/

/-- A line item of an order, as far as `fulfillOrder` reads it. -/
structure LineItem where
  id : Nat
  quantity : Nat
  fulfillment_status : Option Str
  deriving DecidableEq

/-- The object `order` of the response; `line_items` may be missing. -/
structure Order where
  line_items : Option (List LineItem)

/-- The argument `trackingInfo`. -/
structure TrackingArg where
  trackingNumber : Option Str
  carrier : Option Str

/-- The configuration read by `initialize`. -/
structure Config where
  shop_url : Str
  api_key : Str
  password : Str

/-- The state of the service. -/
structure Service where
  config : Option Config
  initialized : Bool

/-- The object `auth` of a request. -/
structure Auth where
  username : Str
  password : Str
  deriving DecidableEq

/-- One entry of `line_items` in the fulfillment request. -/
structure FulfillmentItem where
  id : Nat
  quantity : Nat
  deriving DecidableEq

/-- The object `fulfillmentData.fulfillment`. -/
structure FulfillmentData where
  line_items : List FulfillmentItem
  tracking_number : Str
  tracking_company : Str
  notify_customer : Bool
  deriving DecidableEq

/-- The object `fulfillment` of the response: `id` is the text that
`id.toString()` gives, absent when the response holds no `id`. -/
structure Fulfillment where
  id : Option Str

/-- The HTTP client: `get` gives `response.data.order` and `post` gives
`response.data.fulfillment`, each possibly undefined, or the request rejects
with an error of the given message. -/
structure Axios where
  get : Str → Auth → Except Str (Option Order)
  post : Str → FulfillmentData → Auth → Except Str (Option Fulfillment)

/-- An HTTP request issued by the service. -/
inductive Request where
  | get (url : Str) (auth : Auth)
  | post (url : Str) (data : FulfillmentData) (auth : Auth)
  deriving DecidableEq

/-- The object that `fulfillOrder` resolves to. -/
inductive FulfillResult where
  | success (fulfillmentId trackingNumber carrier : Str)
  | failure (message : Str)
  deriving DecidableEq

/-- Truthiness of a value that is a string or missing. -/
def truthy : Option Str → Bool
  | some (_ :: _) => true
  | _ => false

/-- The expression `trackingInfo.carrier || 'Other'`. -/
def carrierOrOther : Option Str → Str
  | some (c :: cs) => c :: cs
  | _ => "Other".toList

/-- The line items that need fulfillment: the `filter` and the `map`. -/
def unfulfilledItems (items : List LineItem) : List FulfillmentItem :=
  (items.filter fun item => item.fulfillment_status != some "fulfilled".toList).map
    fun item => ⟨item.id, item.quantity⟩

/-- The `try` block of `fulfillOrder`: the value returned or the message of
the error raised, and the requests issued up to there. -/
def fulfillOrderTry (axios : Axios) (service : Service) (orderId : Option Str)
    (trackingInfo : Option TrackingArg) (notifyCustomer : Bool) :
    Except Str FulfillResult × List Request :=
  if !service.initialized then (.error "Shopify service not initialized".toList, [])
  else if !truthy orderId then (.error "No order ID provided for fulfillment".toList, [])
  else
    match trackingInfo with
    | none => (.error "No tracking information provided for fulfillment".toList, [])
    | some info =>
      if !truthy info.trackingNumber then
        (.error "No tracking information provided for fulfillment".toList, [])
      else
        match service.config with
        | none => (.error "TypeError".toList, [])
        | some config =>
          let id := orderId.getD []
          let orderUrl := config.shop_url ++ "/admin/api/2023-01/orders/".toList ++ id ++
            ".json".toList
          let auth : Auth := ⟨config.api_key, config.password⟩
          match axios.get orderUrl auth with
          | .error message => (.error message, [.get orderUrl auth])
          | .ok none => (.error ("Order not found: ".toList ++ id), [.get orderUrl auth])
          | .ok (some order) =>
            match order.line_items with
            | none => (.error "TypeError".toList, [.get orderUrl auth])
            | some items =>
              let lineItems := unfulfilledItems items
              if lineItems.length = 0 then
                (.ok (.failure "No unfulfilled line items found".toList), [.get orderUrl auth])
              else
                let fulfillmentUrl := config.shop_url ++ "/admin/api/2023-01/orders/".toList ++
                  id ++ "/fulfillments.json".toList
                let fulfillmentData : FulfillmentData :=
                  ⟨lineItems, info.trackingNumber.getD [], carrierOrOther info.carrier,
                    notifyCustomer⟩
                let sent := [Request.get orderUrl auth,
                  Request.post fulfillmentUrl fulfillmentData auth]
                match axios.post fulfillmentUrl fulfillmentData auth with
                | .error message => (.error message, sent)
                | .ok none => (.error "TypeError".toList, sent)
                | .ok (some fulfillment) =>
                  match fulfillment.id with
                  | none => (.error "TypeError".toList, sent)
                  | some fulfillmentId =>
                    (.ok (.success fulfillmentId (info.trackingNumber.getD [])
                      (carrierOrOther info.carrier)), sent)

/-- The method `fulfillOrder`: the `catch` handler returns the message of
the error as a failure. -/
def fulfillOrder (axios : Axios) (service : Service) (orderId : Option Str)
    (trackingInfo : Option TrackingArg) (notifyCustomer : Bool) :
    FulfillResult × List Request :=
  match fulfillOrderTry axios service orderId trackingInfo notifyCustomer with
  | (.ok result, sent) => (result, sent)
  | (.error message, sent) => (.failure message, sent)

/-- The method `fulfillOrder` as a computation that may reject: the `try`
block under its `catch` handler, with the requests issued. -/
def fulfillOrderMethod (axios : Axios) (service : Service) (orderId : Option Str)
    (trackingInfo : Option TrackingArg) (notifyCustomer : Bool) :
    Except Str FulfillResult × List Request :=
  let run := fulfillOrderTry axios service orderId trackingInfo notifyCustomer
  (tryCatch run.1 fun message => pure (.failure message), run.2)

end ShopifyService
namespace ParserService

/-! ## The backtracking matcher: general facts -/

theorem take_takeWhile_length (p : Char → Bool) (s : Str) :
    s.take (s.takeWhile p).length = s.takeWhile p := by
  induction s with
  | nil => rfl
  | cons c cs ih =>
    by_cases h : p c
    · simp [List.takeWhile_cons, h, ih]
    · simp [List.takeWhile_cons, h]

theorem drop_takeWhile_length (p : Char → Bool) (s : Str) :
    s.drop (s.takeWhile p).length = s.dropWhile p := by
  induction s with
  | nil => rfl
  | cons c cs ih =>
    by_cases h : p c
    · simp [List.takeWhile_cons, List.dropWhile_cons, h, ih]
    · simp [List.takeWhile_cons, List.dropWhile_cons, h]

/-- Below the length of the leading run, the rest starts with a character of the class. -/
theorem drop_lt_takeWhile (p : Char → Bool) (s : Str) (k : Nat)
    (hk : k < (s.takeWhile p).length) :
    ∃ c t, s.drop k = c :: t ∧ p c = true := by
  induction s generalizing k with
  | nil => simp at hk
  | cons c cs ih =>
    by_cases h : p c
    · cases k with
      | zero => exact ⟨c, cs, rfl, h⟩
      | succ k =>
        simp [List.takeWhile_cons, h] at hk
        simpa using ih k hk
    · simp [List.takeWhile_cons, h] at hk

theorem backtrack_eq_none_iff (a : Atom) (cont : Str → Option Str) (s : Str) (n : Nat) :
    backtrack a cont s n = none ↔ ∀ k, k ≤ n → attempt a cont s k = none := by
  induction n with
  | zero => simp [backtrack]
  | succ n ih =>
    simp only [backtrack]
    constructor
    · intro h k hk
      cases hatt : attempt a cont s (n + 1) with
      | some c => simp [hatt] at h
      | none =>
        simp [hatt] at h
        rcases Nat.lt_or_ge k (n + 1) with hlt | hge
        · exact ih.mp h k (Nat.lt_succ_iff.mp hlt)
        · have : k = n + 1 := Nat.le_antisymm hk hge
          rw [this]; exact hatt
    · intro h
      rw [h (n + 1) (Nat.le_refl _)]
      exact ih.mpr fun k hk => h k (Nat.le_succ_of_le hk)

/-- The greedy attempt wins when it succeeds. -/
theorem backtrack_top_some (a : Atom) (cont : Str → Option Str) (s : Str) (n : Nat) (r : Str)
    (h : attempt a cont s n = some r) : backtrack a cont s n = some r := by
  cases n with
  | zero => simpa [backtrack] using h
  | succ n => simp [backtrack, h]

/-- When every shorter attempt fails, the greedy attempt decides. -/
theorem backtrack_top (a : Atom) (cont : Str → Option Str) (s : Str) (n : Nat)
    (h : ∀ k, k < n → attempt a cont s k = none) :
    backtrack a cont s n = attempt a cont s n := by
  cases hatt : attempt a cont s n with
  | some r => exact backtrack_top_some a cont s n r hatt
  | none =>
    rw [backtrack_eq_none_iff]
    intro k hk
    rcases Nat.lt_or_ge k n with hlt | hge
    · exact h k hlt
    · have : k = n := Nat.le_antisymm hk hge
      rw [this]; exact hatt

/-- A successful backtracking comes from one of the attempts. -/
theorem backtrack_some (a : Atom) (cont : Str → Option Str) (s : Str) (n : Nat) (r : Str)
    (h : backtrack a cont s n = some r) : ∃ k, k ≤ n ∧ attempt a cont s k = some r := by
  induction n with
  | zero => exact ⟨0, Nat.le_refl _, by simpa [backtrack] using h⟩
  | succ n ih =>
    simp only [backtrack] at h
    cases hatt : attempt a cont s (n + 1) with
    | some c =>
      simp [hatt] at h
      exact ⟨n + 1, Nat.le_refl _, by rw [hatt, h]⟩
    | none =>
      simp [hatt] at h
      obtain ⟨k, hk, hk2⟩ := ih h
      exact ⟨k, Nat.le_succ_of_le hk, hk2⟩

/-- One pattern character: the head of the text must be in the class. -/
theorem matchHere_one (cls : Char → Bool) (rest : Pattern) (s : Str) :
    matchHere (one cls :: rest) s =
      match s with
      | [] => none
      | c :: cs => if cls c then matchHere rest cs else none := by
  cases s with
  | nil => simp [matchHere, greedyCount, one, backtrack, attempt]
  | cons c cs =>
    by_cases h : cls c
    · simp only [matchHere, greedyCount, one, List.takeWhile_cons, h, if_true]
      have : Nat.min (c :: List.takeWhile cls cs).length 1 = 1 := by
        simp [Nat.min_def]
      rw [this]
      simp only [backtrack, attempt]
      cases hm : matchHere rest cs with
      | some r => simp [hm]
      | none => simp [hm]
    · simp [matchHere, greedyCount, one, List.takeWhile_cons, h, backtrack, attempt, Nat.min_def]

/-- An unbounded greedy term whose continuation fails on every text that
starts in the class: the longest run is the only count that can succeed. -/
theorem matchHere_greedy_disjoint (cls : Char → Bool) (m : Nat) (cap : Bool)
    (rest : Pattern) (s : Str)
    (hd : ∀ c t, cls c = true → matchHere rest (c :: t) = none) :
    matchHere (⟨cls, m, none, cap⟩ :: rest) s =
      if m ≤ (s.takeWhile cls).length then
        match matchHere rest (s.dropWhile cls) with
        | some c => some (if cap then s.takeWhile cls ++ c else c)
        | none => none
      else none := by
  simp only [matchHere, greedyCount]
  rw [backtrack_top]
  · simp only [attempt, take_takeWhile_length, drop_takeWhile_length]
  · intro k hk
    obtain ⟨c, t, hct, hc⟩ := drop_lt_takeWhile cls s k hk
    simp only [attempt, hct, hd c t hc]
    split <;> rfl

/-- An unbounded greedy group that ends the pattern takes the longest run. -/
theorem matchHere_greedy_last (cls : Char → Bool) (m : Nat) (s : Str) :
    matchHere [⟨cls, m, none, true⟩] s =
      if m ≤ (s.takeWhile cls).length then some (s.takeWhile cls) else none := by
  simp only [matchHere, greedyCount]
  by_cases h : m ≤ (s.takeWhile cls).length
  · rw [if_pos h]
    apply backtrack_top_some
    simp [attempt, h, take_takeWhile_length]
  · rw [if_neg h, backtrack_eq_none_iff]
    intro k hk
    have : ¬ m ≤ k := fun hmk => h (Nat.le_trans hmk hk)
    simp [attempt, this]

/-- Start positions are tried from the left: a prefix in which no match
starts is skipped. -/
theorem reMatch_skip (p : Pattern) (pre s : Str)
    (h : ∀ k, k < pre.length → matchHere p ((pre ++ s).drop k) = none) :
    reMatch p (pre ++ s) = reMatch p s := by
  induction pre with
  | nil => rfl
  | cons c cs ih =>
    have h0 := h 0 (by simp)
    simp only [List.drop_zero, List.cons_append] at h0
    have hstep : reMatch p (c :: (cs ++ s)) = reMatch p (cs ++ s) := by
      simp only [reMatch, h0]
    rw [List.cons_append, hstep]
    apply ih
    intro k hk
    have := h (k + 1) (by simpa using hk)
    simpa using this

/-- A match at the head of the text is the result of the search. -/
theorem reMatch_of_matchHere (p : Pattern) (s r : Str) (h : matchHere p s = some r) :
    reMatch p s = some r := by
  cases s with
  | nil => simpa [reMatch] using h
  | cons c cs => simp [reMatch, h]

/-- A search that succeeds found its match at some start position. -/
theorem reMatch_some (p : Pattern) (s r : Str) (h : reMatch p s = some r) :
    ∃ k, k ≤ s.length ∧ matchHere p (s.drop k) = some r ∧
      ∀ j, j < k → matchHere p (s.drop j) = none := by
  induction s with
  | nil => exact ⟨0, by simp, by simpa [reMatch] using h, by simp⟩
  | cons c cs ih =>
    simp only [reMatch] at h
    cases hm : matchHere p (c :: cs) with
    | some r2 =>
      simp [hm] at h
      exact ⟨0, by simp, by simpa [h] using hm, by simp⟩
    | none =>
      simp [hm] at h
      obtain ⟨k, hk, hk2, hk3⟩ := ih h
      refine ⟨k + 1, by simpa using hk, by simpa using hk2, ?_⟩
      intro j hj
      cases j with
      | zero => simpa using hm
      | succ j => simpa using hk3 j (by omega)

/-- A search fails exactly when no start position matches. -/
theorem reMatch_eq_none_iff (p : Pattern) (s : Str) :
    reMatch p s = none ↔ ∀ k, k ≤ s.length → matchHere p (s.drop k) = none := by
  induction s with
  | nil =>
    simp [reMatch]
  | cons c cs ih =>
    simp only [reMatch]
    constructor
    · intro h k hk
      cases hm : matchHere p (c :: cs) with
      | some r2 => simp [hm] at h
      | none =>
        simp [hm] at h
        cases k with
        | zero => simpa using hm
        | succ k => simpa using ih.mp h k (by simpa using hk)
    · intro h
      have h0 := h 0 (by simp)
      simp only [List.drop_zero] at h0
      rw [h0]
      exact ih.mpr fun k hk => by simpa using h (k + 1) (by simpa using hk)


/-- A run of pattern characters: the text must start with them. -/
theorem matchHere_chars (f : Char → Char → Bool) (l : List Char) (rest : Pattern) (s : Str) :
    matchHere (l.map (fun p => one (f p)) ++ rest) s =
      if startsWith f l s then matchHere rest (s.drop l.length) else none := by
  induction l generalizing s with
  | nil => simp [startsWith]
  | cons p ps ih =>
    simp only [List.map_cons, List.cons_append, matchHere_one]
    cases s with
    | nil => simp [startsWith]
    | cons c cs =>
      by_cases h : f p c
      · simp [startsWith, h, ih]
      · simp [startsWith, h]

theorem matchHere_lit (l : String) (rest : Pattern) (s : Str) :
    matchHere (lit l ++ rest) s =
      if startsWith isChar l.toList s then matchHere rest (s.drop l.toList.length) else none :=
  matchHere_chars isChar l.toList rest s

theorem matchHere_litI (l : String) (rest : Pattern) (s : Str) :
    matchHere (litI l ++ rest) s =
      if startsWith isCharI l.toList s then matchHere rest (s.drop l.toList.length) else none :=
  matchHere_chars isCharI l.toList rest s

/-- Exact comparison: the text starts with `l` itself. -/
theorem startsWith_isChar (l : List Char) (s : Str) :
    startsWith isChar l s = true ↔ ∃ t, s = l ++ t := by
  induction l generalizing s with
  | nil => simp [startsWith]
  | cons p ps ih =>
    cases s with
    | nil => simp [startsWith]
    | cons c cs =>
      simp only [startsWith, Bool.and_eq_true, ih, isChar, beq_iff_eq, List.cons_append,
        List.cons.injEq]
      constructor
      · rintro ⟨rfl, t, rfl⟩; exact ⟨t, rfl, rfl⟩
      · rintro ⟨t, rfl, rfl⟩; exact ⟨rfl, t, rfl⟩

theorem takeWhile_append_stop (p : Char → Bool) (r : Str) (x : Char) (post : Str)
    (hr : ∀ c ∈ r, p c = true) (hx : p x = false) :
    (r ++ x :: post).takeWhile p = r := by
  induction r with
  | nil => simp [List.takeWhile_cons, hx]
  | cons c cs ih =>
    have hc : p c = true := hr c (by simp)
    simp only [List.cons_append, List.takeWhile_cons, hc, if_true]
    rw [ih fun d hd => hr d (by simp [hd])]

theorem dropWhile_append_stop (p : Char → Bool) (r : Str) (x : Char) (post : Str)
    (hr : ∀ c ∈ r, p c = true) (hx : p x = false) :
    (r ++ x :: post).dropWhile p = x :: post := by
  induction r with
  | nil => simp [List.dropWhile_cons, hx]
  | cons c cs ih =>
    have hc : p c = true := hr c (by simp)
    simp only [List.cons_append, List.dropWhile_cons, hc, if_true]
    rw [ih fun d hd => hr d (by simp [hd])]

theorem takeWhile_all (p : Char → Bool) (s : Str) : ∀ c ∈ s.takeWhile p, p c = true := by
  intro c hc
  exact (List.mem_takeWhile_imp hc)

/-- What follows the leading run does not start in the class. -/
theorem dropWhile_head (p : Char → Bool) (s : Str) (x : Char) (t : Str)
    (h : s.dropWhile p = x :: t) : p x = false := by
  induction s with
  | nil => simp at h
  | cons c cs ih =>
    by_cases hc : p c
    · simp [List.dropWhile_cons, hc] at h; exact ih h
    · simp [List.dropWhile_cons, hc] at h
      rw [← h.1]; simpa using hc

/-! ## The subject pattern -/

/-- The subject pattern at the head of a text: an order reference starts there. -/
theorem matchHere_subjectPattern (t r : Str) :
    matchHere subjectPattern t = some r ↔ OrderRefAt t [] r := by
  have hd : ∀ c u, isDigit c = true → matchHere (lit ")") (c :: u) = none := by
    intro c u hc
    have hl : lit ")" = [one (isChar ')')] := rfl
    rw [hl, matchHere_one]
    have : isChar ')' c = false := by
      cases hcc : isChar ')' c with
      | false => rfl
      | true =>
        have : c = ')' := by simpa [isChar] using hcc
        rw [this] at hc
        exact absurd hc (by decide)
    simp [this]
  have hsub : subjectPattern = lit "(#" ++ (group isDigit 1 none :: lit ")") := rfl
  rw [hsub, matchHere_lit]
  unfold group
  constructor
  · intro h
    by_cases hs : startsWith isChar "(#".toList t = true
    · rw [if_pos hs, matchHere_greedy_disjoint _ _ _ _ _ hd] at h
      obtain ⟨u, rfl⟩ := (startsWith_isChar _ _).mp hs
      have hdrop : List.drop "(#".toList.length ("(#".toList ++ u) = u := by
        rw [List.drop_left]
      rw [hdrop] at h
      by_cases hlen : 1 ≤ (u.takeWhile isDigit).length
      · rw [if_pos hlen] at h
        have hl : lit ")" = [one (isChar ')')] := rfl
        rw [hl, matchHere_one] at h
        cases hdw : u.dropWhile isDigit with
        | nil => simp [hdw] at h
        | cons x post =>
          simp only [hdw] at h
          by_cases hx : isChar ')' x = true
          · simp [hx, matchHere] at h
            have hx2 : x = ')' := by simpa [isChar] using hx
            refine ⟨?_, ?_, post, ?_⟩
            · rw [← h]; intro h0; simp [h0] at hlen
            · rw [← h]; exact takeWhile_all _ _
            · rw [← h]
              have hu := List.takeWhile_append_dropWhile isDigit u
              rw [hdw, hx2] at hu
              calc "(#".toList ++ u
                  = "(#".toList ++ (List.takeWhile isDigit u ++ ')' :: post) := by rw [hu]
                _ = [] ++ "(#".toList ++ List.takeWhile isDigit u ++ ")".toList ++ post := by
                    simp
          · simp [hx] at h
      · rw [if_neg hlen] at h; exact absurd h (by simp)
    · rw [if_neg hs] at h; exact absurd h (by simp)
  · rintro ⟨hne, hdig, post, rfl⟩
    have hs : startsWith isChar "(#".toList ([] ++ "(#".toList ++ r ++ ")".toList ++ post) = true :=
      (startsWith_isChar _ _).mpr ⟨r ++ ")".toList ++ post, by simp⟩
    rw [if_pos hs, matchHere_greedy_disjoint _ _ _ _ _ hd]
    have hdrop : List.drop "(#".toList.length ([] ++ "(#".toList ++ r ++ ")".toList ++ post) =
        r ++ ')' :: post := by
      have : ([] : Str) ++ "(#".toList ++ r ++ ")".toList ++ post
          = "(#".toList ++ (r ++ ')' :: post) := by simp
      rw [this, List.drop_left]
    rw [hdrop, takeWhile_append_stop isDigit r ')' post hdig (by decide),
      dropWhile_append_stop isDigit r ')' post hdig (by decide)]
    have hlen : 1 ≤ r.length := by
      cases r with
      | nil => exact absurd rfl hne
      | cons _ _ => simp
    rw [if_pos hlen]
    have hl : lit ")" = [one (isChar ')')] := rfl
    rw [hl, matchHere_one]
    simp [isChar, matchHere]


/-- The leftmost start position at which the pattern matches gives the result. -/
theorem reMatch_at (p : Pattern) (pre t r : Str) (h : matchHere p t = some r)
    (hnone : ∀ k, k < pre.length → matchHere p ((pre ++ t).drop k) = none) :
    reMatch p (pre ++ t) = some r := by
  rw [reMatch_skip p pre t hnone]
  exact reMatch_of_matchHere p t r h

theorem orderRefAt_iff (s pre ds : Str) :
    OrderRefAt s pre ds ↔ ∃ t, s = pre ++ t ∧ OrderRefAt t [] ds := by
  constructor
  · rintro ⟨hne, hdig, post, rfl⟩
    exact ⟨"(#".toList ++ ds ++ ")".toList ++ post, by simp, hne, hdig, post, by simp⟩
  · rintro ⟨t, rfl, hne, hdig, post, rfl⟩
    exact ⟨hne, hdig, post, by simp⟩

/-- An order reference after `pre` is a match of the subject pattern at that position. -/
theorem orderRefAt_matchHere (s pre ds : Str) (h : OrderRefAt s pre ds) :
    matchHere subjectPattern (s.drop pre.length) = some ds := by
  obtain ⟨t, rfl, ht⟩ := (orderRefAt_iff s pre ds).mp h
  rw [List.drop_left]
  exact (matchHere_subjectPattern t ds).mpr ht

/-- A match of the subject pattern at position `k` is an order reference there. -/
theorem matchHere_orderRefAt (s ds : Str) (k : Nat)
    (h : matchHere subjectPattern (s.drop k) = some ds) :
    OrderRefAt s (s.take k) ds :=
  (orderRefAt_iff s (s.take k) ds).mpr
    ⟨s.drop k, (List.take_append_drop k s).symm, (matchHere_subjectPattern _ _).mp h⟩

/-- The search of the subject pattern returns the digits of the leftmost order reference. -/
theorem reMatch_subject_some (s ds : Str) :
    reMatch subjectPattern s = some ds ↔ LeftmostOrderRef s ds := by
  constructor
  · intro h
    obtain ⟨k, hk, hm, hbefore⟩ := reMatch_some _ _ _ h
    refine ⟨s.take k, matchHere_orderRefAt s ds k hm, ?_⟩
    intro pre' ds' h'
    have hm' := orderRefAt_matchHere s pre' ds' h'
    rw [List.length_take, Nat.min_eq_left hk]
    by_contra hlt
    rw [hbefore pre'.length (Nat.lt_of_not_le hlt)] at hm'
    exact absurd hm' (by simp)
  · rintro ⟨pre, hat, hleft⟩
    obtain ⟨t, rfl, ht⟩ := (orderRefAt_iff s pre ds).mp hat
    apply reMatch_at _ _ _ _ ((matchHere_subjectPattern t ds).mpr ht)
    intro k hk
    cases hm : matchHere subjectPattern ((pre ++ t).drop k) with
    | none => rfl
    | some r =>
      have h1 := hleft _ _ (matchHere_orderRefAt (pre ++ t) r k hm)
      rw [List.length_take] at h1
      have : min k (pre ++ t).length ≤ k := Nat.min_le_left _ _
      omega

/-- The search of the subject pattern fails exactly on texts without an order reference. -/
theorem reMatch_subject_none (s : Str) :
    reMatch subjectPattern s = none ↔ NoOrderRef s := by
  constructor
  · intro h pre ds hat
    have hm := orderRefAt_matchHere s pre ds hat
    have hlen : pre.length ≤ s.length := by
      obtain ⟨t, rfl, _⟩ := (orderRefAt_iff s pre ds).mp hat
      simp
    rw [(reMatch_eq_none_iff _ _).mp h _ hlen] at hm
    exact absurd hm (by simp)
  · intro h
    cases hm : reMatch subjectPattern s with
    | none => rfl
    | some ds =>
      obtain ⟨pre, hat, _⟩ := (reMatch_subject_some s ds).mp hm
      exact absurd hat (h pre ds)

/-- A captured order reference is never the empty text. -/
theorem truthyStr_of_leftmostOrderRef (s ds : Str) (h : LeftmostOrderRef s ds) :
    truthyStr (some ds) = true := by
  obtain ⟨pre, ⟨hne, _, _⟩, _⟩ := h
  cases ds with
  | nil => exact absurd rfl hne
  | cons _ _ => rfl

/-- A text that holds an order reference is not empty. -/
theorem ne_nil_of_leftmostOrderRef (s ds : Str) (h : LeftmostOrderRef s ds) : s ≠ [] := by
  obtain ⟨pre, ⟨_, _, post, hs⟩, _⟩ := h
  intro h0
  rw [h0] at hs
  have := congrArg List.length hs
  simp at this
  omega

/-! ## Characters -/

theorem toNat_toUpper (c : Char) : c.toUpper.toNat = upperCode c.toNat := by
  unfold Char.toUpper upperCode
  by_cases h : 97 ≤ c.toNat ∧ c.toNat ≤ 122
  · simp only [ge_iff_le, h, and_self, if_true]
    obtain ⟨n, hn⟩ : ∃ n, c.toNat = n := ⟨_, rfl⟩
    rw [hn] at h ⊢
    obtain ⟨h1, h2⟩ := h
    interval_cases n <;> rfl
  · simp only [ge_iff_le, h, if_false]

theorem char_eq_of_toNat (c d : Char) (h : c.toNat = d.toNat) : c = d := by
  rw [← Char.ofNat_toNat c, ← Char.ofNat_toNat d, h]

/-- Matching under the `i` flag is equality of the upper-case forms. -/
theorem isCharI_iff (p c : Char) : isCharI p c = true ↔ c.toUpper = p.toUpper := by
  unfold isCharI
  rw [beq_iff_eq, ← toNat_toUpper, ← toNat_toUpper]
  exact ⟨char_eq_of_toNat _ _, fun h => by rw [h]⟩

/-- Only a letter matches a pattern letter under the `i` flag. -/
theorem isLetter_of_isCharI (p c : Char) (hp : isLetter p = true) (h : isCharI p c = true) :
    isLetter c = true := by
  simp only [isCharI, isLetter, upperCode, beq_iff_eq, Bool.or_eq_true, Bool.and_eq_true,
    decide_eq_true_eq] at *
  split_ifs at h <;> omega

theorem not_isSpace_of_isLetter (c : Char) (h : isLetter c = true) : isSpace c = false := by
  simp only [isSpace, isLetter, Bool.or_eq_true, Bool.and_eq_true, decide_eq_true_eq,
    Bool.or_eq_false_iff, Bool.and_eq_false_iff, beq_eq_false_iff_ne, decide_eq_false_iff_not] at *
  omega

theorem not_isDigit_of_isLetter (c : Char) (h : isLetter c = true) : isDigit c = false := by
  simp only [isDigit, isLetter, Bool.or_eq_true, Bool.and_eq_true, decide_eq_true_eq,
    Bool.and_eq_false_iff, decide_eq_false_iff_not] at *
  omega

/-- Comparison under the `i` flag: the text starts with `l` up to letter case. -/
theorem startsWith_isCharI (l : List Char) (s : Str) :
    startsWith isCharI l s = true ↔
      ∃ u t, s = u ++ t ∧ u.map Char.toUpper = l.map Char.toUpper := by
  induction l generalizing s with
  | nil =>
    simp only [startsWith, List.map_nil, List.map_eq_nil_iff, true_iff]
    exact ⟨[], s, rfl, rfl⟩
  | cons p ps ih =>
    cases s with
    | nil =>
      simp only [startsWith, Bool.false_eq_true, false_iff]
      rintro ⟨u, t, h, hu⟩
      have h1 : u = [] := by
        cases u with
        | nil => rfl
        | cons _ _ => simp at h
      rw [h1] at hu
      simp at hu
    | cons c cs =>
      simp only [startsWith, Bool.and_eq_true, ih, isCharI_iff]
      constructor
      · rintro ⟨hc, u, t, rfl, hu⟩
        exact ⟨c :: u, t, rfl, by simp [hc, hu]⟩
      · rintro ⟨u, t, h, hu⟩
        cases u with
        | nil => simp at hu
        | cons d u =>
          simp only [List.cons_append, List.cons.injEq] at h
          simp only [List.map_cons, List.cons.injEq] at hu
          obtain ⟨rfl, rfl⟩ := h
          exact ⟨hu.1, u, t, rfl, hu.2⟩

/-! ## Phrases: two words separated by whitespace -/

theorem takeWhile_append_of_head (p : Char → Bool) (r t : Str)
    (hr : ∀ c ∈ r, p c = true) (ht : ∀ c ∈ t.head?, p c = false) :
    (r ++ t).takeWhile p = r ∧ (r ++ t).dropWhile p = t := by
  cases t with
  | nil =>
    simp only [List.append_nil]
    exact ⟨List.takeWhile_eq_self_iff.mpr hr, List.dropWhile_eq_nil_iff.mpr hr⟩
  | cons x post =>
    have hx : p x = false := ht x (by simp)
    exact ⟨takeWhile_append_stop p r x post hr hx, dropWhile_append_stop p r x post hr hx⟩

theorem dropWhile_head? (p : Char → Bool) (s : Str) :
    ∀ c ∈ (s.dropWhile p).head?, p c = false := by
  intro c hc
  cases h : s.dropWhile p with
  | nil => simp [h] at hc
  | cons x t =>
    simp [h] at hc
    rw [← hc]
    exact dropWhile_head p s x t h

/-- The shape `w1 \s+ w2 R` under the `i` flag, where no whitespace matches
the first character of `w2`: a match at the head of `t` is a phrase at the
head of `t` followed by a match of `R`. -/
theorem matchHere_phrase (w1 w2 : String) (R : Pattern) (t r : Str)
    (hw2 : ∃ p ps, w2.toList = p :: ps ∧ ∀ c, isSpace c = true → isCharI p c = false) :
    matchHere (litI w1 ++ (plus isSpace :: (litI w2 ++ R))) t = some r ↔
      ∃ rest, PhraseAt w1 w2 t [] rest ∧ matchHere R rest = some r := by
  obtain ⟨p, ps, hw, hp⟩ := hw2
  have hd : ∀ c u, isSpace c = true → matchHere (litI w2 ++ R) (c :: u) = none := by
    intro c u hc
    rw [matchHere_litI, hw]
    simp [startsWith, hp c hc]
  rw [matchHere_litI]
  unfold plus
  constructor
  · intro h
    by_cases hs : startsWith isCharI w1.toList t = true
    · rw [if_pos hs, matchHere_greedy_disjoint _ _ _ _ _ hd] at h
      obtain ⟨u, t1, rfl, hu⟩ := (startsWith_isCharI _ _).mp hs
      have hlen : u.length = w1.toList.length := by
        have := congrArg List.length hu
        simpa using this
      rw [← hlen, List.drop_left] at h
      by_cases h1 : 1 ≤ (t1.takeWhile isSpace).length
      · rw [if_pos h1, matchHere_litI] at h
        by_cases hs2 : startsWith isCharI w2.toList (t1.dropWhile isSpace) = true
        · rw [if_pos hs2] at h
          obtain ⟨v, rest, hv, hv2⟩ := (startsWith_isCharI _ _).mp hs2
          have hlen2 : v.length = w2.toList.length := by
            have := congrArg List.length hv2
            simpa using this
          rw [hv, ← hlen2, List.drop_left] at h
          refine ⟨rest, ⟨u, t1.takeWhile isSpace, v, ?_, hu, ?_, takeWhile_all _ _, hv2⟩, ?_⟩
          · have := List.takeWhile_append_dropWhile isSpace t1
            rw [hv] at this
            rw [List.nil_append, List.append_assoc, List.append_assoc, this]
          · intro h0; rw [h0] at h1; simp at h1
          · cases hR : matchHere R rest with
            | none => simp [hR] at h
            | some c => simpa [hR] using h
        · rw [if_neg hs2] at h; exact absurd h (by simp)
      · rw [if_neg h1] at h; exact absurd h (by simp)
    · rw [if_neg hs] at h; exact absurd h (by simp)
  · rintro ⟨rest, ⟨u, ws, v, rfl, hu, hne, hws, hv⟩, hR⟩
    have hlen : u.length = w1.toList.length := by
      have := congrArg List.length hu
      simpa using this
    have hlen2 : v.length = w2.toList.length := by
      have := congrArg List.length hv
      simpa using this
    have hs : startsWith isCharI w1.toList ([] ++ u ++ ws ++ v ++ rest) = true :=
      (startsWith_isCharI _ _).mpr ⟨u, ws ++ v ++ rest, by simp, hu⟩
    have hs2 : startsWith isCharI w2.toList (v ++ rest) = true :=
      (startsWith_isCharI _ _).mpr ⟨v, rest, rfl, hv⟩
    have hhead : ∀ c ∈ (v ++ rest).head?, isSpace c = false := by
      intro c hc
      rw [hw] at hs2
      cases hvr : v ++ rest with
      | nil => simp [hvr] at hc
      | cons x y =>
        rw [hvr] at hs2 hc
        simp only [startsWith, Bool.and_eq_true] at hs2
        simp at hc
        rw [← hc]
        cases hx : isSpace x with
        | false => rfl
        | true => rw [hp x hx] at hs2; exact absurd hs2.1 (by simp)
    have hsplit := takeWhile_append_of_head isSpace ws (v ++ rest) hws hhead
    have hrew : ([] : Str) ++ u ++ ws ++ v ++ rest = u ++ (ws ++ (v ++ rest)) := by simp
    rw [if_pos hs, matchHere_greedy_disjoint _ _ _ _ _ hd, hrew, ← hlen, List.drop_left,
      hsplit.1, hsplit.2]
    have h1 : 1 ≤ ws.length := by
      cases ws with
      | nil => exact absurd rfl hne
      | cons _ _ => simp
    rw [if_pos h1, matchHere_litI, if_pos hs2, ← hlen2, List.drop_left, hR]
    rfl

/-- The tail `[^\d]*(\d+)`: the group is the first maximal run of digits. -/
theorem matchHere_digitsTail (t r : Str) :
    matchHere [star isNonDigit, group isDigit 1 none] t = some r ↔ FirstDigitRun t r := by
  have hd : ∀ c u, isNonDigit c = true → matchHere [group isDigit 1 none] (c :: u) = none := by
    intro c u hc
    unfold group
    rw [matchHere_greedy_last]
    have : isDigit c = false := by simpa [isNonDigit] using hc
    simp [List.takeWhile_cons, this]
  unfold star
  rw [matchHere_greedy_disjoint _ _ _ _ _ hd]
  simp only [Nat.zero_le, if_true]
  unfold group
  rw [matchHere_greedy_last]
  constructor
  · intro h
    by_cases h1 : 1 ≤ ((t.dropWhile isNonDigit).takeWhile isDigit).length
    · rw [if_pos h1] at h
      simp only [Bool.false_eq_true, if_false, Option.some.injEq] at h
      refine ⟨t.takeWhile isNonDigit, (t.dropWhile isNonDigit).dropWhile isDigit, ?_, ?_, ?_, ?_, ?_⟩
      · rw [← h, List.append_assoc, List.takeWhile_append_dropWhile,
          List.takeWhile_append_dropWhile]
      · intro c hc
        have := takeWhile_all _ _ c hc
        simpa [isNonDigit] using this
      · intro h0; rw [h, h0] at h1; simp at h1
      · rw [← h]; exact takeWhile_all _ _
      · exact dropWhile_head? _ _
    · rw [if_neg h1] at h; exact absurd h (by simp)
  · rintro ⟨mid, post, rfl, hmid, hne, hds, hpost⟩
    have hmid2 : ∀ c ∈ mid, isNonDigit c = true := by
      intro c hc; simp [isNonDigit, hmid c hc]
    have hhead : ∀ c ∈ (r ++ post).head?, isNonDigit c = false := by
      intro c hc
      cases r with
      | nil => exact absurd rfl hne
      | cons x y =>
        simp at hc
        rw [← hc]
        simp [isNonDigit, hds x (by simp)]
    have h1 := takeWhile_append_of_head isNonDigit mid (r ++ post) hmid2 hhead
    have h2 := takeWhile_append_of_head isDigit r post hds hpost
    rw [List.append_assoc, h1.2, h2.1]
    have : 1 ≤ r.length := by
      cases r with
      | nil => exact absurd rfl hne
      | cons _ _ => simp
    rw [if_pos this]
    rfl


theorem phraseAt_iff (w1 w2 : String) (s pre rest : Str) :
    PhraseAt w1 w2 s pre rest ↔ ∃ t, s = pre ++ t ∧ PhraseAt w1 w2 t [] rest := by
  constructor
  · rintro ⟨u, ws, v, rfl, hu, hne, hws, hv⟩
    exact ⟨u ++ ws ++ v ++ rest, by simp, u, ws, v, by simp, hu, hne, hws, hv⟩
  · rintro ⟨t, rfl, u, ws, v, rfl, hu, hne, hws, hv⟩
    exact ⟨u, ws, v, by simp, hu, hne, hws, hv⟩

/-- A first digit run holds a digit. -/
theorem firstDigitRun_digit (t ds : Str) (h : FirstDigitRun t ds) :
    ∃ c ∈ t, isDigit c = true := by
  obtain ⟨mid, post, rfl, _, hne, hds, _⟩ := h
  cases ds with
  | nil => exact absurd rfl hne
  | cons x y => exact ⟨x, by simp, hds x (by simp)⟩

/-- A text that holds a digit has a first digit run. -/
theorem firstDigitRun_exists (t : Str) (h : ∃ c ∈ t, isDigit c = true) :
    ∃ ds, FirstDigitRun t ds := by
  obtain ⟨c, hc, hd⟩ := h
  refine ⟨(t.dropWhile isNonDigit).takeWhile isDigit, t.takeWhile isNonDigit,
    (t.dropWhile isNonDigit).dropWhile isDigit, ?_, ?_, ?_, takeWhile_all _ _, dropWhile_head? _ _⟩
  · rw [List.append_assoc, List.takeWhile_append_dropWhile, List.takeWhile_append_dropWhile]
  · intro d hd2
    have := takeWhile_all _ _ d hd2
    simpa [isNonDigit] using this
  · intro h0
    cases hdw : t.dropWhile isNonDigit with
    | nil =>
      have hall := List.dropWhile_eq_nil_iff.mp hdw c hc
      simp [isNonDigit, hd] at hall
    | cons x y =>
      have hx := dropWhile_head isNonDigit t x y hdw
      have hx2 : isDigit x = true := by simpa [isNonDigit] using hx
      rw [hdw] at h0
      simp [List.takeWhile_cons, hx2] at h0

/-- The first character of a word that starts with a letter matches no whitespace. -/
theorem no_space_of_letter (p : Char) (hp : isLetter p = true) :
    ∀ c, isSpace c = true → isCharI p c = false := by
  intro c hc
  cases h : isCharI p c with
  | false => rfl
  | true =>
    have := not_isSpace_of_isLetter c (isLetter_of_isCharI p c hp h)
    rw [this] at hc
    exact absurd hc (by simp)

/-- The shape `w1 \s+ w2 [^\d]* (\d+)` under the `i` flag at the head of a text. -/
theorem matchHere_phraseDigits (w1 w2 : String) (t r : Str)
    (hw2 : ∃ p ps, w2.toList = p :: ps ∧ ∀ c, isSpace c = true → isCharI p c = false) :
    matchHere (litI w1 ++ [plus isSpace] ++ litI w2 ++ [star isNonDigit] ++
        [group isDigit 1 none]) t = some r ↔
      ∃ rest, PhraseAt w1 w2 t [] rest ∧ FirstDigitRun rest r := by
  have hp : litI w1 ++ [plus isSpace] ++ litI w2 ++ [star isNonDigit] ++ [group isDigit 1 none]
      = litI w1 ++ (plus isSpace :: (litI w2 ++ [star isNonDigit, group isDigit 1 none])) := by
    simp
  rw [hp, matchHere_phrase w1 w2 _ t r hw2]
  constructor
  · rintro ⟨rest, h1, h2⟩
    exact ⟨rest, h1, (matchHere_digitsTail rest r).mp h2⟩
  · rintro ⟨rest, h1, h2⟩
    exact ⟨rest, h1, (matchHere_digitsTail rest r).mpr h2⟩

/-- The search of the shape `w1 \s+ w2 [^\d]* (\d+)`: the first digit run
after the leftmost phrase that has a digit after it. -/
theorem reMatch_phraseDigits (w1 w2 : String) (text pre rest ds : Str)
    (hw2 : ∃ p ps, w2.toList = p :: ps ∧ ∀ c, isSpace c = true → isCharI p c = false)
    (hphrase : PhraseAt w1 w2 text pre rest) (hdigit : FirstDigitRun rest ds)
    (hleft : ∀ pre' rest', PhraseAt w1 w2 text pre' rest' →
      (∃ c ∈ rest', isDigit c = true) → pre.length ≤ pre'.length) :
    reMatch (litI w1 ++ [plus isSpace] ++ litI w2 ++ [star isNonDigit] ++
        [group isDigit 1 none]) text = some ds := by
  obtain ⟨t, rfl, ht⟩ := (phraseAt_iff w1 w2 text pre rest).mp hphrase
  apply reMatch_at _ _ _ _ ((matchHere_phraseDigits w1 w2 t ds hw2).mpr ⟨rest, ht, hdigit⟩)
  intro k hk
  cases hm : matchHere (litI w1 ++ [plus isSpace] ++ litI w2 ++ [star isNonDigit] ++
      [group isDigit 1 none]) ((pre ++ t).drop k) with
  | none => rfl
  | some r =>
    obtain ⟨rest', h1, h2⟩ := (matchHere_phraseDigits w1 w2 _ r hw2).mp hm
    have h3 : PhraseAt w1 w2 (pre ++ t) ((pre ++ t).take k) rest' :=
      (phraseAt_iff _ _ _ _ _).mpr ⟨_, (List.take_append_drop k _).symm, h1⟩
    have h4 := hleft _ _ h3 (firstDigitRun_digit rest' r h2)
    rw [List.length_take] at h4
    have : min k (pre ++ t).length ≤ k := Nat.min_le_left _ _
    omega

/-- A captured first digit run is truthy. -/
theorem truthyStr_of_firstDigitRun (t ds : Str) (h : FirstDigitRun t ds) :
    truthyStr (some ds) = true := by
  obtain ⟨_, _, _, _, hne, _, _⟩ := h
  cases ds with
  | nil => exact absurd rfl hne
  | cons _ _ => rfl


/-! ## The extractors on well-typed documents -/

/-- The tracking extractor on a string subject and a non-empty string body. -/
theorem extractTracking_eq (ch : Cheerio) (subject body : Str) (hbody : body ≠ []) :
    extractTrackingNumberFromEmail ch (some ⟨.str subject, .str body⟩) =
      if truthyStr (trackingSteps (ch.load body)).1 then
        some ⟨if truthyStr (reMatch subjectPattern subject) then reMatch subjectPattern subject
              else none,
          (trackingSteps (ch.load body)).1, (trackingSteps (ch.load body)).2⟩
      else none := by
  cases body with
  | nil => exact absurd rfl hbody
  | cons b bs =>
    simp only [extractTrackingNumberFromEmail, trackingTry, JsValue.truthy, cheerioLoad, jsMatch,
      bind, Except.bind, pure, Except.pure, Bool.not_true, Bool.false_eq_true, if_false]
    by_cases h : truthyStr (trackingSteps (ch.load (b :: bs))).1 = true
    · simp only [h, if_true]
    · simp only [h, if_false, Bool.false_eq_true]


/-- When the shape `w1 \s+ w2 [^\d]* (\d+)` matches at no position below
`n`, no phrase with a digit after it starts below `n`. -/
theorem phrase_leftmost_of_none (w1 w2 : String) (text : Str) (n : Nat)
    (hw2 : ∃ p ps, w2.toList = p :: ps ∧ ∀ c, isSpace c = true → isCharI p c = false)
    (h : ∀ j, j < n → matchHere (litI w1 ++ [plus isSpace] ++ litI w2 ++ [star isNonDigit] ++
        [group isDigit 1 none]) (text.drop j) = none) :
    ∀ pre' rest', PhraseAt w1 w2 text pre' rest' →
      (∃ c ∈ rest', isDigit c = true) → n ≤ pre'.length := by
  intro pre' rest' hph hdig
  obtain ⟨t, rfl, ht⟩ := (phraseAt_iff _ _ _ _ _).mp hph
  obtain ⟨ds, hds⟩ := firstDigitRun_exists rest' hdig
  have hm := (matchHere_phraseDigits w1 w2 t ds hw2).mpr ⟨rest', ht, hds⟩
  by_contra hlt
  have := h pre'.length (Nat.lt_of_not_le hlt)
  rw [List.drop_left, hm] at this
  exact absurd this (by simp)


/-! ## Greedy success, optional terms and trimming -/

/-- An unbounded greedy term whose longest run is followed by a match of the
rest of the pattern. -/
theorem matchHere_greedy_some (cls : Char → Bool) (m : Nat) (cap : Bool) (rest : Pattern)
    (s c : Str) (hm : m ≤ (s.takeWhile cls).length)
    (hc : matchHere rest (s.dropWhile cls) = some c) :
    matchHere (⟨cls, m, none, cap⟩ :: rest) s =
      some (if cap then s.takeWhile cls ++ c else c) := by
  simp only [matchHere, greedyCount]
  apply backtrack_top_some
  simp only [attempt, hm, if_true, drop_takeWhile_length, take_takeWhile_length, hc]

/-- An optional character that is not there is skipped. -/
theorem matchHere_opt_skip (cls : Char → Bool) (rest : Pattern) (s : Str)
    (h : ∀ c ∈ s.head?, cls c = false) :
    matchHere (opt cls :: rest) s = matchHere rest s := by
  have htw : s.takeWhile cls = [] := by
    cases s with
    | nil => rfl
    | cons x t => simp [List.takeWhile_cons, h x (by simp)]
  simp only [matchHere, greedyCount, opt, htw, List.length_nil, Nat.min_def, Nat.zero_le,
    if_true, backtrack, attempt, List.drop_zero]
  cases matchHere rest s <;> rfl

/-- An optional character that is there is taken when the rest then matches. -/
theorem matchHere_opt_take (cls : Char → Bool) (rest : Pattern) (x : Char) (t c : Str)
    (hx : cls x = true) (hc : matchHere rest t = some c) :
    matchHere (opt cls :: rest) (x :: t) = some c := by
  have hn : Nat.min (List.takeWhile cls (x :: t)).length 1 = 1 := by
    simp [List.takeWhile_cons, hx, Nat.min_def]
  simp only [matchHere, greedyCount, opt, hn]
  apply backtrack_top_some
  simp [attempt, hc]

theorem mem_dropWhile_of_not (p : Char → Bool) (l : Str) (c : Char) (hc : c ∈ l)
    (hp : p c = false) : c ∈ l.dropWhile p := by
  induction l with
  | nil => simp at hc
  | cons x t ih =>
    by_cases hx : p x
    · have hne : c ≠ x := by
        intro h; rw [h, hx] at hp; exact absurd hp (by simp)
      have hct : c ∈ t := by
        rcases List.mem_cons.mp hc with h | h
        · exact absurd h hne
        · exact h
      simpa [List.dropWhile_cons, hx] using ih hct
    · simpa [List.dropWhile_cons, hx] using hc

theorem dropWhile_dropWhile (p : Char → Bool) (l : Str) :
    (l.dropWhile p).dropWhile p = l.dropWhile p := by
  induction l with
  | nil => rfl
  | cons x t ih =>
    by_cases hx : p x
    · simpa [List.dropWhile_cons, hx] using ih
    · simp [List.dropWhile_cons, hx]

/-- Trimming ignores leading whitespace already removed. -/
theorem trim_dropWhile (s : Str) : trim (s.dropWhile isSpace) = trim s := by
  simp only [trim, dropWhile_dropWhile]

/-- A text that holds a character that is not whitespace stays non-empty when trimmed. -/
theorem trim_ne_nil (s : Str) (c : Char) (hc : c ∈ s) (hs : isSpace c = false) :
    trim s ≠ [] := by
  have h1 := mem_dropWhile_of_not isSpace s c hc hs
  have h2 : c ∈ (s.dropWhile isSpace).reverse := List.mem_reverse.mpr h1
  have h3 := mem_dropWhile_of_not isSpace _ c h2 hs
  have h4 : c ∈ trim s := List.mem_reverse.mpr h3
  intro h0
  rw [h0] at h4
  simp at h4

/-! ## The billing pattern -/

/-- After the label, the greedy path of the billing pattern: the group is the
run of letters and whitespace without its leading whitespace. -/
theorem matchHere_billingAfter (after run : Str) (h : NameAfterLabel after run) :
    matchHere [star isSpace, opt (isChar ':'), star isSpace, group isNameChar 1 none] after =
      some (run.dropWhile isSpace) := by
  obtain ⟨ws1, col, ws2, post, rfl, hws1, hcol, hws2, hrun, ⟨x, hx, hxl⟩, hpost⟩ := h
  have hsplit := List.takeWhile_append_dropWhile isSpace run
  have hxs : isSpace x = false := not_isSpace_of_isLetter x hxl
  have hxmem : x ∈ run.dropWhile isSpace := mem_dropWhile_of_not isSpace run x hx hxs
  obtain ⟨y, rest, hy⟩ : ∃ y rest, run.dropWhile isSpace = y :: rest := by
    cases hdw : run.dropWhile isSpace with
    | nil => rw [hdw] at hxmem; simp at hxmem
    | cons y rest => exact ⟨y, rest, rfl⟩
  have hys : isSpace y = false := dropWhile_head isSpace run y rest hy
  have hymem : y ∈ run := by
    rw [← hsplit, hy]; simp
  have hyl : isLetter y = true := by
    have := hrun y hymem
    simpa [isNameChar, hys] using this
  have hycol : isChar ':' y = false := by
    cases hc : isChar ':' y with
    | false => rfl
    | true =>
      have : y = ':' := by simpa [isChar] using hc
      rw [this] at hyl
      exact absurd hyl (by decide)
  have hheadS : ∀ c ∈ ((y :: rest) ++ post).head?, isSpace c = false := by
    intro c hc; simp at hc; rw [← hc]; exact hys
  have hheadC : ∀ c ∈ ((y :: rest) ++ post).head?, isChar ':' c = false := by
    intro c hc; simp at hc; rw [← hc]; exact hycol
  have hrest : ∀ c ∈ y :: rest, isNameChar c = true := by
    intro c hc
    apply hrun
    rw [← hsplit, hy]
    exact List.mem_append_right _ hc
  -- the group at the start of the name
  have hgroup : matchHere [group isNameChar 1 none] ((y :: rest) ++ post) = some (y :: rest) := by
    unfold group
    rw [matchHere_greedy_last, (takeWhile_append_of_head isNameChar (y :: rest) post hrest hpost).1]
    simp
  -- whitespace that ends at the start of the name
  have hspaces : ∀ ws : Str, (∀ c ∈ ws, isSpace c = true) → ∀ R c,
      matchHere R ((y :: rest) ++ post) = some c →
      matchHere (star isSpace :: R) (ws ++ ((y :: rest) ++ post)) = some c := by
    intro ws hws R c hc
    have hs := takeWhile_append_of_head isSpace ws ((y :: rest) ++ post) hws hheadS
    unfold star
    rw [matchHere_greedy_some isSpace 0 false R _ c (Nat.zero_le _) (by rw [hs.2]; exact hc)]
    rfl
  rw [hy]
  obtain ⟨l, hl, htw⟩ : ∃ l, run = l ++ (y :: rest) ∧ ∀ c ∈ l, isSpace c = true :=
    ⟨run.takeWhile isSpace, by rw [← hy, hsplit], takeWhile_all _ _⟩
  rcases hcol with rfl | rfl
  · -- no colon
    have hall : ∀ c ∈ ws1 ++ ws2 ++ l, isSpace c = true := by
      intro c hc
      rcases List.mem_append.mp hc with h | h
      · rcases List.mem_append.mp h with h | h
        · exact hws1 c h
        · exact hws2 c h
      · exact htw c h
    have hrew : ws1 ++ [] ++ ws2 ++ run ++ post
        = (ws1 ++ ws2 ++ l) ++ ((y :: rest) ++ post) := by
      rw [hl]; simp
    rw [hrew]
    apply hspaces _ hall
    rw [matchHere_opt_skip _ _ _ hheadC]
    have := hspaces [] (by simp) [group isNameChar 1 none] (y :: rest) hgroup
    simpa using this
  · -- a colon
    have hall : ∀ c ∈ ws2 ++ l, isSpace c = true := by
      intro c hc
      rcases List.mem_append.mp hc with h | h
      · exact hws2 c h
      · exact htw c h
    have hrew : ws1 ++ [':'] ++ ws2 ++ run ++ post
        = ws1 ++ (':' :: ((ws2 ++ l) ++ ((y :: rest) ++ post))) := by
      rw [hl]; simp
    rw [hrew]
    have hs := takeWhile_append_of_head isSpace ws1
      (':' :: ((ws2 ++ l) ++ ((y :: rest) ++ post))) hws1
      (by intro c hc; simp at hc; rw [← hc]; decide)
    unfold star
    rw [matchHere_greedy_some isSpace 0 false _ _ (y :: rest) (Nat.zero_le _)]
    · rfl
    · rw [hs.2]
      apply matchHere_opt_take _ _ _ _ _ (by decide)
      exact hspaces _ hall [group isNameChar 1 none] (y :: rest) hgroup

/-- The billing pattern at the head of a text that starts with the label. -/
theorem matchHere_billing_label (after : Str) :
    matchHere billingPattern ("Billing Address".toList ++ after) =
      matchHere [star isSpace, opt (isChar ':'), star isSpace, group isNameChar 1 none] after := by
  have hp : billingPattern = lit "Billing Address" ++
      [star isSpace, opt (isChar ':'), star isSpace, group isNameChar 1 none] := rfl
  rw [hp, matchHere_lit, if_pos ((startsWith_isChar _ _).mpr ⟨after, rfl⟩), List.drop_left]

/-- The billing pattern matches only where the label starts. -/
theorem matchHere_billing_some (t r : Str) (h : matchHere billingPattern t = some r) :
    ∃ after, t = "Billing Address".toList ++ after := by
  have hp : billingPattern = lit "Billing Address" ++
      [star isSpace, opt (isChar ':'), star isSpace, group isNameChar 1 none] := rfl
  rw [hp, matchHere_lit] at h
  by_cases hs : startsWith isChar "Billing Address".toList t = true
  · exact (startsWith_isChar _ _).mp hs
  · rw [if_neg hs] at h; exact absurd h (by simp)

/-- The search of the billing pattern when the name follows the leftmost label. -/
theorem reMatch_billing (text pre after run : Str)
    (htext : text = pre ++ "Billing Address".toList ++ after)
    (hname : NameAfterLabel after run)
    (hleft : ∀ pre' after', text = pre' ++ "Billing Address".toList ++ after' →
      pre.length ≤ pre'.length) :
    reMatch billingPattern text = some (run.dropWhile isSpace) := by
  subst htext
  rw [List.append_assoc]
  apply reMatch_at
  · rw [matchHere_billing_label]
    exact matchHere_billingAfter after run hname
  · intro k hk
    cases hm : matchHere billingPattern ((pre ++ ("Billing Address".toList ++ after)).drop k) with
    | none => rfl
    | some r =>
      obtain ⟨after', ha⟩ := matchHere_billing_some _ r hm
      have h1 := hleft ((pre ++ ("Billing Address".toList ++ after)).take k) after' (by
        rw [List.append_assoc, List.append_assoc, ← ha, List.take_append_drop])
      rw [List.length_take] at h1
      have : min k (pre ++ ("Billing Address".toList ++ after)).length ≤ k := Nat.min_le_left _ _
      omega

/-- The customer-name extractor on a non-empty string body. -/
theorem extractCustomerName_eq (ch : Cheerio) (subject : JsValue) (body : Str)
    (hbody : body ≠ []) :
    extractCustomerNameFromConfirmationEmail ch (some ⟨subject, .str body⟩) =
      if truthyStr (customerNameSteps (ch.load body)) then customerNameSteps (ch.load body)
      else none := by
  cases body with
  | nil => exact absurd rfl hbody
  | cons b bs =>
    simp only [extractCustomerNameFromConfirmationEmail, customerNameTry, JsValue.truthy,
      cheerioLoad, bind, Except.bind, pure, Except.pure, Bool.not_true, Bool.false_eq_true,
      if_false]
    by_cases h : truthyStr (customerNameSteps (ch.load (b :: bs))) = true
    · simp only [h, if_true]
    · simp only [h, if_false, Bool.false_eq_true]

/-- A name found by the billing step is the result of the three steps. -/
theorem customerNameSteps_of_billing (dom : Dom) (n : Str) (hn : n ≠ [])
    (h : billingStep dom = some n) : customerNameSteps dom = some n := by
  have ht : truthyStr (some n) = true := by
    cases n with
    | nil => exact absurd rfl hn
    | cons _ _ => rfl
  simp only [customerNameSteps, h, ht, Bool.not_true, Bool.false_eq_true, if_false]

theorem truthyStr_iff (n : Str) : truthyStr (some n) = true ↔ n ≠ [] := by
  cases n with
  | nil => simp [truthyStr]
  | cons _ _ => simp [truthyStr]


/-! ## Groups are never empty -/

theorem greedyCount_le (a : Atom) (s : Str) : greedyCount a s ≤ s.length := by
  have h : (s.takeWhile a.cls).length ≤ s.length :=
    (List.takeWhile_sublist a.cls).length_le
  unfold greedyCount
  cases a.max with
  | none => exact h
  | some m => exact Nat.le_trans (Nat.min_le_left _ _) h

/-- A match of a pattern with a group of at least one character has a non-empty group. -/
theorem matchHere_ne_nil (p : Pattern) (s r : Str) (hp : HasGroup p)
    (h : matchHere p s = some r) : r ≠ [] := by
  induction p generalizing s r with
  | nil =>
    obtain ⟨a, ha, _⟩ := hp
    simp at ha
  | cons a rest ih =>
    simp only [matchHere] at h
    obtain ⟨k, hk, hatt⟩ := backtrack_some _ _ _ _ _ h
    have hks : k ≤ s.length := Nat.le_trans hk (greedyCount_le a s)
    simp only [attempt] at hatt
    by_cases hmin : a.min ≤ k
    · rw [if_pos hmin] at hatt
      cases hc : matchHere rest (s.drop k) with
      | none => simp [hc] at hatt
      | some c =>
        simp only [hc, Option.some.injEq] at hatt
        obtain ⟨b, hb, hcap, hbmin⟩ := hp
        rcases List.mem_cons.mp hb with hba | hbrest
        · subst hba
          rw [hcap] at hatt
          simp only [if_true] at hatt
          intro h0
          rw [h0] at hatt
          have hlen := congrArg List.length hatt
          simp only [List.length_append, List.length_take, List.length_nil] at hlen
          have : min k s.length = k := Nat.min_eq_left hks
          omega
        · have hcne := ih (s.drop k) c ⟨b, hbrest, hcap, hbmin⟩ hc
          intro h0
          rw [h0] at hatt
          by_cases hcap2 : a.cap = true
          · simp only [hcap2, if_true] at hatt
            exact hcne (List.append_eq_nil.mp hatt).2
          · simp only [hcap2, if_false, Bool.false_eq_true] at hatt
            exact hcne hatt
    · rw [if_neg hmin] at hatt
      exact absurd hatt (by simp)

/-- A group found by a search is truthy. -/
theorem reMatch_truthy (p : Pattern) (s r : Str) (hp : HasGroup p)
    (h : reMatch p s = some r) : truthyStr (some r) = true := by
  obtain ⟨k, _, hm, _⟩ := reMatch_some p s r h
  exact (truthyStr_iff r).mpr (matchHere_ne_nil p _ r hp hm)

theorem truthyStr_reMatch (p : Pattern) (s : Str) (hp : HasGroup p) :
    truthyStr (reMatch p s) = true ↔ reMatch p s ≠ none := by
  cases h : reMatch p s with
  | none => simp [truthyStr]
  | some r => simp [reMatch_truthy p s r hp h]

theorem hasGroup_subjectPattern : HasGroup subjectPattern :=
  ⟨group isDigit 1 none, by simp [subjectPattern], rfl, by decide⟩

theorem hasGroup_hrefPattern : HasGroup hrefPattern :=
  ⟨group isDigit 10 none, by simp [hrefPattern], rfl, by decide⟩

theorem hasGroup_uspsPatterns : ∀ p ∈ uspsPatterns, HasGroup p := by
  intro p hp
  simp only [uspsPatterns, List.mem_cons, List.mem_singleton, List.not_mem_nil, or_false] at hp
  rcases hp with rfl | rfl | rfl <;>
    exact ⟨group isDigit 1 none, by simp, rfl, by decide⟩

theorem hasGroup_upsPatterns : ∀ p ∈ upsPatterns, HasGroup p := by
  intro p hp
  simp only [upsPatterns, List.mem_cons, List.mem_singleton, List.not_mem_nil, or_false] at hp
  rcases hp with rfl | rfl
  · exact ⟨group isDigit 1 none, by simp, rfl, by decide⟩
  · exact ⟨group isDigit 1 (some 2), by simp, rfl, by decide⟩

/-! ## The ordered lists of patterns -/

/-- The loop over a pattern list finds nothing exactly when no pattern matches. -/
theorem firstMatch_truthy_iff (text : Str) (ps : List Pattern) (hps : ∀ p ∈ ps, HasGroup p) :
    truthyStr (firstMatch text ps) = false ↔ ∀ p ∈ ps, reMatch p text = none := by
  induction ps with
  | nil => simp [firstMatch, truthyStr]
  | cons p ps ih =>
    have hp := hps p (by simp)
    have ih2 := ih fun q hq => hps q (by simp [hq])
    simp only [firstMatch, List.mem_cons, forall_eq_or_imp]
    by_cases ht : truthyStr (reMatch p text) = true
    · rw [if_pos ht]
      have hne := (truthyStr_reMatch p text hp).mp ht
      constructor
      · intro h; rw [ht] at h; exact absurd h (by simp)
      · intro h; exact absurd h.1 hne
    · rw [if_neg ht, ih2]
      have hnone : reMatch p text = none := by
        by_contra hne
        exact ht ((truthyStr_reMatch p text hp).mpr hne)
      simp [hnone]

/-- The tracking-link step finds nothing exactly when the first link has no run of ten digits. -/
theorem linkStep_truthy_iff (dom : Dom) :
    truthyStr (linkStep dom).1 = false ↔
      ∀ href ∈ dom.trackingHrefs.head?, reMatch hrefPattern href = none := by
  unfold linkStep
  cases dom.trackingHrefs with
  | nil => simp [truthyStr]
  | cons href rest =>
    simp only [List.head?_cons, Option.mem_def, Option.some.injEq, forall_eq']
    by_cases ht : truthyStr (reMatch hrefPattern href) = true
    · rw [if_pos ht]
      have hne := (truthyStr_reMatch _ href hasGroup_hrefPattern).mp ht
      simp [ht, hne]
    · rw [if_neg ht]
      have hnone : reMatch hrefPattern href = none := by
        by_contra hne
        exact ht ((truthyStr_reMatch _ href hasGroup_hrefPattern).mpr hne)
      simp [hnone, truthyStr]

/-- The three steps find nothing exactly when nothing is there to find. -/
theorem trackingSteps_truthy_iff (dom : Dom) :
    truthyStr (trackingSteps dom).1 = false ↔ NothingFound dom := by
  have h1 := firstMatch_truthy_iff dom.bodyText uspsPatterns hasGroup_uspsPatterns
  have h2 := firstMatch_truthy_iff dom.bodyText upsPatterns hasGroup_upsPatterns
  have h3 := linkStep_truthy_iff dom
  unfold NothingFound
  rw [← h1, ← h2, ← h3]
  unfold trackingSteps
  by_cases ht1 : truthyStr (firstMatch dom.bodyText uspsPatterns) = true
  · simp [ht1]
  · by_cases ht2 : truthyStr (firstMatch dom.bodyText upsPatterns) = true
    · simp [ht1, ht2]
    · simp [ht1, ht2]

/-- The carrier set by the three steps, when a number is found. -/
theorem trackingSteps_carrier (dom : Dom) (h : truthyStr (trackingSteps dom).1 = true) :
    (trackingSteps dom).2 = some "USPS".toList ∨ (trackingSteps dom).2 = some "UPS".toList ∨
      (trackingSteps dom).2 = some "Other".toList := by
  unfold trackingSteps at h ⊢
  by_cases ht1 : truthyStr (firstMatch dom.bodyText uspsPatterns) = true
  · simp [ht1]
  · by_cases ht2 : truthyStr (firstMatch dom.bodyText upsPatterns) = true
    · simp [ht1, ht2]
    · simp only [ht1, ht2, if_false, Bool.false_eq_true] at h ⊢
      unfold linkStep at h ⊢
      cases hl : dom.trackingHrefs with
      | nil => rw [hl] at h; simp [truthyStr] at h
      | cons href rest =>
        rw [hl] at h
        simp only at h ⊢
        by_cases ht : truthyStr (reMatch hrefPattern href) = true
        · simp only [ht, if_true]
          by_cases hu : includes href "usps".toList = true
          · left; rw [if_pos hu]
          · by_cases hu2 : includes href "ups".toList = true
            · right; left; rw [if_neg hu, if_pos hu2]
            · right; right; rw [if_neg hu, if_neg hu2]
        · rw [if_neg ht] at h
          exact absurd h (by simp [truthyStr])


/-- Every result of the tracking extractor comes from a truthy body that
loads, a string subject and a number found by the three steps. -/
theorem extractTracking_some (ch : Cheerio) (e : Option EmailContent) (r : TrackingInfo)
    (h : extractTrackingNumberFromEmail ch e = some r) :
    ∃ ec dom subject, e = some ec ∧ ec.body.truthy = true ∧ cheerioLoad ch ec.body = .ok dom ∧
      ec.subject = .str subject ∧ truthyStr (trackingSteps dom).1 = true ∧
      r = ⟨if truthyStr (reMatch subjectPattern subject) then reMatch subjectPattern subject
           else none, (trackingSteps dom).1, (trackingSteps dom).2⟩ := by
  cases e with
  | none => simp [extractTrackingNumberFromEmail, trackingTry] at h
  | some ec =>
    by_cases hb : ec.body.truthy = true
    · cases hl : cheerioLoad ch ec.body with
      | error err =>
        simp [extractTrackingNumberFromEmail, trackingTry, hb, hl, bind, Except.bind] at h
      | ok dom =>
        cases hs : ec.subject with
        | str subject =>
          by_cases ht : truthyStr (trackingSteps dom).1 = true
          · refine ⟨ec, dom, subject, rfl, hb, hl, hs, ht, ?_⟩
            simp only [extractTrackingNumberFromEmail, trackingTry, hb, hl, hs, jsMatch, bind,
              Except.bind, pure, Except.pure, ht, Bool.not_true, Bool.false_eq_true, if_false,
              if_true, Option.some.injEq] at h
            exact h.symm
          · simp [extractTrackingNumberFromEmail, trackingTry, hb, hl, hs, jsMatch, bind,
              Except.bind, pure, Except.pure, ht] at h
        | undefined =>
          simp [extractTrackingNumberFromEmail, trackingTry, hb, hl, hs, jsMatch, bind,
            Except.bind] at h
        | null =>
          simp [extractTrackingNumberFromEmail, trackingTry, hb, hl, hs, jsMatch, bind,
            Except.bind] at h
        | other t =>
          simp [extractTrackingNumberFromEmail, trackingTry, hb, hl, hs, jsMatch, bind,
            Except.bind] at h
    · simp [extractTrackingNumberFromEmail, trackingTry, hb] at h

/-- The order number set from the subject by the tracking extractor. -/
theorem subjectOrderNumber_spec (subject : Str) :
    (∀ ds, LeftmostOrderRef subject ds →
      (if truthyStr (reMatch subjectPattern subject) then reMatch subjectPattern subject
       else none) = some ds) ∧
    (NoOrderRef subject →
      (if truthyStr (reMatch subjectPattern subject) then reMatch subjectPattern subject
       else none) = none) := by
  constructor
  · intro ds h
    rw [(reMatch_subject_some subject ds).mpr h, if_pos (truthyStr_of_leftmostOrderRef _ _ h)]
  · intro h
    rw [(reMatch_subject_none subject).mpr h]
    rfl

/-- The order-number extractor when the body is absent or empty. -/
theorem orderNumber_falsyBody_eq (ch : Cheerio) (subject body : JsValue)
    (hb : body.truthy = false) :
    extractOrderNumberFromTrackingEmail ch (some ⟨subject, body⟩) =
      match subject with
      | .str s => if truthyStr (reMatch subjectPattern s) then reMatch subjectPattern s else none
      | _ => none := by
  cases subject with
  | str s =>
    cases s with
    | nil =>
      simp only [extractOrderNumberFromTrackingEmail, orderNumberTry, JsValue.truthy,
        Bool.not_false, if_true]
      rfl
    | cons c cs =>
      have hs : (JsValue.str (c :: cs)).truthy = true := rfl
      simp only [extractOrderNumberFromTrackingEmail, orderNumberTry, hs, jsMatch,
        bind, Except.bind, pure, Except.pure, hb, Bool.not_true, Bool.false_eq_true, if_false]
      by_cases ht : truthyStr (reMatch subjectPattern (c :: cs)) = true
      · simp only [ht, if_true]
      · simp only [ht, if_false, Bool.false_eq_true]
  | undefined => rfl
  | null => rfl
  | other t =>
    cases t with
    | false => rfl
    | true => rfl

theorem truthy_of_absentOrEmpty (v : JsValue) (h : AbsentOrEmpty v) : v.truthy = false := by
  rcases h with h | h | h <;> rw [h] <;> rfl


/-- The search of the shape `w1 \s+ w2 [^\d]* (\d+)` returns exactly the first
digit run after the leftmost phrase that has a digit after it. -/
theorem reMatch_phraseDigits_iff (w1 w2 : String) (text ds : Str)
    (hw2 : ∃ p ps, w2.toList = p :: ps ∧ ∀ c, isSpace c = true → isCharI p c = false) :
    reMatch (litI w1 ++ [plus isSpace] ++ litI w2 ++ [star isNonDigit] ++
        [group isDigit 1 none]) text = some ds ↔ LeftmostPhraseDigits w1 w2 text ds := by
  constructor
  · intro h
    obtain ⟨k, hk, hm, hbefore⟩ := reMatch_some _ _ _ h
    obtain ⟨rest, hph, hrun⟩ := (matchHere_phraseDigits w1 w2 _ ds hw2).mp hm
    refine ⟨text.take k, rest, ?_, hrun, ?_⟩
    · exact (phraseAt_iff _ _ _ _ _).mpr ⟨_, (List.take_append_drop k text).symm, hph⟩
    · have := phrase_leftmost_of_none w1 w2 text k hw2 hbefore
      rw [List.length_take, Nat.min_eq_left hk]
      exact this
  · rintro ⟨pre, rest, hph, hrun, hleft⟩
    exact reMatch_phraseDigits w1 w2 text pre rest ds hw2 hph hrun hleft

/-- A text with a phrase that has a digit after it has a leftmost such phrase. -/
theorem leftmostPhraseDigits_exists (w1 w2 : String) (text : Str)
    (hw2 : ∃ p ps, w2.toList = p :: ps ∧ ∀ c, isSpace c = true → isCharI p c = false)
    (h : ∃ pre rest, PhraseAt w1 w2 text pre rest ∧ ∃ c ∈ rest, isDigit c = true) :
    ∃ ds, LeftmostPhraseDigits w1 w2 text ds := by
  obtain ⟨pre, rest, hph, hdig⟩ := h
  obtain ⟨t, rfl, ht⟩ := (phraseAt_iff _ _ _ _ _).mp hph
  obtain ⟨ds0, hds0⟩ := firstDigitRun_exists rest hdig
  have hm := (matchHere_phraseDigits w1 w2 t ds0 hw2).mpr ⟨rest, ht, hds0⟩
  cases hr : reMatch (litI w1 ++ [plus isSpace] ++ litI w2 ++ [star isNonDigit] ++
      [group isDigit 1 none]) (pre ++ t) with
  | some ds => exact ⟨ds, (reMatch_phraseDigits_iff w1 w2 _ ds hw2).mp hr⟩
  | none =>
    have := (reMatch_eq_none_iff _ _).mp hr pre.length (by simp)
    rw [List.drop_left, hm] at this
    exact absurd this (by simp)

/-- A text with an order reference has a leftmost one. -/
theorem leftmostOrderRef_exists (s : Str) (h : ∃ pre ds, OrderRefAt s pre ds) :
    ∃ ds, LeftmostOrderRef s ds := by
  cases hr : reMatch subjectPattern s with
  | some ds => exact ⟨ds, (reMatch_subject_some s ds).mp hr⟩
  | none =>
    obtain ⟨pre, ds, hat⟩ := h
    exact absurd hat ((reMatch_subject_none s).mp hr pre ds)

/-- The tracking extractor when the first USPS pattern finds `ds`. -/
theorem extractTracking_of_usps (ch : Cheerio) (subject body ds : Str) (hbody : body ≠ [])
    (h : LeftmostPhraseDigits "USPS" "Tracking" (ch.load body).bodyText ds) :
    ∃ r, extractTrackingNumberFromEmail ch (some ⟨.str subject, .str body⟩) = some r ∧
      r.trackingNumber = some ds ∧ r.carrier = some "USPS".toList := by
  have hw2 : ∃ p ps, "Tracking".toList = p :: ps ∧ ∀ c, isSpace c = true → isCharI p c = false :=
    ⟨'T', "racking".toList, rfl, no_space_of_letter 'T' (by decide)⟩
  have hm := (reMatch_phraseDigits_iff "USPS" "Tracking" _ ds hw2).mpr h
  obtain ⟨pre, rest, _, hdigit, _⟩ := h
  have ht := truthyStr_of_firstDigitRun rest ds hdigit
  have hsteps : trackingSteps (ch.load body) = (some ds, some "USPS".toList) := by
    simp only [trackingSteps, uspsPatterns, firstMatch, hm, ht, if_true]
  rw [extractTracking_eq ch subject body hbody, hsteps, if_pos ht]
  exact ⟨_, rfl, rfl, rfl⟩

/-- The order-number extractor when the subject holds an order reference. -/
theorem extractOrderNumber_of_subject (ch : Cheerio) (subject ds : Str) (body : JsValue)
    (h : LeftmostOrderRef subject ds) :
    extractOrderNumberFromTrackingEmail ch (some ⟨.str subject, body⟩) = some ds := by
  have hm := (reMatch_subject_some subject ds).mpr h
  have ht := truthyStr_of_leftmostOrderRef subject ds h
  have hne := ne_nil_of_leftmostOrderRef subject ds h
  cases subject with
  | nil => exact absurd rfl hne
  | cons c cs =>
    simp [extractOrderNumberFromTrackingEmail, orderNumberTry, JsValue.truthy, jsMatch,
      hm, ht, bind, Except.bind, pure, Except.pure]


/-! ## No exception escapes -/

/-- The `catch` handler turns every outcome of a `try` block into a returned value. -/
theorem tryCatch_returns {α : Type} (body : Except String (Option α)) :
    tryCatch body (fun _ => (pure none : Except String (Option α))) =
      .ok (match body with
        | .ok r => r
        | .error _ => none) := by
  cases body <;> rfl


/-! ## Leftmost occurrences, in general -/

/-- When the occurrences after a prefix are the matches of the pattern at
that position, the search returns the value of the leftmost occurrence. -/
theorem reMatch_leftmost (p : Pattern) (Occ : Str → Str → Str → Prop)
    (hocc : ∀ text pre v, Occ text pre v ↔ ∃ t, text = pre ++ t ∧ matchHere p t = some v)
    (text v : Str) : reMatch p text = some v ↔ Leftmost Occ text v := by
  constructor
  · intro h
    obtain ⟨k, hk, hm, hbefore⟩ := reMatch_some _ _ _ h
    refine ⟨text.take k, (hocc _ _ _).mpr ⟨text.drop k, (List.take_append_drop k text).symm, hm⟩,
      ?_⟩
    intro pre' v' h'
    obtain ⟨t, rfl, ht⟩ := (hocc _ _ _).mp h'
    rw [List.length_take, Nat.min_eq_left hk]
    by_contra hlt
    have := hbefore pre'.length (Nat.lt_of_not_le hlt)
    rw [List.drop_left, ht] at this
    exact absurd this (by simp)
  · rintro ⟨pre, hat, hleft⟩
    obtain ⟨t, rfl, ht⟩ := (hocc _ _ _).mp hat
    apply reMatch_at _ _ _ _ ht
    intro k hk
    cases hm : matchHere p ((pre ++ t).drop k) with
    | none => rfl
    | some r =>
      have h1 := hleft _ _ ((hocc _ ((pre ++ t).take k) r).mpr
        ⟨_, (List.take_append_drop k _).symm, hm⟩)
      rw [List.length_take] at h1
      have : min k (pre ++ t).length ≤ k := Nat.min_le_left _ _
      omega

/-- The search fails exactly when the text has no occurrence. -/
theorem reMatch_none_iff_no_occ (p : Pattern) (Occ : Str → Str → Str → Prop)
    (hocc : ∀ text pre v, Occ text pre v ↔ ∃ t, text = pre ++ t ∧ matchHere p t = some v)
    (text : Str) : reMatch p text = none ↔ ∀ pre v, ¬ Occ text pre v := by
  constructor
  · intro h pre v hat
    obtain ⟨t, rfl, ht⟩ := (hocc _ _ _).mp hat
    have := (reMatch_eq_none_iff _ _).mp h pre.length (by simp)
    rw [List.drop_left, ht] at this
    exact absurd this (by simp)
  · intro h
    cases hm : reMatch p text with
    | none => rfl
    | some v =>
      obtain ⟨pre, hat, _⟩ := (reMatch_leftmost p Occ hocc text v).mp hm
      exact absurd hat (h pre v)

/-- A text with an occurrence has a leftmost one. -/
theorem leftmost_exists (p : Pattern) (Occ : Str → Str → Str → Prop)
    (hocc : ∀ text pre v, Occ text pre v ↔ ∃ t, text = pre ++ t ∧ matchHere p t = some v)
    (text : Str) (h : ∃ pre v, Occ text pre v) : ∃ v, Leftmost Occ text v := by
  cases hm : reMatch p text with
  | some v => exact ⟨v, (reMatch_leftmost p Occ hocc text v).mp hm⟩
  | none =>
    obtain ⟨pre, v, hat⟩ := h
    exact absurd hat ((reMatch_none_iff_no_occ p Occ hocc text).mp hm pre v)

/-! ## The order text pattern -/

/-- The group `(\d+)` that ends a pattern takes the leading digit run. -/
theorem matchHere_digits_last (t r : Str) :
    matchHere [group isDigit 1 none] t = some r ↔ LeadingDigitRun t r := by
  unfold group
  rw [matchHere_greedy_last]
  constructor
  · intro h
    by_cases h1 : 1 ≤ (t.takeWhile isDigit).length
    · rw [if_pos h1] at h
      simp only [Option.some.injEq] at h
      refine ⟨t.dropWhile isDigit, ?_, ?_, ?_, dropWhile_head? _ _⟩
      · rw [← h, List.takeWhile_append_dropWhile]
      · intro h0; rw [h, h0] at h1; simp at h1
      · rw [← h]; exact takeWhile_all _ _
    · rw [if_neg h1] at h; exact absurd h (by simp)
  · rintro ⟨post, rfl, hne, hds, hpost⟩
    rw [(takeWhile_append_of_head isDigit r post hds hpost).1]
    have : 1 ≤ r.length := by
      cases r with
      | nil => exact absurd rfl hne
      | cons _ _ => simp
    rw [if_pos this]

/-- No whitespace matches the character `#`. -/
theorem no_space_hash : ∀ c, isSpace c = true → isCharI '#' c = false := by
  intro c hc
  cases h : isCharI '#' c with
  | false => rfl
  | true =>
    have h35 : c.toNat = 35 := by
      simp only [isCharI, upperCode, beq_iff_eq] at h
      have hp : ('#' : Char).toNat = 35 := rfl
      rw [hp] at h
      split_ifs at h <;> omega
    have hcc : c = '#' := char_eq_of_toNat c '#' h35
    rw [hcc] at hc
    exact absurd hc (by decide)

/-- The order text pattern at a position is an order text occurrence there. -/
theorem orderTextAt_iff (text pre v : Str) :
    OrderTextAt text pre v ↔ ∃ t, text = pre ++ t ∧ matchHere orderTextPattern t = some v := by
  have hw2 : ∃ p ps, "#".toList = p :: ps ∧ ∀ c, isSpace c = true → isCharI p c = false :=
    ⟨'#', [], rfl, no_space_hash⟩
  have hp : orderTextPattern
      = litI "Order" ++ (plus isSpace :: (litI "#" ++ [group isDigit 1 none])) := by
    simp [orderTextPattern]
  constructor
  · rintro ⟨rest, hph, hrun⟩
    obtain ⟨t, rfl, ht⟩ := (phraseAt_iff _ _ _ _ _).mp hph
    refine ⟨t, rfl, ?_⟩
    rw [hp, matchHere_phrase "Order" "#" _ t v hw2]
    exact ⟨rest, ht, (matchHere_digits_last rest v).mpr hrun⟩
  · rintro ⟨t, rfl, hm⟩
    rw [hp, matchHere_phrase "Order" "#" _ t v hw2] at hm
    obtain ⟨rest, ht, hrun⟩ := hm
    exact ⟨rest, (phraseAt_iff _ _ _ _ _).mpr ⟨t, rfl, ht⟩, (matchHere_digits_last rest v).mp hrun⟩

theorem hasGroup_orderTextPattern : HasGroup orderTextPattern :=
  ⟨group isDigit 1 none, by simp [orderTextPattern], rfl, by decide⟩

theorem hasGroup_orderElementPattern : HasGroup orderElementPattern :=
  ⟨group isDigit 5 none, by simp [orderElementPattern], rfl, by decide⟩

/-- The order-number extractor on a non-empty string subject without an order
reference and a non-empty string body: the two body steps. -/
theorem extractOrderNumber_body_eq (ch : Cheerio) (subject body : Str) (hs : subject ≠ [])
    (hno : NoOrderRef subject) (hb : body ≠ []) :
    extractOrderNumberFromTrackingEmail ch (some ⟨.str subject, .str body⟩) =
      if truthyStr (reMatch orderTextPattern (ch.load body).bodyText) then
        reMatch orderTextPattern (ch.load body).bodyText
      else if truthyStr (reMatch orderElementPattern
          (selectionText (ch.load body).orderElements)) then
        reMatch orderElementPattern (selectionText (ch.load body).orderElements)
      else none := by
  have hm := (reMatch_subject_none subject).mpr hno
  cases subject with
  | nil => exact absurd rfl hs
  | cons c cs =>
    cases body with
    | nil => exact absurd rfl hb
    | cons b bs =>
      simp only [extractOrderNumberFromTrackingEmail, orderNumberTry, JsValue.truthy, jsMatch,
        cheerioLoad, bind, Except.bind, pure, Except.pure, hm, truthyStr, Bool.not_true,
        Bool.false_eq_true, if_false, if_true]
      split_ifs <;> rfl


/-! ## Runs of at least `n` digits -/

theorem length_le_takeWhile_append (p : Char → Bool) (r t : Str) (hr : ∀ c ∈ r, p c = true) :
    r.length ≤ ((r ++ t).takeWhile p).length := by
  induction r with
  | nil => simp
  | cons c cs ih =>
    have hc : p c = true := hr c (by simp)
    simp only [List.cons_append, List.takeWhile_cons, hc, if_true, List.length_cons]
    exact Nat.succ_le_succ (ih fun d hd => hr d (by simp [hd]))

/-- The pattern `(\d{n,})` at a position. -/
theorem longDigitRunAt_iff (n : Nat) (text pre v : Str) :
    LongDigitRunAt n text pre v ↔
      ∃ t, text = pre ++ t ∧ matchHere [group isDigit n none] t = some v := by
  unfold group
  constructor
  · rintro ⟨post, rfl, hn, hds, hpost⟩
    refine ⟨v ++ post, by simp, ?_⟩
    rw [matchHere_greedy_last, (takeWhile_append_of_head isDigit v post hds hpost).1, if_pos hn]
  · rintro ⟨t, rfl, hm⟩
    rw [matchHere_greedy_last] at hm
    by_cases hn : n ≤ (t.takeWhile isDigit).length
    · rw [if_pos hn] at hm
      simp only [Option.some.injEq] at hm
      subst hm
      exact ⟨t.dropWhile isDigit, by rw [List.append_assoc, List.takeWhile_append_dropWhile],
        hn, takeWhile_all _ _, dropWhile_head? _ _⟩
    · rw [if_neg hn] at hm; exact absurd hm (by simp)

/-- Any `n` digits in a row are the start of a match of `(\d{n,})`. -/
theorem longDigitRunAt_of_digits (n : Nat) (pre ds post : Str) (hn : n ≤ ds.length)
    (hds : ∀ c ∈ ds, isDigit c = true) :
    ∃ v, LongDigitRunAt n (pre ++ ds ++ post) pre v := by
  refine ⟨(ds ++ post).takeWhile isDigit, (ds ++ post).dropWhile isDigit, ?_, ?_,
    takeWhile_all _ _, dropWhile_head? _ _⟩
  · rw [List.append_assoc, List.append_assoc, List.takeWhile_append_dropWhile]
  · exact Nat.le_trans hn (length_le_takeWhile_append isDigit ds post hds)

/-- The leftmost match of `(\d{n,})` is the leftmost maximal run of `n` or more digits. -/
theorem leftmostLongDigitRun_iff (n : Nat) (text ds : Str) :
    Leftmost (LongDigitRunAt n) text ds ↔ LeftmostLongDigitRun n text ds := by
  constructor
  · rintro ⟨pre, ⟨post, rfl, hn, hds, hpost⟩, hleft⟩
    have hany : ∀ pre' ds' post', pre ++ ds ++ post = pre' ++ ds' ++ post' → n ≤ ds'.length →
        (∀ c ∈ ds', isDigit c = true) → pre.length ≤ pre'.length := by
      intro pre' ds' post' heq hn' hds'
      obtain ⟨v, hv⟩ := longDigitRunAt_of_digits n pre' ds' post' hn' hds'
      rw [← heq] at hv
      exact hleft pre' v hv
    refine ⟨pre, post, rfl, hn, hds, ?_, hpost, hany⟩
    intro d hd
    cases hdig : isDigit d with
    | false => rfl
    | true =>
      have hpre : pre = pre.dropLast ++ [d] := by
        have hne : pre ≠ [] := by
          intro h0; rw [h0] at hd; simp at hd
        have hl : pre.getLast? = some d := hd
        rw [List.getLast?_eq_getLast _ hne] at hl
        simp only [Option.some.injEq] at hl
        rw [← hl, List.dropLast_append_getLast hne]
      have h1 := hany pre.dropLast (d :: ds) post (by
          nth_rewrite 1 [hpre]; simp) (by simp; omega)
        (by
          intro c hc
          rcases List.mem_cons.mp hc with h | h
          · rw [h]; exact hdig
          · exact hds c h)
      have h2 : pre.length = pre.dropLast.length + 1 := by
        nth_rewrite 1 [hpre]; simp
      omega
  · rintro ⟨pre, post, rfl, hn, hds, _, hpost, hany⟩
    refine ⟨pre, ⟨post, rfl, hn, hds, hpost⟩, ?_⟩
    rintro pre' v' ⟨post', heq, hn', hds', _⟩
    exact hany pre' v' post' heq hn' hds'

/-- The search of `(\d{n,})` returns the leftmost maximal run of `n` or more digits. -/
theorem reMatch_longDigitRun (n : Nat) (text ds : Str) :
    reMatch [group isDigit n none] text = some ds ↔ LeftmostLongDigitRun n text ds := by
  rw [reMatch_leftmost _ (LongDigitRunAt n) (longDigitRunAt_iff n) text ds,
    leftmostLongDigitRun_iff]

/-- The search of `(\d{n,})` fails exactly on texts without `n` digits in a row. -/
theorem reMatch_longDigitRun_none (n : Nat) (text : Str) :
    reMatch [group isDigit n none] text = none ↔ NoLongDigitRun n text := by
  rw [reMatch_none_iff_no_occ _ (LongDigitRunAt n) (longDigitRunAt_iff n) text]
  constructor
  · intro h pre ds post heq hds
    by_contra hlt
    obtain ⟨v, hv⟩ := longDigitRunAt_of_digits n pre ds post (Nat.le_of_not_lt hlt) hds
    rw [← heq] at hv
    exact h pre v hv
  · rintro h pre v ⟨post, heq, hn, hds, _⟩
    have := h pre v post heq hds
    omega


/-! ## The order of the pattern lists -/

/-- When some pattern of the list matches, the loop returns the group of the
first pattern of the list that matches. -/
theorem firstMatch_first (text : Str) (ps : List Pattern) (hps : ∀ p ∈ ps, HasGroup p)
    (h : ∃ p ∈ ps, reMatch p text ≠ none) :
    ∃ before p after, ps = before ++ p :: after ∧ (∀ q ∈ before, reMatch q text = none) ∧
      reMatch p text ≠ none ∧ firstMatch text ps = reMatch p text := by
  induction ps with
  | nil =>
    obtain ⟨p, hp, _⟩ := h
    simp at hp
  | cons p ps ih =>
    by_cases hm : reMatch p text = none
    · have h2 : ∃ q ∈ ps, reMatch q text ≠ none := by
        obtain ⟨q, hq, hqm⟩ := h
        rcases List.mem_cons.mp hq with rfl | hq'
        · exact absurd hm hqm
        · exact ⟨q, hq', hqm⟩
      obtain ⟨before, q, after, hsplit, hbefore, hq, hf⟩ :=
        ih (fun q hq => hps q (by simp [hq])) h2
      refine ⟨p :: before, q, after, by rw [hsplit]; rfl, ?_, hq, ?_⟩
      · intro x hx
        rcases List.mem_cons.mp hx with rfl | hx'
        · exact hm
        · exact hbefore x hx'
      · have hnt : ¬ (truthyStr (reMatch p text) = true) := by rw [hm]; decide
        simp only [firstMatch, if_neg hnt, hf]
    · refine ⟨[], p, ps, rfl, by simp, hm, ?_⟩
      have ht := (truthyStr_reMatch p text (hps p (by simp))).mpr hm
      simp only [firstMatch, if_pos ht]

/-- The three steps when a USPS pattern matches. -/
theorem trackingSteps_of_usps (dom : Dom) (h : ∃ p ∈ uspsPatterns, reMatch p dom.bodyText ≠ none) :
    ∃ before p after, uspsPatterns = before ++ p :: after ∧
      (∀ q ∈ before, reMatch q dom.bodyText = none) ∧ reMatch p dom.bodyText ≠ none ∧
      trackingSteps dom = (reMatch p dom.bodyText, some "USPS".toList) := by
  obtain ⟨before, p, after, hsplit, hbefore, hp, hf⟩ :=
    firstMatch_first dom.bodyText uspsPatterns hasGroup_uspsPatterns h
  refine ⟨before, p, after, hsplit, hbefore, hp, ?_⟩
  have hpmem : p ∈ uspsPatterns := by rw [hsplit]; simp
  have ht := (truthyStr_reMatch p dom.bodyText (hasGroup_uspsPatterns p hpmem)).mpr hp
  simp only [trackingSteps, hf, ht, if_true]

/-- The carrier `UPS` is set only after every USPS pattern has failed. -/
theorem trackingSteps_ups_carrier (dom : Dom)
    (h : (trackingSteps dom).2 = some "UPS".toList) :
    ∀ p ∈ uspsPatterns, reMatch p dom.bodyText = none := by
  by_cases ht : truthyStr (firstMatch dom.bodyText uspsPatterns) = true
  · simp only [trackingSteps, ht, if_true] at h
    exact absurd h (by decide)
  · have hf : truthyStr (firstMatch dom.bodyText uspsPatterns) = false := by simpa using ht
    exact (firstMatch_truthy_iff dom.bodyText uspsPatterns hasGroup_uspsPatterns).mp hf


/-! ## Bounded terms -/

/-- A bounded greedy term whose continuation fails on every text that starts
in the class: the longest run must fit the bounds, and is taken whole. -/
theorem matchHere_bounded_disjoint (cls : Char → Bool) (m M : Nat) (cap : Bool)
    (rest : Pattern) (s : Str)
    (hd : ∀ c t, cls c = true → matchHere rest (c :: t) = none) :
    matchHere (⟨cls, m, some M, cap⟩ :: rest) s =
      if m ≤ (s.takeWhile cls).length ∧ (s.takeWhile cls).length ≤ M then
        match matchHere rest (s.dropWhile cls) with
        | some c => some (if cap then s.takeWhile cls ++ c else c)
        | none => none
      else none := by
  have hfail : ∀ k, k < (s.takeWhile cls).length → attempt ⟨cls, m, some M, cap⟩
      (matchHere rest) s k = none := by
    intro k hk
    obtain ⟨c, t, hct, hc⟩ := drop_lt_takeWhile cls s k hk
    simp only [attempt, hct, hd c t hc]
    split <;> rfl
  simp only [matchHere, greedyCount]
  by_cases hM : (s.takeWhile cls).length ≤ M
  · have hmin : Nat.min (s.takeWhile cls).length M = (s.takeWhile cls).length :=
      Nat.min_eq_left hM
    rw [hmin, backtrack_top _ _ _ _ hfail]
    simp only [attempt, take_takeWhile_length, drop_takeWhile_length, hM, and_true]
  · have hmin : Nat.min (s.takeWhile cls).length M = M :=
      Nat.min_eq_right (Nat.le_of_lt (Nat.lt_of_not_le hM))
    rw [hmin, if_neg (fun h => hM h.2), backtrack_eq_none_iff]
    intro k hk
    exact hfail k (Nat.lt_of_le_of_lt hk (Nat.lt_of_not_le hM))

/-- One character of a class inside the group. -/
theorem matchHere_one_cap (cls : Char → Bool) (rest : Pattern) (s : Str) :
    matchHere (⟨cls, 1, some 1, true⟩ :: rest) s =
      match s with
      | [] => none
      | c :: cs => if cls c then (matchHere rest cs).map (fun r => c :: r) else none := by
  cases s with
  | nil => simp [matchHere, greedyCount, backtrack, attempt]
  | cons c cs =>
    by_cases h : cls c
    · simp only [matchHere, greedyCount, List.takeWhile_cons, h, if_true]
      have : Nat.min (c :: List.takeWhile cls cs).length 1 = 1 := by
        simp [Nat.min_def]
      rw [this]
      simp only [backtrack, attempt]
      cases hm : matchHere rest cs with
      | some r => simp [hm]
      | none => simp [hm]
    · simp [matchHere, greedyCount, List.takeWhile_cons, h, backtrack, attempt, Nat.min_def]

/-- A group of exactly `M` characters of a class that ends the pattern. -/
theorem matchHere_exact_last (cls : Char → Bool) (M : Nat) (s : Str) :
    matchHere [⟨cls, M, some M, true⟩] s =
      if M ≤ (s.takeWhile cls).length then some (s.take M) else none := by
  simp only [matchHere, greedyCount]
  by_cases h : M ≤ (s.takeWhile cls).length
  · have hmin : Nat.min (s.takeWhile cls).length M = M := Nat.min_eq_right h
    rw [if_pos h, hmin]
    apply backtrack_top_some
    simp [attempt]
  · rw [if_neg h, backtrack_eq_none_iff]
    intro k hk
    have hmin : Nat.min (s.takeWhile cls).length M ≤ (s.takeWhile cls).length :=
      Nat.min_le_left _ _
    have hlt : k < M := Nat.lt_of_le_of_lt (Nat.le_trans hk hmin) (Nat.lt_of_not_le h)
    have : ¬ M ≤ k := Nat.not_le.mpr hlt
    simp [attempt, this]

theorem take_all_of_le_takeWhile (p : Char → Bool) (s : Str) (k : Nat)
    (hk : k ≤ (s.takeWhile p).length) : ∀ c ∈ s.take k, p c = true := by
  intro c hc
  have hpre : s.take k = (s.takeWhile p).take k := by
    have h1 : s = s.takeWhile p ++ s.dropWhile p := (List.takeWhile_append_dropWhile p s).symm
    nth_rewrite 1 [h1]
    rw [List.take_append_of_le_length hk]
  rw [hpre] at hc
  exact takeWhile_all p s c (List.mem_of_mem_take hc)


/-! ## The UPS code pattern -/

/-- The group `(\d{1,2}[A-Z]\d{10})` at the head of a text. -/
theorem matchHere_upsCode (t v : Str) :
    matchHere [group isDigit 1 (some 2), group isLetter 1 (some 1), group isDigit 10 (some 10)] t
      = some v ↔ UpsCodeHere t v := by
  have hd : ∀ c u, isDigit c = true →
      matchHere [group isLetter 1 (some 1), group isDigit 10 (some 10)] (c :: u) = none := by
    intro c u hc
    unfold group
    rw [matchHere_one_cap]
    have : isLetter c = false := by
      cases hl : isLetter c with
      | false => rfl
      | true => rw [not_isDigit_of_isLetter c hl] at hc; exact absurd hc (by simp)
    simp [this]
  have hstep : matchHere [group isDigit 1 (some 2), group isLetter 1 (some 1),
      group isDigit 10 (some 10)] t =
      if 1 ≤ (t.takeWhile isDigit).length ∧ (t.takeWhile isDigit).length ≤ 2 then
        match matchHere [group isLetter 1 (some 1), group isDigit 10 (some 10)]
            (t.dropWhile isDigit) with
        | some c => some (t.takeWhile isDigit ++ c)
        | none => none
      else none := by
    have := matchHere_bounded_disjoint isDigit 1 2 true
      [group isLetter 1 (some 1), group isDigit 10 (some 10)] t hd
    simpa [group] using this
  have hletter : ∀ u, matchHere [group isLetter 1 (some 1), group isDigit 10 (some 10)] u =
      match u with
      | [] => none
      | l :: cs => if isLetter l then
          (if 10 ≤ (cs.takeWhile isDigit).length then some (l :: cs.take 10) else none)
        else none := by
    intro u
    unfold group
    rw [matchHere_one_cap]
    cases u with
    | nil => rfl
    | cons l cs =>
      simp only [matchHere_exact_last]
      by_cases hl : isLetter l = true
      · by_cases h10 : 10 ≤ (cs.takeWhile isDigit).length
        · simp [hl, h10]
        · simp [hl, h10]
      · simp [hl]
  rw [hstep]
  constructor
  · intro h
    by_cases hlen : 1 ≤ (t.takeWhile isDigit).length ∧ (t.takeWhile isDigit).length ≤ 2
    · rw [if_pos hlen, hletter] at h
      cases hdw : t.dropWhile isDigit with
      | nil => rw [hdw] at h; exact absurd h (by simp)
      | cons l cs =>
        rw [hdw] at h
        simp only at h
        by_cases hl : isLetter l = true
        · rw [if_pos hl] at h
          by_cases h10 : 10 ≤ (cs.takeWhile isDigit).length
          · rw [if_pos h10] at h
            simp only [Option.some.injEq] at h
            have hcs : 10 ≤ cs.length :=
              Nat.le_trans h10 (List.takeWhile_sublist isDigit).length_le
            refine ⟨t.takeWhile isDigit, l, cs.take 10, cs.drop 10, ?_, ?_,
              takeWhile_all _ _, hl, ?_, take_all_of_le_takeWhile isDigit cs 10 h10, ?_⟩
            · have h1 := List.takeWhile_append_dropWhile isDigit t
              rw [hdw] at h1
              rw [List.append_assoc, List.append_assoc, List.take_append_drop]
              simpa using h1.symm
            · omega
            · rw [List.length_take, Nat.min_eq_left hcs]
            · rw [← h]; simp
          · rw [if_neg h10] at h; exact absurd h (by simp)
        · rw [if_neg hl] at h; exact absurd h (by simp)
    · rw [if_neg hlen] at h; exact absurd h (by simp)
  · rintro ⟨d, l, ten, post, rfl, hdlen, hd2, hl, hten, hten2, rfl⟩
    have hlnd : isDigit l = false := not_isDigit_of_isLetter l hl
    have hrew : d ++ [l] ++ ten ++ post = d ++ l :: (ten ++ post) := by simp
    rw [hrew, takeWhile_append_stop isDigit d l (ten ++ post) hd2 hlnd,
      dropWhile_append_stop isDigit d l (ten ++ post) hd2 hlnd]
    have hlen : 1 ≤ d.length ∧ d.length ≤ 2 := by omega
    rw [if_pos hlen, hletter]
    simp only
    have h10 : 10 ≤ ((ten ++ post).takeWhile isDigit).length := by
      have := length_le_takeWhile_append isDigit ten post hten2
      omega
    have htake : (ten ++ post).take 10 = ten := by
      rw [← hten, List.take_left]
    rw [if_pos hl, if_pos h10, htake]
    simp

/-- The second UPS pattern at a position is a UPS code occurrence there. -/
theorem upsCodeAt_iff (text pre v : Str) :
    UpsCodeAt text pre v ↔ ∃ t, text = pre ++ t ∧
      matchHere (litI "UPS" ++ [star isNonDigit] ++
        [group isDigit 1 (some 2), group isLetter 1 (some 1), group isDigit 10 (some 10)]) t
        = some v := by
  have hd : ∀ c u, isNonDigit c = true →
      matchHere [group isDigit 1 (some 2), group isLetter 1 (some 1),
        group isDigit 10 (some 10)] (c :: u) = none := by
    intro c u hc
    cases hm : matchHere [group isDigit 1 (some 2), group isLetter 1 (some 1),
        group isDigit 10 (some 10)] (c :: u) with
    | none => rfl
    | some v =>
      obtain ⟨d, l, ten, post, heq, hdlen, hd2, _⟩ := (matchHere_upsCode _ _).mp hm
      cases d with
      | nil => simp at hdlen
      | cons x xs =>
        simp only [List.cons_append, List.cons.injEq] at heq
        have hx := hd2 x (by simp)
        rw [← heq.1] at hx
        simp [isNonDigit, hx] at hc
  have hp : litI "UPS" ++ [star isNonDigit] ++
      [group isDigit 1 (some 2), group isLetter 1 (some 1), group isDigit 10 (some 10)]
      = litI "UPS" ++ (⟨isNonDigit, 0, none, false⟩ ::
        [group isDigit 1 (some 2), group isLetter 1 (some 1), group isDigit 10 (some 10)]) := by
    simp [star]
  rw [hp]
  constructor
  · rintro ⟨u, mid, d, l, ten, post, rfl, hu, hmid, hdlen, hd2, hl, hten, hten2, rfl⟩
    refine ⟨u ++ mid ++ d ++ [l] ++ ten ++ post, by simp, ?_⟩
    have hlen : u.length = "UPS".toList.length := by
      have := congrArg List.length hu
      simpa using this
    have hs : startsWith isCharI "UPS".toList (u ++ mid ++ d ++ [l] ++ ten ++ post) = true :=
      (startsWith_isCharI _ _).mpr ⟨u, mid ++ d ++ [l] ++ ten ++ post, by simp, hu⟩
    have hrew : u ++ mid ++ d ++ [l] ++ ten ++ post = u ++ (mid ++ (d ++ [l] ++ ten ++ post)) := by
      simp
    have hmid2 : ∀ c ∈ mid, isNonDigit c = true := by
      intro c hc; simp [isNonDigit, hmid c hc]
    have hhead : ∀ c ∈ (d ++ [l] ++ ten ++ post).head?, isNonDigit c = false := by
      intro c hc
      cases d with
      | nil => simp at hdlen
      | cons x xs =>
        simp at hc
        rw [← hc]
        simp [isNonDigit, hd2 x (by simp)]
    have hsplit := takeWhile_append_of_head isNonDigit mid (d ++ [l] ++ ten ++ post) hmid2 hhead
    rw [matchHere_litI, if_pos hs, hrew, ← hlen, List.drop_left,
      matchHere_greedy_disjoint _ _ _ _ _ hd, hsplit.1, hsplit.2, if_pos (Nat.zero_le _),
      (matchHere_upsCode _ _).mpr ⟨d, l, ten, post, rfl, hdlen, hd2, hl, hten, hten2, rfl⟩]
    rfl
  · rintro ⟨t, rfl, hm⟩
    rw [matchHere_litI] at hm
    by_cases hs : startsWith isCharI "UPS".toList t = true
    · rw [if_pos hs, matchHere_greedy_disjoint _ _ _ _ _ hd, if_pos (Nat.zero_le _)] at hm
      obtain ⟨u, t1, rfl, hu⟩ := (startsWith_isCharI _ _).mp hs
      have hlen : u.length = "UPS".toList.length := by
        have := congrArg List.length hu
        simpa using this
      rw [← hlen, List.drop_left] at hm
      cases hc : matchHere [group isDigit 1 (some 2), group isLetter 1 (some 1),
          group isDigit 10 (some 10)] (t1.dropWhile isNonDigit) with
      | none => rw [hc] at hm; exact absurd hm (by simp)
      | some c =>
        rw [hc] at hm
        simp only [Bool.false_eq_true, if_false, Option.some.injEq] at hm
        subst hm
        obtain ⟨d, l, ten, post, heq, hdlen, hd2, hl, hten, hten2, hcode⟩ :=
          (matchHere_upsCode _ _).mp hc
        refine ⟨u, t1.takeWhile isNonDigit, d, l, ten, post, ?_, hu, ?_, hdlen, hd2, hl, hten,
          hten2, hcode⟩
        · have h1 := List.takeWhile_append_dropWhile isNonDigit t1
          rw [heq] at h1
          conv_lhs => rw [← h1]
          simp
        · intro x hx
          have := takeWhile_all _ _ x hx
          simpa [isNonDigit] using this
    · rw [if_neg hs] at hm; exact absurd hm (by simp)


/-- The search of the shape `w1 \s+ w2 [^\d]* (\d+)` fails exactly when no
phrase of the text has a digit after it. -/
theorem reMatch_phraseDigits_none (w1 w2 : String) (text : Str)
    (hw2 : ∃ p ps, w2.toList = p :: ps ∧ ∀ c, isSpace c = true → isCharI p c = false) :
    reMatch (litI w1 ++ [plus isSpace] ++ litI w2 ++ [star isNonDigit] ++
        [group isDigit 1 none]) text = none ↔
      ∀ pre rest, PhraseAt w1 w2 text pre rest → ∀ c ∈ rest, isDigit c = false := by
  constructor
  · intro h pre rest hph c hc
    cases hd : isDigit c with
    | false => rfl
    | true =>
      obtain ⟨ds, hds⟩ := leftmostPhraseDigits_exists w1 w2 text hw2 ⟨pre, rest, hph, c, hc, hd⟩
      rw [(reMatch_phraseDigits_iff w1 w2 text ds hw2).mpr hds] at h
      exact absurd h (by simp)
  · intro h
    cases hm : reMatch (litI w1 ++ [plus isSpace] ++ litI w2 ++ [star isNonDigit] ++
        [group isDigit 1 none]) text with
    | none => rfl
    | some ds =>
      obtain ⟨pre, rest, hph, hrun, _⟩ := (reMatch_phraseDigits_iff w1 w2 text ds hw2).mp hm
      obtain ⟨c, hc, hd⟩ := firstDigitRun_digit rest ds hrun
      rw [h pre rest hph c hc] at hd
      exact absurd hd (by simp)

theorem hw2_tracking :
    ∃ p ps, "Tracking".toList = p :: ps ∧ ∀ c, isSpace c = true → isCharI p c = false :=
  ⟨'T', "racking".toList, rfl, no_space_of_letter 'T' (by decide)⟩

/-- The three steps when the USPS patterns and `UPS Tracking` fail and the
UPS code pattern finds `code`. -/
theorem trackingSteps_of_upsCode (dom : Dom) (code : Str)
    (husps : ∀ p ∈ uspsPatterns, reMatch p dom.bodyText = none)
    (hups : ∀ pre rest, PhraseAt "UPS" "Tracking" dom.bodyText pre rest →
      ∀ c ∈ rest, isDigit c = false)
    (h : Leftmost UpsCodeAt dom.bodyText code) :
    trackingSteps dom = (some code, some "UPS".toList) := by
  have h1 : truthyStr (firstMatch dom.bodyText uspsPatterns) = false :=
    (firstMatch_truthy_iff _ _ hasGroup_uspsPatterns).mpr husps
  have h2 := (reMatch_phraseDigits_none "UPS" "Tracking" dom.bodyText hw2_tracking).mpr hups
  have h3 := (reMatch_leftmost _ UpsCodeAt upsCodeAt_iff dom.bodyText code).mpr h
  have hg := hasGroup_upsPatterns (litI "UPS" ++ [star isNonDigit] ++
    [group isDigit 1 (some 2), group isLetter 1 (some 1), group isDigit 10 (some 10)])
    (by simp [upsPatterns])
  have ht := reMatch_truthy _ _ _ hg h3
  have hnt : ¬ (truthyStr (none : Option Str) = true) := by decide
  have hf : firstMatch dom.bodyText upsPatterns = some code := by
    simp only [upsPatterns, firstMatch, h2, h3, if_neg hnt, if_pos ht]
  simp only [trackingSteps, h1, hf, ht, Bool.false_eq_true, if_false, if_true]


/-! ## The tracking-link step -/

/-- The method `includes` is containment. -/
theorem includes_iff (s sub : Str) : includes s sub = true ↔ ∃ a b, s = a ++ sub ++ b := by
  induction s with
  | nil =>
    simp only [includes, List.isEmpty_iff]
    constructor
    · rintro rfl; exact ⟨[], [], rfl⟩
    · rintro ⟨a, b, h⟩
      have := congrArg List.length h
      simp at this
      exact List.length_eq_zero.mp (by omega)
  | cons c cs ih =>
    simp only [includes, Bool.or_eq_true, ih, List.isPrefixOf_iff_prefix]
    constructor
    · rintro (⟨b, hb⟩ | ⟨a, b, hab⟩)
      · exact ⟨[], b, by simpa using hb.symm⟩
      · exact ⟨c :: a, b, by rw [hab]; simp⟩
    · rintro ⟨a, b, hab⟩
      cases a with
      | nil => exact Or.inl ⟨b, by simpa using hab.symm⟩
      | cons x a' =>
        simp only [List.cons_append, List.cons.injEq] at hab
        exact Or.inr ⟨a', b, hab.2⟩

theorem includes_contains (s : Str) (sub : String) :
    includes s sub.toList = true ↔ Contains s sub := includes_iff s sub.toList

/-- The three steps when every text pattern fails: the tracking-link step. -/
theorem trackingSteps_of_noText (dom : Dom)
    (husps : ∀ p ∈ uspsPatterns, reMatch p dom.bodyText = none)
    (hups : ∀ p ∈ upsPatterns, reMatch p dom.bodyText = none) :
    trackingSteps dom = linkStep dom := by
  have h1 : truthyStr (firstMatch dom.bodyText uspsPatterns) = false :=
    (firstMatch_truthy_iff _ _ hasGroup_uspsPatterns).mpr husps
  have h2 : truthyStr (firstMatch dom.bodyText upsPatterns) = false :=
    (firstMatch_truthy_iff _ _ hasGroup_upsPatterns).mpr hups
  simp only [trackingSteps, h1, h2, Bool.false_eq_true, if_false]

/-- The carrier read from a link target. -/
theorem carrier_of_href (href : Str) :
    (Contains href "usps" →
      (if includes href "usps".toList then "USPS".toList
       else if includes href "ups".toList then "UPS".toList else "Other".toList)
        = "USPS".toList) ∧
    (¬ Contains href "usps" → Contains href "ups" →
      (if includes href "usps".toList then "USPS".toList
       else if includes href "ups".toList then "UPS".toList else "Other".toList)
        = "UPS".toList) ∧
    (¬ Contains href "usps" → ¬ Contains href "ups" →
      (if includes href "usps".toList then "USPS".toList
       else if includes href "ups".toList then "UPS".toList else "Other".toList)
        = "Other".toList) := by
  refine ⟨?_, ?_, ?_⟩
  · intro h
    rw [if_pos ((includes_contains href "usps").mpr h)]
  · intro h1 h2
    rw [if_neg (fun h => h1 ((includes_contains href "usps").mp h)),
      if_pos ((includes_contains href "ups").mpr h2)]
  · intro h1 h2
    rw [if_neg (fun h => h1 ((includes_contains href "usps").mp h)),
      if_neg (fun h => h2 ((includes_contains href "ups").mp h))]


/-! ## The `Dear` pattern -/

/-- A run of letters and whitespace that holds a letter: its leading
whitespace, and the rest, which starts with a letter. -/
theorem nameRun_split (run : Str) (hrun : ∀ c ∈ run, isNameChar c = true)
    (hl : ∃ c ∈ run, isLetter c = true) :
    ∃ l y rest, run = l ++ (y :: rest) ∧ (∀ c ∈ l, isSpace c = true) ∧ isSpace y = false ∧
      isLetter y = true ∧ (∀ c ∈ y :: rest, isNameChar c = true) ∧
      run.dropWhile isSpace = y :: rest := by
  obtain ⟨x, hx, hxl⟩ := hl
  have hsplit := List.takeWhile_append_dropWhile isSpace run
  have hxs : isSpace x = false := not_isSpace_of_isLetter x hxl
  have hxmem : x ∈ run.dropWhile isSpace := mem_dropWhile_of_not isSpace run x hx hxs
  obtain ⟨y, rest, hy⟩ : ∃ y rest, run.dropWhile isSpace = y :: rest := by
    cases hdw : run.dropWhile isSpace with
    | nil => rw [hdw] at hxmem; simp at hxmem
    | cons y rest => exact ⟨y, rest, rfl⟩
  have hys : isSpace y = false := dropWhile_head isSpace run y rest hy
  have hrest : ∀ c ∈ y :: rest, isNameChar c = true := by
    intro c hc
    apply hrun
    rw [← hsplit, hy]
    exact List.mem_append_right _ hc
  have hyl : isLetter y = true := by
    have := hrest y (by simp)
    simpa [isNameChar, hys] using this
  exact ⟨run.takeWhile isSpace, y, rest, by rw [← hy, hsplit], takeWhile_all _ _, hys, hyl,
    hrest, hy⟩

/-- After the word `Dear`, the greedy path of the pattern: the group is the
run of letters and whitespace without its leading whitespace. -/
theorem matchHere_dearAfter (after run : Str) (h : NameAfterDear after run) :
    matchHere ([plus isSpace, group isNameChar 1 none] ++ lit ",") after =
      some (run.dropWhile isSpace) := by
  obtain ⟨ws, post, rfl, hne, hws, hrun, hl⟩ := h
  obtain ⟨l, y, rest, hrun_eq, hlsp, hys, hyl, hrest, hdw⟩ := nameRun_split run hrun hl
  rw [hdw]
  have hcomma : (",".toList : Str) = [','] := rfl
  have hrew : ws ++ run ++ ",".toList ++ post = (ws ++ l) ++ ((y :: rest) ++ ',' :: post) := by
    rw [hrun_eq, hcomma]; simp
  have hall : ∀ c ∈ ws ++ l, isSpace c = true := by
    intro c hc
    rcases List.mem_append.mp hc with h | h
    · exact hws c h
    · exact hlsp c h
  have hhead : ∀ c ∈ ((y :: rest) ++ ',' :: post).head?, isSpace c = false := by
    intro c hc; simp at hc; rw [← hc]; exact hys
  have hsp := takeWhile_append_of_head isSpace (ws ++ l) ((y :: rest) ++ ',' :: post) hall hhead
  have hname1 := takeWhile_append_stop isNameChar (y :: rest) ',' post hrest (by decide)
  have hname2 := dropWhile_append_stop isNameChar (y :: rest) ',' post hrest (by decide)
  have hlit : matchHere (lit ",") (',' :: post) = some [] := by
    have hl1 : lit "," = [one (isChar ',')] := rfl
    rw [hl1, matchHere_one]
    simp [isChar, matchHere]
  have hgroup : matchHere (group isNameChar 1 none :: lit ",") ((y :: rest) ++ ',' :: post)
      = some (y :: rest) := by
    unfold group
    rw [matchHere_greedy_some isNameChar 1 true (lit ",") _ [] (by rw [hname1]; simp)
      (by rw [hname2]; exact hlit), hname1]
    simp
  have hlen : 1 ≤ ((ws ++ l ++ ((y :: rest) ++ ',' :: post)).takeWhile isSpace).length := by
    rw [hsp.1]
    cases ws with
    | nil => exact absurd rfl hne
    | cons _ _ => simp
  rw [hrew]
  have hp : [plus isSpace, group isNameChar 1 none] ++ lit ","
      = ⟨isSpace, 1, none, false⟩ :: (group isNameChar 1 none :: lit ",") := rfl
  rw [hp, matchHere_greedy_some isSpace 1 false _ _ (y :: rest) hlen (by rw [hsp.2]; exact hgroup)]
  rfl

/-- The `Dear` pattern at the head of a text that starts with the word. -/
theorem matchHere_dear_label (after : Str) :
    matchHere dearPattern ("Dear".toList ++ after) =
      matchHere ([plus isSpace, group isNameChar 1 none] ++ lit ",") after := by
  have hp : dearPattern = lit "Dear" ++ ([plus isSpace, group isNameChar 1 none] ++ lit ",") := by
    simp [dearPattern]
  rw [hp, matchHere_lit, if_pos ((startsWith_isChar _ _).mpr ⟨after, rfl⟩), List.drop_left]

/-- The `Dear` pattern matches only where the word starts. -/
theorem matchHere_dear_some (t r : Str) (h : matchHere dearPattern t = some r) :
    ∃ after, t = "Dear".toList ++ after := by
  have hp : dearPattern = lit "Dear" ++ ([plus isSpace, group isNameChar 1 none] ++ lit ",") := by
    simp [dearPattern]
  rw [hp, matchHere_lit] at h
  by_cases hs : startsWith isChar "Dear".toList t = true
  · exact (startsWith_isChar _ _).mp hs
  · rw [if_neg hs] at h; exact absurd h (by simp)

/-- The search of the `Dear` pattern when the name follows the leftmost `Dear`. -/
theorem reMatch_dear (text pre after run : Str)
    (htext : text = pre ++ "Dear".toList ++ after)
    (hname : NameAfterDear after run)
    (hleft : ∀ pre' after', text = pre' ++ "Dear".toList ++ after' →
      pre.length ≤ pre'.length) :
    reMatch dearPattern text = some (run.dropWhile isSpace) := by
  subst htext
  rw [List.append_assoc]
  apply reMatch_at
  · rw [matchHere_dear_label]
    exact matchHere_dearAfter after run hname
  · intro k hk
    cases hm : matchHere dearPattern ((pre ++ ("Dear".toList ++ after)).drop k) with
    | none => rfl
    | some r =>
      obtain ⟨after', ha⟩ := matchHere_dear_some _ r hm
      have h1 := hleft ((pre ++ ("Dear".toList ++ after)).take k) after' (by
        rw [List.append_assoc, List.append_assoc, ← ha, List.take_append_drop])
      rw [List.length_take] at h1
      have : min k (pre ++ ("Dear".toList ++ after)).length ≤ k := Nat.min_le_left _ _
      omega

/-! ## The chain of the customer-name steps -/

/-- The three steps when the billing step gives no name: the `Dear` name
first, the `Thank you,` name only when `Dear` gives none, and nothing when
neither gives one. -/
theorem customerNameSteps_noBilling (dom : Dom) (hb : truthyStr (billingStep dom) = false) :
    (truthyStr (trimmedGroup (reMatch dearPattern dom.bodyText)) = true →
      customerNameSteps dom = trimmedGroup (reMatch dearPattern dom.bodyText)) ∧
    (truthyStr (trimmedGroup (reMatch dearPattern dom.bodyText)) = false →
      truthyStr (trimmedGroup (reMatch thankYouPattern dom.bodyText)) = true →
      customerNameSteps dom = trimmedGroup (reMatch thankYouPattern dom.bodyText)) ∧
    (truthyStr (trimmedGroup (reMatch dearPattern dom.bodyText)) = false →
      truthyStr (trimmedGroup (reMatch thankYouPattern dom.bodyText)) = false →
      truthyStr (customerNameSteps dom) = false) := by
  have hnt : truthyStr (none : Option Str) = false := rfl
  simp only [customerNameSteps, hb, Bool.not_false, if_true]
  by_cases hd : truthyStr (reMatch dearPattern dom.bodyText) = true
  · simp only [trimmedGroup, hd, if_true]
    by_cases hd2 : truthyStr (Option.map trim (reMatch dearPattern dom.bodyText)) = true
    · simp [hd2]
    · have hd3 : truthyStr (Option.map trim (reMatch dearPattern dom.bodyText)) = false := by
        simpa using hd2
      by_cases ht : truthyStr (reMatch thankYouPattern dom.bodyText) = true
      · simp only [hd3, ht, Bool.not_false, if_true, Bool.false_eq_true, false_implies,
          true_and, forall_const]
        exact ⟨fun _ => trivial, fun h => h⟩
      · simp [hd3, ht, hnt]
  · have hd0 : truthyStr (reMatch dearPattern dom.bodyText) = false := by simpa using hd
    simp only [trimmedGroup, hd0, Bool.false_eq_true, if_false, hnt, hb, Bool.not_false, if_true,
      false_implies, true_and, forall_const]
    by_cases ht : truthyStr (reMatch thankYouPattern dom.bodyText) = true
    · simp only [ht, if_true]
      exact ⟨fun _ => trivial, fun h => h⟩
    · simp [ht, hnt, hb]


/-- When the literal `lbl` starts at no position below `n`, every occurrence
of it starts at `n` or later. -/
theorem literal_leftmost_of_none (lbl text : Str) (n : Nat)
    (h : ∀ k, k < n → startsWith isChar lbl (text.drop k) = false) :
    ∀ pre' after', text = pre' ++ lbl ++ after' → n ≤ pre'.length := by
  intro pre' after' heq
  by_contra hlt
  have h1 := h pre'.length (Nat.lt_of_not_le hlt)
  have h2 : text.drop pre'.length = lbl ++ after' := by
    rw [heq, List.append_assoc, List.drop_left]
  rw [h2, (startsWith_isChar lbl _).mpr ⟨after', rfl⟩] at h1
  exact absurd h1 (by simp)


/-! ## What a group and a trimmed name are made of -/

/-- The group of a match holds only characters of the classes of the terms
inside the group. -/
theorem matchHere_group_chars (p : Pattern) (cls : Char → Bool) (s r : Str)
    (hp : ∀ a ∈ p, a.cap = true → ∀ c, a.cls c = true → cls c = true)
    (h : matchHere p s = some r) : ∀ c ∈ r, cls c = true := by
  induction p generalizing s r with
  | nil =>
    simp only [matchHere, Option.some.injEq] at h
    rw [← h]; simp
  | cons a rest ih =>
    simp only [matchHere] at h
    obtain ⟨k, hk, hatt⟩ := backtrack_some _ _ _ _ _ h
    simp only [attempt] at hatt
    by_cases hmin : a.min ≤ k
    · rw [if_pos hmin] at hatt
      cases hc : matchHere rest (s.drop k) with
      | none => simp [hc] at hatt
      | some c0 =>
        simp only [hc, Option.some.injEq] at hatt
        have hrest := ih (s.drop k) c0 (fun b hb => hp b (by simp [hb])) hc
        have hk2 : k ≤ (s.takeWhile a.cls).length := by
          apply Nat.le_trans hk
          unfold greedyCount
          cases a.max with
          | none => exact Nat.le_refl _
          | some m => exact Nat.min_le_left _ _
        by_cases hcap : a.cap = true
        · rw [if_pos hcap] at hatt
          intro c hcm
          rw [← hatt] at hcm
          rcases List.mem_append.mp hcm with h1 | h1
          · exact hp a (by simp) hcap c (take_all_of_le_takeWhile a.cls s k hk2 c h1)
          · exact hrest c h1
        · rw [if_neg hcap] at hatt
          rw [← hatt]; exact hrest
    · rw [if_neg hmin] at hatt
      exact absurd hatt (by simp)

/-- The group found by a search holds only characters of the classes of the
terms inside the group. -/
theorem reMatch_group_chars (p : Pattern) (cls : Char → Bool) (s r : Str)
    (hp : ∀ a ∈ p, a.cap = true → ∀ c, a.cls c = true → cls c = true)
    (h : reMatch p s = some r) : ∀ c ∈ r, cls c = true := by
  obtain ⟨k, _, hm, _⟩ := reMatch_some p s r h
  exact matchHere_group_chars p cls _ r hp hm

theorem nameGroup_billing : ∀ a ∈ billingPattern, a.cap = true →
    ∀ c, a.cls c = true → isNameChar c = true := by
  intro a ha hcap c hc
  simp only [billingPattern, lit, one, star, opt, group, List.mem_append, List.mem_map,
    List.mem_cons, List.mem_singleton, List.not_mem_nil, or_false] at ha
  rcases ha with ⟨_, _, rfl⟩ | rfl | rfl | rfl | rfl
  · simp at hcap
  · simp at hcap
  · simp at hcap
  · simp at hcap
  · exact hc

theorem nameGroup_dear : ∀ a ∈ dearPattern, a.cap = true →
    ∀ c, a.cls c = true → isNameChar c = true := by
  intro a ha hcap c hc
  simp only [dearPattern, lit, one, plus, group, List.mem_append, List.mem_map,
    List.mem_cons, List.mem_singleton, List.not_mem_nil, or_false] at ha
  rcases ha with (⟨_, _, rfl⟩ | rfl | rfl) | ⟨_, _, rfl⟩
  · simp at hcap
  · simp at hcap
  · exact hc
  · simp at hcap

theorem nameGroup_thankYou : ∀ a ∈ thankYouPattern, a.cap = true →
    ∀ c, a.cls c = true → isNameChar c = true := by
  intro a ha hcap c hc
  simp only [thankYouPattern, lit, one, plus, group, List.mem_append, List.mem_map,
    List.mem_cons, List.mem_singleton, List.not_mem_nil, or_false] at ha
  rcases ha with ⟨_, _, rfl⟩ | rfl | rfl
  · simp at hcap
  · simp at hcap
  · exact hc

/-- Trimming only removes characters. -/
theorem mem_of_mem_trim (s : Str) (c : Char) (h : c ∈ trim s) : c ∈ s := by
  unfold trim at h
  have h1 := List.mem_reverse.mp h
  have h2 := (List.dropWhile_suffix isSpace).subset h1
  have h3 := List.mem_reverse.mp h2
  exact (List.dropWhile_suffix isSpace).subset h3

/-- A trimmed text does not end with whitespace. -/
theorem trim_getLast? (s : Str) : ∀ c ∈ (trim s).getLast?, isSpace c = false := by
  unfold trim
  rw [List.getLast?_reverse]
  exact dropWhile_head? _ _

theorem getLast?_of_dropWhile (p : Char → Bool) (l : Str) (c : Char)
    (h : c ∈ (l.dropWhile p).getLast?) : c ∈ l.getLast? := by
  have hne : l.dropWhile p ≠ [] := by
    intro h0; rw [h0] at h; simp at h
  obtain ⟨t, ht⟩ : l.dropWhile p <:+ l := List.dropWhile_suffix p
  have h1 : l.getLast? = (t ++ l.dropWhile p).getLast? := congrArg List.getLast? ht.symm
  rw [h1, List.getLast?_append_of_ne_nil _ hne]
  exact h

/-- A trimmed text does not start with whitespace. -/
theorem trim_head? (s : Str) : ∀ c ∈ (trim s).head?, isSpace c = false := by
  unfold trim
  rw [List.head?_reverse]
  intro c hc
  have h1 := getLast?_of_dropWhile isSpace _ c hc
  rw [List.getLast?_reverse] at h1
  exact dropWhile_head? isSpace s c h1

/-- A non-empty result of the three steps is the trimmed group of one of the
three patterns. -/
theorem customerNameSteps_some (dom : Dom) (r : Str) (h : customerNameSteps dom = some r)
    (hr : r ≠ []) :
    ∃ cap, r = trim cap ∧ ∀ c ∈ cap, isNameChar c = true := by
  have key : ∀ (p : Pattern) (text : Str),
      (∀ a ∈ p, a.cap = true → ∀ c, a.cls c = true → isNameChar c = true) →
      Option.map trim (reMatch p text) = some r →
      ∃ cap, r = trim cap ∧ ∀ c ∈ cap, isNameChar c = true := by
    intro p text hp hm
    cases hre : reMatch p text with
    | none => rw [hre] at hm; exact absurd hm (by simp)
    | some cap =>
      rw [hre] at hm
      simp only [Option.map_some', Option.some.injEq] at hm
      exact ⟨cap, hm.symm, reMatch_group_chars p isNameChar text cap hp hre⟩
  have hbill : billingStep dom = some r →
      ∃ cap, r = trim cap ∧ ∀ c ∈ cap, isNameChar c = true := by
    intro hb
    unfold billingStep trimmedGroup at hb
    split_ifs at hb
    exact key billingPattern _ nameGroup_billing hb
  have htr : truthyStr (some r) = true := (truthyStr_iff r).mpr hr
  unfold customerNameSteps at h
  simp only at h
  by_cases h1 : truthyStr (billingStep dom) = true
  · simp only [h1, Bool.not_true, Bool.false_eq_true, if_false] at h
    exact hbill h
  · simp only [h1, Bool.not_false, if_true] at h
    by_cases hd : truthyStr (reMatch dearPattern dom.bodyText) = true
    · simp only [hd, if_true] at h
      by_cases hd2 : truthyStr (Option.map trim (reMatch dearPattern dom.bodyText)) = true
      · simp only [hd2, Bool.not_true, Bool.false_eq_true, if_false] at h
        exact key dearPattern _ nameGroup_dear h
      · simp only [hd2, Bool.not_false, if_true] at h
        by_cases ht : truthyStr (reMatch thankYouPattern dom.bodyText) = true
        · simp only [ht, if_true] at h
          exact key thankYouPattern _ nameGroup_thankYou h
        · simp only [ht, if_false, Bool.false_eq_true] at h
          rw [h] at hd2
          exact absurd htr hd2
    · simp only [hd, if_false, Bool.false_eq_true, h1, Bool.not_false, if_true] at h
      by_cases ht : truthyStr (reMatch thankYouPattern dom.bodyText) = true
      · simp only [ht, if_true] at h
        exact key thankYouPattern _ nameGroup_thankYou h
      · simp only [ht, if_false, Bool.false_eq_true] at h
        rw [h] at h1
        exact absurd htr h1

/-- Every result of the customer-name extractor is a non-empty result of the
three steps on a loaded document. -/
theorem extractCustomerName_some (ch : Cheerio) (e : Option EmailContent) (r : Str)
    (h : extractCustomerNameFromConfirmationEmail ch e = some r) :
    ∃ dom, customerNameSteps dom = some r ∧ r ≠ [] := by
  cases e with
  | none => simp [extractCustomerNameFromConfirmationEmail, customerNameTry] at h
  | some ec =>
    by_cases hb : ec.body.truthy = true
    · cases hl : cheerioLoad ch ec.body with
      | error err =>
        simp [extractCustomerNameFromConfirmationEmail, customerNameTry, hb, hl, bind,
          Except.bind] at h
      | ok dom =>
        by_cases ht : truthyStr (customerNameSteps dom) = true
        · simp only [extractCustomerNameFromConfirmationEmail, customerNameTry, hb, hl, bind,
            Except.bind, pure, Except.pure, ht, Bool.not_true, Bool.false_eq_true, if_false,
            if_true] at h
          refine ⟨dom, h, ?_⟩
          rw [h] at ht
          exact (truthyStr_iff r).mp ht
        · simp [extractCustomerNameFromConfirmationEmail, customerNameTry, hb, hl, bind,
            Except.bind, pure, Except.pure, ht] at h
    · simp [extractCustomerNameFromConfirmationEmail, customerNameTry, hb] at h


/-- The customer-name extractor when the billing step gives no name. -/
theorem customerName_chain (ch : Cheerio) (subject : JsValue) (body : Str)
    (hbody : body ≠ []) (hb : truthyStr (billingStep (ch.load body)) = false) :
    (truthyStr (trimmedGroup (reMatch dearPattern (ch.load body).bodyText)) = true →
      extractCustomerNameFromConfirmationEmail ch (some ⟨subject, .str body⟩)
        = trimmedGroup (reMatch dearPattern (ch.load body).bodyText)) ∧
    (truthyStr (trimmedGroup (reMatch dearPattern (ch.load body).bodyText)) = false →
      truthyStr (trimmedGroup (reMatch thankYouPattern (ch.load body).bodyText)) = true →
      extractCustomerNameFromConfirmationEmail ch (some ⟨subject, .str body⟩)
        = trimmedGroup (reMatch thankYouPattern (ch.load body).bodyText)) ∧
    (truthyStr (trimmedGroup (reMatch dearPattern (ch.load body).bodyText)) = false →
      truthyStr (trimmedGroup (reMatch thankYouPattern (ch.load body).bodyText)) = false →
      extractCustomerNameFromConfirmationEmail ch (some ⟨subject, .str body⟩) = none) := by
  obtain ⟨h1, h2, h3⟩ := customerNameSteps_noBilling (ch.load body) hb
  rw [extractCustomerName_eq ch subject body hbody]
  refine ⟨?_, ?_, ?_⟩
  · intro hd
    rw [h1 hd, if_pos hd]
  · intro hd ht
    rw [h2 hd ht, if_pos ht]
  · intro hd ht
    have := h3 hd ht
    rw [if_neg (by rw [this]; simp)]


/-! ## Runs on a state -/

/-- The `try` block on a state: its value is that of the `try` block on the
document of the state, and the state it reaches holds the same document. -/
theorem orderNumberBody_spec (ch : Cheerio) (st : RunState) :
    (orderNumberBody ch st).1 = orderNumberTry ch st.document ∧
    (orderNumberBody ch st).2.document = st.document := by
  obtain ⟨document, log⟩ := st
  cases document with
  | none => exact ⟨rfl, rfl⟩
  | some e =>
    obtain ⟨subject, body⟩ := e
    simp only [orderNumberBody, orderNumberTry]
    by_cases hs : subject.truthy = true
    · cases hm : jsMatch subject subjectPattern with
      | error err => simp [hs, bind, Except.bind]
      | ok m =>
        by_cases hmt : truthyStr m = true
        · simp [hs, hmt, bind, Except.bind, pure, Except.pure, logWrite]
        · by_cases hb : body.truthy = true
          · cases hl : cheerioLoad ch body with
            | error err => simp [hs, hmt, hb, bind, Except.bind, pure, Except.pure]
            | ok dom =>
              by_cases h1 : truthyStr (reMatch orderTextPattern dom.bodyText) = true
              · simp [hs, hmt, hb, h1, bind, Except.bind, pure, Except.pure, logWrite]
              · by_cases h2 : truthyStr (reMatch orderElementPattern
                    (selectionText dom.orderElements)) = true
                · simp [hs, hmt, hb, h1, h2, bind, Except.bind, pure, Except.pure, logWrite]
                · simp [hs, hmt, hb, h1, h2, bind, Except.bind, pure, Except.pure, logWrite]
          · simp [hs, hmt, hb, bind, Except.bind, pure, Except.pure, logWrite]
    · simp [hs, logWrite]

/-- A run returns what the method returns on the document of the state, and
the state it reaches holds the same document. -/
theorem orderNumberRun_eq (ch : Cheerio) (st : RunState) :
    (orderNumberRun ch st).1 = extractOrderNumberFromTrackingEmail ch st.document ∧
    (orderNumberRun ch st).2.document = st.document := by
  have h := orderNumberBody_spec ch st
  unfold orderNumberRun extractOrderNumberFromTrackingEmail
  rw [← h.1]
  cases hb : orderNumberBody ch st with
  | mk r st1 =>
    rw [hb] at h
    cases r with
    | error err => exact ⟨rfl, h.2⟩
    | ok v => exact ⟨rfl, h.2⟩

/-! ## The third USPS pattern -/

/-- What a pattern captures is made of characters of the text. -/
theorem matchHere_group_mem (p : Pattern) (s r : Str) (h : matchHere p s = some r) :
    ∀ c ∈ r, c ∈ s := by
  induction p generalizing s r with
  | nil =>
    simp only [matchHere, Option.some.injEq] at h
    rw [← h]; simp
  | cons a rest ih =>
    simp only [matchHere] at h
    obtain ⟨k, _, hatt⟩ := backtrack_some _ _ _ _ _ h
    simp only [attempt] at hatt
    by_cases hmin : a.min ≤ k
    · rw [if_pos hmin] at hatt
      cases hc : matchHere rest (s.drop k) with
      | none => simp [hc] at hatt
      | some c0 =>
        simp only [hc, Option.some.injEq] at hatt
        have hrest := ih (s.drop k) c0 hc
        by_cases hcap : a.cap = true
        · rw [if_pos hcap] at hatt
          intro c hcm
          rw [← hatt] at hcm
          rcases List.mem_append.mp hcm with h1 | h1
          · exact List.mem_of_mem_take h1
          · exact List.mem_of_mem_drop (hrest c h1)
        · rw [if_neg hcap] at hatt
          rw [← hatt]
          intro c hcm
          exact List.mem_of_mem_drop (hrest c hcm)
    · rw [if_neg hmin] at hatt
      exact absurd hatt (by simp)

/-- Where the third USPS pattern matches, the second matches as well: the
whitespace and the colon of the third are characters that are no digits. -/
theorem uspsThird_matchHere (t r : Str)
    (h : matchHere (litI "tracking" ++ [plus isSpace] ++ litI "number" ++ [star isSpace] ++
      litI ":" ++ [star isSpace] ++ [group isDigit 1 none]) t = some r) :
    ∃ r2, matchHere (litI "Tracking" ++ [plus isSpace] ++ litI "Number" ++ [star isNonDigit] ++
      [group isDigit 1 none]) t = some r2 := by
  have hp : litI "tracking" ++ [plus isSpace] ++ litI "number" ++ [star isSpace] ++
      litI ":" ++ [star isSpace] ++ [group isDigit 1 none] =
      litI "tracking" ++ (plus isSpace :: (litI "number" ++
        ([star isSpace] ++ litI ":" ++ [star isSpace] ++ [group isDigit 1 none]))) := by
    simp
  rw [hp, matchHere_phrase "tracking" "number" _ t r
    ⟨'n', "umber".toList, rfl, no_space_of_letter 'n' (by decide)⟩] at h
  obtain ⟨rest, hphrase, hR⟩ := h
  have hne := matchHere_ne_nil _ rest r
    ⟨group isDigit 1 none, by simp, rfl, by decide⟩ hR
  have hdig : ∀ c ∈ r, isDigit c = true := by
    apply matchHere_group_chars _ isDigit rest r _ hR
    intro a ha hcap c hc
    simp only [litI, one, star, group, List.mem_append, List.mem_map,
      List.mem_cons, List.mem_singleton, List.not_mem_nil, or_false] at ha
    rcases ha with ((rfl | ⟨_, _, rfl⟩) | rfl) | rfl
    · simp at hcap
    · simp at hcap
    · simp at hcap
    · exact hc
  have hmem := matchHere_group_mem _ rest r hR
  obtain ⟨c, cs, rfl⟩ := List.exists_cons_of_ne_nil hne
  obtain ⟨ds, hds⟩ := firstDigitRun_exists rest ⟨c, hmem c (by simp), hdig c (by simp)⟩
  obtain ⟨u, ws, v, ht, hu, hwne, hws, hv⟩ := hphrase
  have hu2 : EqIgnoreCase u "Tracking" := by
    unfold EqIgnoreCase at hu ⊢
    rw [hu]; decide
  have hv2 : EqIgnoreCase v "Number" := by
    unfold EqIgnoreCase at hv ⊢
    rw [hv]; decide
  exact ⟨ds, (matchHere_phraseDigits "Tracking" "Number" t ds
    ⟨'N', "umber".toList, rfl, no_space_of_letter 'N' (by decide)⟩).mpr
    ⟨rest, ⟨u, ws, v, ht, hu2, hwne, hws, hv2⟩, hds⟩⟩

/-- A text in which the second USPS pattern finds nothing is one in which
the third finds nothing. -/
theorem uspsThird_none_of_second (text : Str)
    (h : reMatch (litI "Tracking" ++ [plus isSpace] ++ litI "Number" ++ [star isNonDigit] ++
      [group isDigit 1 none]) text = none) :
    reMatch (litI "tracking" ++ [plus isSpace] ++ litI "number" ++ [star isSpace] ++
      litI ":" ++ [star isSpace] ++ [group isDigit 1 none]) text = none := by
  rw [reMatch_eq_none_iff] at h ⊢
  intro k hk
  cases h3 : matchHere (litI "tracking" ++ [plus isSpace] ++ litI "number" ++ [star isSpace] ++
      litI ":" ++ [star isSpace] ++ [group isDigit 1 none]) (text.drop k) with
  | none => rfl
  | some r =>
    obtain ⟨r2, hr2⟩ := uspsThird_matchHere _ r h3
    rw [h k hk] at hr2
    exact absurd hr2 (by simp)

/-- The loop over the USPS patterns gives the same with and without the
third pattern. -/
theorem firstMatch_uspsFirstTwo (text : Str) :
    firstMatch text uspsPatterns = firstMatch text uspsFirstTwo := by
  unfold uspsFirstTwo uspsPatterns
  simp only [List.take, firstMatch]
  by_cases h1 : truthyStr (reMatch (litI "USPS" ++ [plus isSpace] ++ litI "Tracking" ++
      [star isNonDigit] ++ [group isDigit 1 none]) text) = true
  · rw [if_pos h1, if_pos h1]
  · rw [if_neg h1, if_neg h1]
    by_cases h2 : truthyStr (reMatch (litI "Tracking" ++ [plus isSpace] ++ litI "Number" ++
        [star isNonDigit] ++ [group isDigit 1 none]) text) = true
    · rw [if_pos h2, if_pos h2]
    · rw [if_neg h2, if_neg h2]
      have hnone : reMatch (litI "Tracking" ++ [plus isSpace] ++ litI "Number" ++
          [star isNonDigit] ++ [group isDigit 1 none]) text = none := by
        by_contra hne
        exact h2 ((truthyStr_reMatch _ text
          ⟨group isDigit 1 none, by simp, rfl, by decide⟩).mpr hne)
      rw [uspsThird_none_of_second text hnone]
      rfl

/-- The extractor over the list of the source is the extractor of the source. -/
theorem extractTrackingOver_usps (ch : Cheerio) (e : Option EmailContent) :
    extractTrackingOver uspsPatterns ch e = extractTrackingNumberFromEmail ch e := rfl

/-- The steps over the first two patterns are the steps of the source. -/
theorem trackingStepsOver_firstTwo (dom : Dom) :
    trackingStepsOver uspsFirstTwo dom = trackingSteps dom := by
  unfold trackingStepsOver trackingSteps
  rw [firstMatch_uspsFirstTwo]
/-! ## The claims -/

/-- C1. For every document whose subject holds at least one `(#digits)`,
there is a leftmost one and `extractOrderNumberFromTrackingEmail` returns
exactly its digits, whatever surrounds it in the subject and whatever the
body is (absent, empty, or a text naming another number), for every behaviour
of the HTML library. -/
theorem extractOrderNumber_subject (ch : Cheerio) (subject : Str) (body : JsValue)
    (h : ∃ pre ds, OrderRefAt subject pre ds) :
    (∃ ds, LeftmostOrderRef subject ds) ∧
    ∀ ds, LeftmostOrderRef subject ds →
      extractOrderNumberFromTrackingEmail ch (some ⟨.str subject, body⟩) = some ds :=
  ⟨leftmostOrderRef_exists subject h,
    fun ds hds => extractOrderNumber_of_subject ch subject ds body hds⟩

/-- The witness of C1: the subject of the sample tracking email gives 12345,
here with a body that names another order. -/
theorem extractOrderNumber_subject_witness :
    extractOrderNumberFromTrackingEmail
        ⟨fun b => ⟨b, [], [], []⟩, .error "load"⟩
        (some ⟨.str "Your Countryside Pet Supply Order Has Been Updated (#12345)".toList,
          .str "Order #99999".toList⟩) = some "12345".toList :=
  (extractOrderNumber_subject ⟨fun b => ⟨b, [], [], []⟩, .error "load"⟩
      "Your Countryside Pet Supply Order Has Been Updated (#12345)".toList
      (.str "Order #99999".toList)
      ⟨"Your Countryside Pet Supply Order Has Been Updated ".toList, "12345".toList,
        by decide, by decide, [], by decide⟩).2
    "12345".toList ((reMatch_subject_some _ _).mp (by decide))

/-- C2. For every document with a string subject and a non-empty body whose
plain text holds `USPS`, one or more whitespace characters and `Tracking` (any
letter case) with a decimal digit somewhere after it, there is a leftmost
such phrase and `extractTrackingNumberFromEmail` returns carrier `USPS` and
the first maximal run of digits after it, whatever the other patterns, the
tracking links and the subject are. -/
theorem extractTracking_usps (ch : Cheerio) (subject body : Str) (hbody : body ≠ [])
    (h : ∃ pre rest, PhraseAt "USPS" "Tracking" (ch.load body).bodyText pre rest ∧
      ∃ c ∈ rest, isDigit c = true) :
    (∃ ds, LeftmostPhraseDigits "USPS" "Tracking" (ch.load body).bodyText ds) ∧
    ∀ ds, LeftmostPhraseDigits "USPS" "Tracking" (ch.load body).bodyText ds →
      ∃ r, extractTrackingNumberFromEmail ch (some ⟨.str subject, .str body⟩) = some r ∧
        r.trackingNumber = some ds ∧ r.carrier = some "USPS".toList :=
  ⟨leftmostPhraseDigits_exists "USPS" "Tracking" _
      ⟨'T', "racking".toList, rfl, no_space_of_letter 'T' (by decide)⟩ h,
    fun ds hds => extractTracking_of_usps ch subject body ds hbody hds⟩

/-- The witness of C2: a body text that holds
`USPS Tracking Number: 9400123456789012345678` gives that number and USPS. -/
theorem extractTracking_usps_witness :
    ∃ r, extractTrackingNumberFromEmail ⟨fun b => ⟨b, [], [], []⟩, .error "load"⟩
        (some ⟨.str "Shipped (#12345)".toList,
          .str "Hi USPS Tracking Number: 9400123456789012345678".toList⟩) = some r ∧
      r.trackingNumber = some "9400123456789012345678".toList ∧
      r.carrier = some "USPS".toList :=
  (extractTracking_usps ⟨fun b => ⟨b, [], [], []⟩, .error "load"⟩ "Shipped (#12345)".toList
      "Hi USPS Tracking Number: 9400123456789012345678".toList (by decide)
      ⟨"Hi ".toList, " Number: 9400123456789012345678".toList,
        ⟨"USPS".toList, " ".toList, "Tracking".toList, by decide, by decide, by decide,
          by decide, by decide⟩,
        '9', by decide, by decide⟩).2
    "9400123456789012345678".toList
    ((reMatch_phraseDigits_iff "USPS" "Tracking" _ _
      ⟨'T', "racking".toList, rfl, no_space_of_letter 'T' (by decide)⟩).mp (by decide))

/-- C3 as stated fails: the label may occur more than once. With the billing
text `Billing Address 1 Billing Address John` the second label is followed by
whitespace and the run `John`, but the pattern matches at the first label
with a group of one blank, which trims to the empty text, and with no `Dear`
or `Thank you,` phrase the result is null. -/
theorem billingName_later_label_missed :
    ¬ (∀ (ch : Cheerio) (subject : JsValue) (body pre after run : Str), body ≠ [] →
        selectionText (ch.load body).billingSections
          = pre ++ "Billing Address".toList ++ after →
        NameAfterLabel after run →
        extractCustomerNameFromConfirmationEmail ch (some ⟨subject, .str body⟩)
          = some (trim run)) := by
  intro h
  have h1 := h ⟨fun _ => ⟨[], [], [], ["Billing Address 1 Billing Address John".toList]⟩,
      .error "load"⟩ (.str "Order".toList) "<div>".toList "Billing Address 1 ".toList
    " John".toList "John".toList (by decide) (by decide)
    ⟨" ".toList, [], [], [], by decide, by decide, Or.inl rfl, by decide, by decide, by decide,
      by decide⟩
  have h2 : extractCustomerNameFromConfirmationEmail
      ⟨fun _ => ⟨[], [], [], ["Billing Address 1 Billing Address John".toList]⟩, .error "load"⟩
      (some ⟨.str "Order".toList, .str "<div>".toList⟩) = none := by decide
  rw [h2] at h1
  exact absurd h1 (by simp)

/-- C3, amended. For every confirmation document whose billing container's
flattened text has, after the leftmost occurrence of the label
`Billing Address`, optional whitespace, an optional colon, optional
whitespace and then a maximal run of ASCII letters and whitespace holding at
least one letter, `extractCustomerNameFromConfirmationEmail` returns that
run with surrounding whitespace removed, whatever the body text is (with or
without a `Dear <Name>,` or `Thank you, <Name>` phrase). -/
theorem extractCustomerName_billing (ch : Cheerio) (subject : JsValue)
    (body pre after run : Str) (hbody : body ≠ [])
    (htext : selectionText (ch.load body).billingSections
      = pre ++ "Billing Address".toList ++ after)
    (hname : NameAfterLabel after run)
    (hleft : ∀ pre' after', selectionText (ch.load body).billingSections
      = pre' ++ "Billing Address".toList ++ after' → pre.length ≤ pre'.length) :
    extractCustomerNameFromConfirmationEmail ch (some ⟨subject, .str body⟩) = some (trim run) := by
  have hm := reMatch_billing _ pre after run htext hname hleft
  obtain ⟨x, hx, hxl⟩ := hname.choose_spec.choose_spec.choose_spec.choose_spec.2.2.2.2.2.1
  have hxs := not_isSpace_of_isLetter x hxl
  have hcap : run.dropWhile isSpace ≠ [] := by
    intro h0
    have := mem_dropWhile_of_not isSpace run x hx hxs
    rw [h0] at this
    simp at this
  have htrim : trim run ≠ [] := trim_ne_nil run x hx hxs
  have hlen : (ch.load body).billingSections.length > 0 := by
    cases hsec : (ch.load body).billingSections with
    | nil =>
      rw [hsec] at htext
      have := congrArg List.length htext
      simp [selectionText] at this
      omega
    | cons _ _ => simp
  have hstep : billingStep (ch.load body) = some (trim run) := by
    simp only [billingStep, hlen, if_true, hm, trimmedGroup, (truthyStr_iff _).mpr hcap,
      Option.map_some', trim_dropWhile]
  rw [extractCustomerName_eq ch subject body hbody,
    customerNameSteps_of_billing _ _ htrim hstep, if_pos ((truthyStr_iff _).mpr htrim)]

/-- The witness of amended C3: a div holding `Billing Address`, `John Smith`,
`123 Main St` gives `John Smith`, although the body text has a `Dear` phrase. -/
theorem extractCustomerName_billing_witness :
    extractCustomerNameFromConfirmationEmail
        ⟨fun _ => ⟨"Dear Jane Doe, Thank you, Bob".toList, [], [],
          ["Billing Address\n John Smith\n 123 Main St".toList]⟩, .error "load"⟩
        (some ⟨.str "Order Confirmation (#12345)".toList, .str "<div>".toList⟩)
      = some "John Smith".toList :=
  (extractCustomerName_billing
      ⟨fun _ => ⟨"Dear Jane Doe, Thank you, Bob".toList, [], [],
        ["Billing Address\n John Smith\n 123 Main St".toList]⟩, .error "load"⟩
      (.str "Order Confirmation (#12345)".toList) "<div>".toList [] "\n John Smith\n 123 Main St".toList
      "John Smith\n ".toList (by decide) (by decide)
      ⟨"\n ".toList, [], [], "123 Main St".toList, by decide, by decide, Or.inl rfl, by decide,
        by decide, by decide, by decide⟩
      (fun _ _ _ => Nat.zero_le _)).trans (by decide)


/-- C4. On a null or undefined input, and on an object that has neither a
subject nor a body (the empty object in particular), each of the three
extractors returns null, and the body of its `try` block ends normally: no
exception is raised. -/
theorem extractors_invalid_input (ch : Cheerio) :
    (orderNumberTry ch none = .ok none ∧ trackingTry ch none = .ok none ∧
      customerNameTry ch none = .ok none ∧
      extractOrderNumberFromTrackingEmail ch none = none ∧
      extractTrackingNumberFromEmail ch none = none ∧
      extractCustomerNameFromConfirmationEmail ch none = none) ∧
    ∀ subject body : JsValue, (subject = .undefined ∨ subject = .null) →
      (body = .undefined ∨ body = .null) →
      orderNumberTry ch (some ⟨subject, body⟩) = .ok none ∧
      trackingTry ch (some ⟨subject, body⟩) = .ok none ∧
      customerNameTry ch (some ⟨subject, body⟩) = .ok none ∧
      extractOrderNumberFromTrackingEmail ch (some ⟨subject, body⟩) = none ∧
      extractTrackingNumberFromEmail ch (some ⟨subject, body⟩) = none ∧
      extractCustomerNameFromConfirmationEmail ch (some ⟨subject, body⟩) = none := by
  refine ⟨⟨rfl, rfl, rfl, rfl, rfl, rfl⟩, ?_⟩
  intro subject body hs hb
  rcases hs with rfl | rfl <;> rcases hb with rfl | rfl <;>
    exact ⟨rfl, rfl, rfl, rfl, rfl, rfl⟩

/-- The witness of C4: the empty object. -/
theorem extractors_invalid_input_witness :
    orderNumberTry ⟨fun b => ⟨b, [], [], []⟩, .error "load"⟩
        (some ⟨.undefined, .undefined⟩) = .ok none ∧
      trackingTry ⟨fun b => ⟨b, [], [], []⟩, .error "load"⟩
        (some ⟨.undefined, .undefined⟩) = .ok none ∧
      customerNameTry ⟨fun b => ⟨b, [], [], []⟩, .error "load"⟩
        (some ⟨.undefined, .undefined⟩) = .ok none ∧
      extractOrderNumberFromTrackingEmail ⟨fun b => ⟨b, [], [], []⟩, .error "load"⟩
        (some ⟨.undefined, .undefined⟩) = none ∧
      extractTrackingNumberFromEmail ⟨fun b => ⟨b, [], [], []⟩, .error "load"⟩
        (some ⟨.undefined, .undefined⟩) = none ∧
      extractCustomerNameFromConfirmationEmail ⟨fun b => ⟨b, [], [], []⟩, .error "load"⟩
        (some ⟨.undefined, .undefined⟩) = none :=
  (extractors_invalid_input ⟨fun b => ⟨b, [], [], []⟩, .error "load"⟩).2
    .undefined .undefined (Or.inl rfl) (Or.inl rfl)

/-- C5. For every input and every behaviour of the HTML library, a result of
`extractTrackingNumberFromEmail` never has a non-null carrier with a null
tracking number. -/
theorem extractTracking_carrier_needs_number (ch : Cheerio) (e : Option EmailContent)
    (r : TrackingInfo) (h : extractTrackingNumberFromEmail ch e = some r)
    (hc : r.carrier ≠ none) : r.trackingNumber ≠ none := by
  obtain ⟨ec, dom, subject, _, _, _, _, ht, rfl⟩ := extractTracking_some ch e r h
  intro h0
  simp only at h0
  rw [h0] at ht
  exact absurd ht (by simp [truthyStr])

/-- The witness of C5: the sample tracking text. -/
theorem extractTracking_carrier_needs_number_witness :
    extractTrackingNumberFromEmail ⟨fun b => ⟨b, [], [], []⟩, .error "load"⟩
        (some ⟨.str "Shipped".toList, .str "USPS Tracking 9400".toList⟩)
      = some ⟨none, some "9400".toList, some "USPS".toList⟩ ∧
    (⟨none, some "9400".toList, some "USPS".toList⟩ : TrackingInfo).carrier ≠ none ∧
    (⟨none, some "9400".toList, some "USPS".toList⟩ : TrackingInfo).trackingNumber ≠ none :=
  ⟨by decide, by decide,
    extractTracking_carrier_needs_number ⟨fun b => ⟨b, [], [], []⟩, .error "load"⟩
      (some ⟨.str "Shipped".toList, .str "USPS Tracking 9400".toList⟩)
      ⟨none, some "9400".toList, some "USPS".toList⟩ (by decide) (by decide)⟩

/-- C6 as stated fails: a document with a non-empty body and a string subject
in which nothing is found gives null, not a TrackingInfo with null fields. -/
theorem extractTracking_nothing_is_null :
    ¬ (∀ (ch : Cheerio) (subject body : Str), body ≠ [] →
        ∃ r, extractTrackingNumberFromEmail ch (some ⟨.str subject, .str body⟩) = some r ∧
          (NothingFound (ch.load body) → r.trackingNumber = none ∧ r.carrier = none)) := by
  intro h
  obtain ⟨r, hr, _⟩ := h ⟨fun b => ⟨b, [], [], []⟩, .error "load"⟩ "Shipped".toList
    "Your parcel is on its way".toList (by decide)
  have h2 : extractTrackingNumberFromEmail ⟨fun b => ⟨b, [], [], []⟩, .error "load"⟩
      (some ⟨.str "Shipped".toList, .str "Your parcel is on its way".toList⟩) = none := by
    decide
  rw [h2] at hr
  exact absurd hr (by simp)

/-- C6, amended. For every document with a non-empty body and a string
subject, `extractTrackingNumberFromEmail` returns null when no USPS pattern,
no UPS pattern and no tracking link yields a number; and whenever it returns
a TrackingInfo, something was found and both the tracking number and the
carrier of the result are non-null. -/
theorem extractTracking_nothingFound (ch : Cheerio) (subject body : Str) (hbody : body ≠ []) :
    (NothingFound (ch.load body) →
      extractTrackingNumberFromEmail ch (some ⟨.str subject, .str body⟩) = none) ∧
    ∀ r, extractTrackingNumberFromEmail ch (some ⟨.str subject, .str body⟩) = some r →
      ¬ NothingFound (ch.load body) ∧ r.trackingNumber ≠ none ∧ r.carrier ≠ none := by
  rw [extractTracking_eq ch subject body hbody]
  by_cases ht : truthyStr (trackingSteps (ch.load body)).1 = true
  · rw [if_pos ht]
    have hnf : ¬ NothingFound (ch.load body) := by
      intro hn
      rw [(trackingSteps_truthy_iff _).mpr hn] at ht
      exact absurd ht (by simp)
    refine ⟨fun hn => absurd hn hnf, ?_⟩
    intro r hr
    simp only [Option.some.injEq] at hr
    subst hr
    refine ⟨hnf, ?_, ?_⟩
    · intro h0
      simp only at h0
      rw [h0] at ht
      exact absurd ht (by simp [truthyStr])
    · intro h0
      simp only at h0
      rcases trackingSteps_carrier _ ht with h | h | h <;> rw [h] at h0 <;>
        exact absurd h0 (by simp)
  · rw [if_neg ht]
    exact ⟨fun _ => rfl, fun r hr => absurd hr (by simp)⟩

/-- The witness of amended C6: a body in which nothing is found gives null. -/
theorem extractTracking_nothingFound_witness :
    NothingFound ⟨"Your parcel is on its way".toList, [], [], []⟩ ∧
      extractTrackingNumberFromEmail ⟨fun b => ⟨b, [], [], []⟩, .error "load"⟩
        (some ⟨.str "Shipped".toList, .str "Your parcel is on its way".toList⟩) = none :=
  ⟨by unfold NothingFound; decide,
   (extractTracking_nothingFound ⟨fun b => ⟨b, [], [], []⟩, .error "load"⟩ "Shipped".toList
      "Your parcel is on its way".toList (by decide)).1 (by unfold NothingFound; decide)⟩

/-- C7. For every document with a non-empty body and a string subject, the
result of `extractTrackingNumberFromEmail` is null exactly when no USPS
pattern, no UPS pattern and no tracking link yields a number; otherwise it
is an object whose tracking number is non-null and whose carrier is one of
`USPS`, `UPS`, `Other`. -/
theorem extractTracking_null_iff (ch : Cheerio) (subject body : Str) (hbody : body ≠ []) :
    (extractTrackingNumberFromEmail ch (some ⟨.str subject, .str body⟩) = none ↔
      NothingFound (ch.load body)) ∧
    ∀ r, extractTrackingNumberFromEmail ch (some ⟨.str subject, .str body⟩) = some r →
      r.trackingNumber ≠ none ∧
      (r.carrier = some "USPS".toList ∨ r.carrier = some "UPS".toList ∨
        r.carrier = some "Other".toList) := by
  rw [extractTracking_eq ch subject body hbody]
  by_cases ht : truthyStr (trackingSteps (ch.load body)).1 = true
  · rw [if_pos ht]
    have hnf : ¬ NothingFound (ch.load body) := by
      intro hn
      rw [(trackingSteps_truthy_iff _).mpr hn] at ht
      exact absurd ht (by simp)
    refine ⟨⟨fun h => absurd h (by simp), fun hn => absurd hn hnf⟩, ?_⟩
    intro r hr
    simp only [Option.some.injEq] at hr
    subst hr
    refine ⟨?_, trackingSteps_carrier _ ht⟩
    intro h0
    simp only at h0
    rw [h0] at ht
    exact absurd ht (by simp [truthyStr])
  · rw [if_neg ht]
    have hf : truthyStr (trackingSteps (ch.load body)).1 = false := by
      simpa using ht
    exact ⟨⟨fun _ => (trackingSteps_truthy_iff _).mp hf, fun _ => rfl⟩,
      fun r hr => absurd hr (by simp)⟩

/-- The witness of C7: a body with a UPS tracking link only. -/
theorem extractTracking_null_iff_witness :
    (extractTrackingNumberFromEmail
          ⟨fun _ => ⟨"Track your parcel".toList, [],
            ["https://ups.com/tracking/1Z9999999999999999".toList], []⟩, .error "load"⟩
          (some ⟨.str "Shipped".toList, .str "<a>".toList⟩) = none ↔
        NothingFound ⟨"Track your parcel".toList, [],
          ["https://ups.com/tracking/1Z9999999999999999".toList], []⟩) ∧
    ∀ r, extractTrackingNumberFromEmail
          ⟨fun _ => ⟨"Track your parcel".toList, [],
            ["https://ups.com/tracking/1Z9999999999999999".toList], []⟩, .error "load"⟩
          (some ⟨.str "Shipped".toList, .str "<a>".toList⟩) = some r →
      r.trackingNumber ≠ none ∧
      (r.carrier = some "USPS".toList ∨ r.carrier = some "UPS".toList ∨
        r.carrier = some "Other".toList) :=
  extractTracking_null_iff
    ⟨fun _ => ⟨"Track your parcel".toList, [],
      ["https://ups.com/tracking/1Z9999999999999999".toList], []⟩, .error "load"⟩
    "Shipped".toList "<a>".toList (by decide)


/-- C8. The order number of a result of `extractTrackingNumberFromEmail` is
taken from the subject alone. For every document with a string subject and a
non-empty body in which the tracking steps find a number, the method returns
a result whose order number is the digits of the leftmost `(#digits)` of the
subject when there is one and null otherwise, with the tracking number and
the carrier of the steps, whatever the body text holds. And for every
document on which the method returns a result, the subject is a string and
the order number of the result is so determined: the body is never consulted
for it. -/
theorem extractTracking_orderNumber (ch : Cheerio) (ec : EmailContent) :
    (∀ subject body, ec = ⟨.str subject, .str body⟩ → body ≠ [] →
      ¬ NothingFound (ch.load body) →
      (∀ ds, LeftmostOrderRef subject ds →
        extractTrackingNumberFromEmail ch (some ec) =
          some ⟨some ds, (trackingSteps (ch.load body)).1, (trackingSteps (ch.load body)).2⟩) ∧
      (NoOrderRef subject →
        extractTrackingNumberFromEmail ch (some ec) =
          some ⟨none, (trackingSteps (ch.load body)).1, (trackingSteps (ch.load body)).2⟩)) ∧
    (∀ r, extractTrackingNumberFromEmail ch (some ec) = some r →
      ∃ subject, ec.subject = .str subject ∧
        (∀ ds, LeftmostOrderRef subject ds → r.orderNumber = some ds) ∧
        (NoOrderRef subject → r.orderNumber = none)) := by
  constructor
  · intro subject body hec hbody hfound
    subst hec
    have ht : truthyStr (trackingSteps (ch.load body)).1 = true := by
      cases h : truthyStr (trackingSteps (ch.load body)).1 with
      | true => rfl
      | false => exact absurd ((trackingSteps_truthy_iff (ch.load body)).mp h) hfound
    rw [extractTracking_eq ch subject body hbody, if_pos ht]
    constructor
    · intro ds hds
      rw [(subjectOrderNumber_spec subject).1 ds hds]
    · intro hno
      rw [(subjectOrderNumber_spec subject).2 hno]
  · intro r h
    obtain ⟨ec', dom, subject, he, _, _, hs, _, rfl⟩ := extractTracking_some ch (some ec) r h
    simp only [Option.some.injEq] at he
    subst he
    exact ⟨subject, hs, (subjectOrderNumber_spec subject).1, (subjectOrderNumber_spec subject).2⟩

/-- The witness of C8: the subject holds `(#12345)` and the body text holds
`Order #99999`; the order number of the result is `12345`. -/
theorem extractTracking_orderNumber_witness :
    extractTrackingNumberFromEmail ⟨fun b => ⟨b, [], [], []⟩, .error "load"⟩
        (some ⟨.str "Order Updated (#12345)".toList,
          .str "Order #99999 USPS Tracking 9400".toList⟩)
      = some ⟨some "12345".toList, some "9400".toList, some "USPS".toList⟩ :=
  (((extractTracking_orderNumber ⟨fun b => ⟨b, [], [], []⟩, .error "load"⟩
      ⟨.str "Order Updated (#12345)".toList, .str "Order #99999 USPS Tracking 9400".toList⟩).1
      "Order Updated (#12345)".toList "Order #99999 USPS Tracking 9400".toList rfl (by decide)
      (fun h => absurd (h.1 _ (List.mem_cons_self _ _)) (by decide))).1 "12345".toList
      ((reMatch_subject_some _ _).mp (by decide))).trans
    (by decide)

/-- C9 as stated fails for the order-number extractor: with a body that is
absent it still returns the number of the subject. -/
theorem subjectNumber_without_body :
    ¬ (∀ (ch : Cheerio) (e : EmailContent), AbsentOrEmpty e.body →
        extractOrderNumberFromTrackingEmail ch (some e) = none ∧
        extractTrackingNumberFromEmail ch (some e) = none ∧
        extractCustomerNameFromConfirmationEmail ch (some e) = none) := by
  intro h
  have h1 := (h ⟨fun b => ⟨b, [], [], []⟩, .error "load"⟩
    ⟨.str "Order Updated (#12345)".toList, .undefined⟩ (Or.inl rfl)).1
  have h2 : extractOrderNumberFromTrackingEmail ⟨fun b => ⟨b, [], [], []⟩, .error "load"⟩
      (some ⟨.str "Order Updated (#12345)".toList, .undefined⟩) = some "12345".toList := by
    decide
  rw [h2] at h1
  exact absurd h1 (by simp)

/-- C9, amended. For every document whose body is absent or the empty string,
whatever its subject, the tracking extractor and the customer-name extractor
return null, and the order-number extractor returns the digits of the
leftmost `(#digits)` of a string subject when there is one and null
otherwise (also when the subject is not a string); none raises. -/
theorem extractors_noBody (ch : Cheerio) (e : EmailContent) (hb : AbsentOrEmpty e.body) :
    extractTrackingNumberFromEmail ch (some e) = none ∧
    extractCustomerNameFromConfirmationEmail ch (some e) = none ∧
    trackingTry ch (some e) = .ok none ∧ customerNameTry ch (some e) = .ok none ∧
    (∀ s, e.subject = .str s →
      (∀ ds, LeftmostOrderRef s ds → extractOrderNumberFromTrackingEmail ch (some e) = some ds) ∧
      (NoOrderRef s → extractOrderNumberFromTrackingEmail ch (some e) = none)) ∧
    ((∀ s, e.subject ≠ .str s) → extractOrderNumberFromTrackingEmail ch (some e) = none) := by
  obtain ⟨subject, body⟩ := e
  have ht : body.truthy = false := truthy_of_absentOrEmpty body hb
  have ho := orderNumber_falsyBody_eq ch subject body ht
  refine ⟨?_, ?_, ?_, ?_, ?_, ?_⟩
  · simp [extractTrackingNumberFromEmail, trackingTry, ht]
  · simp [extractCustomerNameFromConfirmationEmail, customerNameTry, ht]
  · simp [trackingTry, ht]
  · simp [customerNameTry, ht]
  · intro s hs
    simp only at hs
    subst hs
    simp only at ho
    constructor
    · intro ds hds
      rw [ho]; exact (subjectOrderNumber_spec s).1 ds hds
    · intro hno
      rw [ho]; exact (subjectOrderNumber_spec s).2 hno
  · intro hs
    rw [ho]
    cases subject with
    | str s => exact absurd rfl (hs s)
    | undefined => rfl
    | null => rfl
    | other t => rfl

/-- The witness of amended C9: an empty body and the sample subject. -/
theorem extractors_noBody_witness :
    extractTrackingNumberFromEmail ⟨fun b => ⟨b, [], [], []⟩, .error "load"⟩
        (some ⟨.str "Order Updated (#12345)".toList, .str []⟩) = none ∧
    extractCustomerNameFromConfirmationEmail ⟨fun b => ⟨b, [], [], []⟩, .error "load"⟩
        (some ⟨.str "Order Updated (#12345)".toList, .str []⟩) = none ∧
    extractOrderNumberFromTrackingEmail ⟨fun b => ⟨b, [], [], []⟩, .error "load"⟩
        (some ⟨.str "Order Updated (#12345)".toList, .str []⟩) = some "12345".toList :=
  ⟨(extractors_noBody ⟨fun b => ⟨b, [], [], []⟩, .error "load"⟩
      ⟨.str "Order Updated (#12345)".toList, .str []⟩ (Or.inr (Or.inr rfl))).1,
   (extractors_noBody ⟨fun b => ⟨b, [], [], []⟩, .error "load"⟩
      ⟨.str "Order Updated (#12345)".toList, .str []⟩ (Or.inr (Or.inr rfl))).2.1,
   ((extractors_noBody ⟨fun b => ⟨b, [], [], []⟩, .error "load"⟩
      ⟨.str "Order Updated (#12345)".toList, .str []⟩ (Or.inr (Or.inr rfl))).2.2.2.2.1
        "Order Updated (#12345)".toList rfl).1 "12345".toList
      ((reMatch_subject_some _ _).mp (by decide))⟩

/-- C10 as stated fails: with an empty subject the body is not consulted, and
a body text `Order #12345` gives null. -/
theorem bodyNumber_needs_subject :
    ¬ (∀ (ch : Cheerio) (e : EmailContent) (body pre ds post : Str),
        AbsentOrEmpty e.subject → e.body = .str body → body ≠ [] →
        (ch.load body).bodyText = pre ++ "Order #".toList ++ ds ++ post →
        ds ≠ [] → (∀ c ∈ ds, isDigit c = true) → (∀ c ∈ post.head?, isDigit c = false) →
        extractOrderNumberFromTrackingEmail ch (some e) = some ds) := by
  intro h
  have h1 := h ⟨fun b => ⟨b, [], [], []⟩, .error "load"⟩
    ⟨.str [], .str "Order #12345".toList⟩ "Order #12345".toList [] "12345".toList []
    (Or.inr (Or.inr rfl)) rfl (by decide) (by decide) (by decide) (by decide) (by decide)
  have h2 : extractOrderNumberFromTrackingEmail ⟨fun b => ⟨b, [], [], []⟩, .error "load"⟩
      (some ⟨.str [], .str "Order #12345".toList⟩) = none := by decide
  rw [h2] at h1
  exact absurd h1 (by simp)

/-- C10, amended. For every document whose subject is absent or empty,
`extractOrderNumberFromTrackingEmail` returns null at its first guard,
without consulting the body (also when the body text holds
`Order #<digits>`) and without raising. -/
theorem extractOrderNumber_noSubject (ch : Cheerio) (e : EmailContent)
    (hs : AbsentOrEmpty e.subject) :
    orderNumberTry ch (some e) = .ok none ∧
      extractOrderNumberFromTrackingEmail ch (some e) = none := by
  have ht := truthy_of_absentOrEmpty e.subject hs
  simp [extractOrderNumberFromTrackingEmail, orderNumberTry, ht]

/-- The witness of amended C10: an absent subject and the body text `Order #12345`. -/
theorem extractOrderNumber_noSubject_witness :
    orderNumberTry ⟨fun b => ⟨b, [], [], []⟩, .error "load"⟩
        (some ⟨.undefined, .str "Order #12345".toList⟩) = .ok none ∧
      extractOrderNumberFromTrackingEmail ⟨fun b => ⟨b, [], [], []⟩, .error "load"⟩
        (some ⟨.undefined, .str "Order #12345".toList⟩) = none :=
  extractOrderNumber_noSubject ⟨fun b => ⟨b, [], [], []⟩, .error "load"⟩
    ⟨.undefined, .str "Order #12345".toList⟩ (Or.inl rfl)


/-- C11. For every input (null, a value without properties, an object whose
subject or body is missing, null, a string or any other value) and every
behaviour of the HTML library, each of the three extractors returns a value
and lets no exception escape; in particular, on a truthy body with a subject
that is not a string the `try` block of `extractTrackingNumberFromEmail`
raises (at `subject.match` when the body loads) and the method returns null. -/
theorem extractors_never_raise (ch : Cheerio) (e : Option EmailContent) :
    (orderNumberMethod ch e = .ok (extractOrderNumberFromTrackingEmail ch e) ∧
      trackingMethod ch e = .ok (extractTrackingNumberFromEmail ch e) ∧
      customerNameMethod ch e = .ok (extractCustomerNameFromConfirmationEmail ch e)) ∧
    ∀ subject body : JsValue, (∀ s, subject ≠ .str s) → body.truthy = true →
      (∃ err, trackingTry ch (some ⟨subject, body⟩) = .error err) ∧
      (∀ dom, cheerioLoad ch body = .ok dom →
        trackingTry ch (some ⟨subject, body⟩) = .error "TypeError") ∧
      trackingMethod ch (some ⟨subject, body⟩) = .ok none ∧
      extractTrackingNumberFromEmail ch (some ⟨subject, body⟩) = none := by
  refine ⟨⟨?_, ?_, ?_⟩, ?_⟩
  · unfold orderNumberMethod extractOrderNumberFromTrackingEmail
    cases orderNumberTry ch e <;> rfl
  · unfold trackingMethod extractTrackingNumberFromEmail
    cases trackingTry ch e <;> rfl
  · unfold customerNameMethod extractCustomerNameFromConfirmationEmail
    cases customerNameTry ch e <;> rfl
  intro subject body hs hb
  have hm : jsMatch subject subjectPattern = .error "TypeError" := by
    cases subject with
    | str s => exact absurd rfl (hs s)
    | undefined => rfl
    | null => rfl
    | other t => rfl
  have htry : ∃ err, trackingTry ch (some ⟨subject, body⟩) = .error err := by
    cases hl : cheerioLoad ch body with
    | error err => exact ⟨err, by simp [trackingTry, hb, hl, bind, Except.bind]⟩
    | ok dom => exact ⟨"TypeError", by simp [trackingTry, hb, hl, hm, bind, Except.bind]⟩
  obtain ⟨err, herr⟩ := htry
  refine ⟨⟨err, herr⟩, ?_, ?_, ?_⟩
  · intro dom hl
    simp [trackingTry, hb, hl, hm, bind, Except.bind]
  · rw [trackingMethod, tryCatch_returns, herr]
  · rw [extractTrackingNumberFromEmail, herr]

/-- The witness of C11: a non-empty body and no subject. -/
theorem extractors_never_raise_witness :
    trackingTry ⟨fun b => ⟨b, [], [], []⟩, .error "load"⟩
        (some ⟨.undefined, .str "USPS Tracking 9400".toList⟩) = .error "TypeError" ∧
      trackingMethod ⟨fun b => ⟨b, [], [], []⟩, .error "load"⟩
        (some ⟨.undefined, .str "USPS Tracking 9400".toList⟩) = .ok none ∧
      extractTrackingNumberFromEmail ⟨fun b => ⟨b, [], [], []⟩, .error "load"⟩
        (some ⟨.undefined, .str "USPS Tracking 9400".toList⟩) = none :=
  ⟨((extractors_never_raise ⟨fun b => ⟨b, [], [], []⟩, .error "load"⟩ none).2
      .undefined (.str "USPS Tracking 9400".toList) (fun _ h => by cases h) rfl).2.1 _ rfl,
   ((extractors_never_raise ⟨fun b => ⟨b, [], [], []⟩, .error "load"⟩ none).2
      .undefined (.str "USPS Tracking 9400".toList) (fun _ h => by cases h) rfl).2.2.1,
   ((extractors_never_raise ⟨fun b => ⟨b, [], [], []⟩, .error "load"⟩ none).2
      .undefined (.str "USPS Tracking 9400".toList) (fun _ h => by cases h) rfl).2.2.2⟩


/-- C12. For every document with a non-empty subject that holds no
`(#digits)` and a non-empty body whose plain text holds `Order` (any letter
case), one or more whitespace characters, `#` and one or more digits, there
is a leftmost such occurrence and `extractOrderNumberFromTrackingEmail`
returns its digits, whatever the elements whose class contains `order` hold. -/
theorem extractOrderNumber_bodyText (ch : Cheerio) (subject body : Str) (hs : subject ≠ [])
    (hno : NoOrderRef subject) (hb : body ≠ [])
    (h : ∃ pre ds, OrderTextAt (ch.load body).bodyText pre ds) :
    (∃ ds, Leftmost OrderTextAt (ch.load body).bodyText ds) ∧
    ∀ ds, Leftmost OrderTextAt (ch.load body).bodyText ds →
      extractOrderNumberFromTrackingEmail ch (some ⟨.str subject, .str body⟩) = some ds := by
  refine ⟨leftmost_exists orderTextPattern OrderTextAt orderTextAt_iff _ h, ?_⟩
  intro ds hds
  have hm := (reMatch_leftmost orderTextPattern OrderTextAt orderTextAt_iff _ ds).mpr hds
  have ht := reMatch_truthy _ _ _ hasGroup_orderTextPattern hm
  rw [extractOrderNumber_body_eq ch subject body hs hno hb, hm, if_pos ht]

/-- The witness of C12: the body text holds `order #12345` and an element of
class `order` holds another, longer number. -/
theorem extractOrderNumber_bodyText_witness :
    extractOrderNumberFromTrackingEmail
        ⟨fun _ => ⟨"Good news! Your order #12345 has been shipped.".toList,
          ["Ref 9999999".toList], [], []⟩, .error "load"⟩
        (some ⟨.str "Your order has shipped".toList, .str "<p>".toList⟩)
      = some "12345".toList :=
  (extractOrderNumber_bodyText
      ⟨fun _ => ⟨"Good news! Your order #12345 has been shipped.".toList,
        ["Ref 9999999".toList], [], []⟩, .error "load"⟩
      "Your order has shipped".toList "<p>".toList (by decide)
      ((reMatch_subject_none _).mp (by decide)) (by decide)
      ⟨"Good news! Your ".toList, "12345".toList, "12345 has been shipped.".toList,
        ⟨"order".toList, " ".toList, "#".toList, by decide, by decide, by decide, by decide,
          by decide⟩,
        " has been shipped.".toList, by decide, by decide, by decide, by decide⟩).2
    "12345".toList
    ((reMatch_leftmost orderTextPattern OrderTextAt orderTextAt_iff _ _).mp (by decide))


/-- C13. For every document with a non-empty subject that holds no
`(#digits)`: when the body is a non-empty text whose plain text holds no
`Order #<digits>` phrase, `extractOrderNumberFromTrackingEmail` returns the
leftmost maximal run of 5 or more digits of the concatenated text of the
elements whose class contains `order`, and null when that text has no 5
digits in a row (one of the two always holds); and it returns null when the
body is absent or empty. -/
theorem extractOrderNumber_orderElement (ch : Cheerio) (subject : Str) (hs : subject ≠ [])
    (hno : NoOrderRef subject) :
    (∀ body : Str, body ≠ [] → (∀ pre ds, ¬ OrderTextAt (ch.load body).bodyText pre ds) →
      (∀ ds, LeftmostLongDigitRun 5 (selectionText (ch.load body).orderElements) ds →
        extractOrderNumberFromTrackingEmail ch (some ⟨.str subject, .str body⟩) = some ds) ∧
      (NoLongDigitRun 5 (selectionText (ch.load body).orderElements) →
        extractOrderNumberFromTrackingEmail ch (some ⟨.str subject, .str body⟩) = none) ∧
      ((∃ ds, LeftmostLongDigitRun 5 (selectionText (ch.load body).orderElements) ds) ∨
        NoLongDigitRun 5 (selectionText (ch.load body).orderElements))) ∧
    (∀ body : JsValue, AbsentOrEmpty body →
      extractOrderNumberFromTrackingEmail ch (some ⟨.str subject, body⟩) = none) := by
  constructor
  · intro body hb hnotext
    have hm : reMatch orderTextPattern (ch.load body).bodyText = none :=
      (reMatch_none_iff_no_occ orderTextPattern OrderTextAt orderTextAt_iff _).mpr hnotext
    have heq := extractOrderNumber_body_eq ch subject body hs hno hb
    have hnt : ¬ (truthyStr (none : Option Str) = true) := by decide
    rw [hm, if_neg hnt] at heq
    have hp : orderElementPattern = [group isDigit 5 none] := rfl
    refine ⟨?_, ?_, ?_⟩
    · intro ds hds
      have hr : reMatch orderElementPattern (selectionText (ch.load body).orderElements)
          = some ds := by rw [hp]; exact (reMatch_longDigitRun 5 _ ds).mpr hds
      have ht := reMatch_truthy _ _ _ hasGroup_orderElementPattern hr
      rw [heq, hr, if_pos ht]
    · intro hnone
      have hr : reMatch orderElementPattern (selectionText (ch.load body).orderElements)
          = none := by rw [hp]; exact (reMatch_longDigitRun_none 5 _).mpr hnone
      rw [heq, hr, if_neg hnt]
    · cases hr : reMatch [group isDigit 5 none] (selectionText (ch.load body).orderElements) with
      | some ds => exact Or.inl ⟨ds, (reMatch_longDigitRun 5 _ ds).mp hr⟩
      | none => exact Or.inr ((reMatch_longDigitRun_none 5 _).mp hr)
  · intro body hb
    rw [orderNumber_falsyBody_eq ch (.str subject) body (truthy_of_absentOrEmpty body hb)]
    simp only
    rw [(reMatch_subject_none subject).mpr hno]
    rfl

/-- The witness of C13: no order phrase in the body text, and an element of
class `order` that holds a short and then a long run of digits. -/
theorem extractOrderNumber_orderElement_witness :
    extractOrderNumberFromTrackingEmail
        ⟨fun _ => ⟨"Your parcel has been shipped.".toList,
          ["Box 12 of ".toList, "ref 1234567 and 7654321".toList], [], []⟩, .error "load"⟩
        (some ⟨.str "Your order has shipped".toList, .str "<p>".toList⟩)
      = some "1234567".toList ∧
    extractOrderNumberFromTrackingEmail
        ⟨fun _ => ⟨"Your parcel has been shipped.".toList,
          ["Box 12 of ".toList, "ref 1234567 and 7654321".toList], [], []⟩, .error "load"⟩
        (some ⟨.str "Your order has shipped".toList, .undefined⟩) = none :=
  ⟨((extractOrderNumber_orderElement
        ⟨fun _ => ⟨"Your parcel has been shipped.".toList,
          ["Box 12 of ".toList, "ref 1234567 and 7654321".toList], [], []⟩, .error "load"⟩
        "Your order has shipped".toList (by decide)
        ((reMatch_subject_none _).mp (by decide))).1 "<p>".toList (by decide)
        ((reMatch_none_iff_no_occ orderTextPattern OrderTextAt orderTextAt_iff _).mp
          (by decide))).1
      "1234567".toList ((reMatch_longDigitRun 5 _ _).mp (by decide)),
   (extractOrderNumber_orderElement
        ⟨fun _ => ⟨"Your parcel has been shipped.".toList,
          ["Box 12 of ".toList, "ref 1234567 and 7654321".toList], [], []⟩, .error "load"⟩
        "Your order has shipped".toList (by decide)
        ((reMatch_subject_none _).mp (by decide))).2 .undefined (Or.inl rfl)⟩


/-- C14. For every document with a non-empty body and a string subject: a
result of `extractTrackingNumberFromEmail` has carrier `UPS` only when none
of the three USPS patterns matches the body text; and whenever a USPS pattern
matches, the result has carrier `USPS` and the digits of the first USPS
pattern of the list that matches, whatever the UPS patterns match. -/
theorem extractTracking_usps_before_ups (ch : Cheerio) (subject body : Str) (hb : body ≠ []) :
    (∀ r, extractTrackingNumberFromEmail ch (some ⟨.str subject, .str body⟩) = some r →
      r.carrier = some "UPS".toList →
      ∀ p ∈ uspsPatterns, reMatch p (ch.load body).bodyText = none) ∧
    ((∃ p ∈ uspsPatterns, reMatch p (ch.load body).bodyText ≠ none) →
      ∃ r, extractTrackingNumberFromEmail ch (some ⟨.str subject, .str body⟩) = some r ∧
        r.carrier = some "USPS".toList ∧
        ∃ before p after, uspsPatterns = before ++ p :: after ∧
          (∀ q ∈ before, reMatch q (ch.load body).bodyText = none) ∧
          reMatch p (ch.load body).bodyText ≠ none ∧
          r.trackingNumber = reMatch p (ch.load body).bodyText) := by
  rw [extractTracking_eq ch subject body hb]
  constructor
  · intro r hr hc
    by_cases ht : truthyStr (trackingSteps (ch.load body)).1 = true
    · rw [if_pos ht] at hr
      simp only [Option.some.injEq] at hr
      subst hr
      exact trackingSteps_ups_carrier _ hc
    · rw [if_neg ht] at hr
      exact absurd hr (by simp)
  · intro h
    obtain ⟨before, p, after, hsplit, hbefore, hp, hsteps⟩ := trackingSteps_of_usps _ h
    have hpmem : p ∈ uspsPatterns := by rw [hsplit]; simp
    have ht := (truthyStr_reMatch p _ (hasGroup_uspsPatterns p hpmem)).mpr hp
    rw [hsteps, if_pos ht]
    exact ⟨_, rfl, rfl, before, p, after, hsplit, hbefore, hp, rfl⟩

/-- The witness of C14: the body text `UPS Tracking Number: 1Z999AA10123456784`
matches the second USPS pattern and gives carrier `USPS` with the number `1`. -/
theorem extractTracking_usps_before_ups_witness :
    extractTrackingNumberFromEmail ⟨fun b => ⟨b, [], [], []⟩, .error "load"⟩
        (some ⟨.str "Shipped".toList, .str "UPS Tracking Number: 1Z999AA10123456784".toList⟩)
      = some ⟨none, some "1".toList, some "USPS".toList⟩ ∧
    ∃ r, extractTrackingNumberFromEmail ⟨fun b => ⟨b, [], [], []⟩, .error "load"⟩
        (some ⟨.str "Shipped".toList, .str "UPS Tracking Number: 1Z999AA10123456784".toList⟩)
          = some r ∧
      r.carrier = some "USPS".toList ∧
      ∃ before p after, uspsPatterns = before ++ p :: after ∧
        (∀ q ∈ before, reMatch q "UPS Tracking Number: 1Z999AA10123456784".toList = none) ∧
        reMatch p "UPS Tracking Number: 1Z999AA10123456784".toList ≠ none ∧
        r.trackingNumber = reMatch p "UPS Tracking Number: 1Z999AA10123456784".toList :=
  ⟨by decide,
   (extractTracking_usps_before_ups ⟨fun b => ⟨b, [], [], []⟩, .error "load"⟩ "Shipped".toList
      "UPS Tracking Number: 1Z999AA10123456784".toList (by decide)).2
    ⟨litI "Tracking" ++ [plus isSpace] ++ litI "Number" ++ [star isNonDigit] ++
        [group isDigit 1 none], by simp [uspsPatterns], by decide⟩⟩


/-- C15 as stated fails: the code pattern of the source wants the word `UPS`,
then one or two digits (not letters), a letter and ten digits. The body text
`UPS ABC1234567890` holds two letters, a letter and ten digits, matches no
USPS pattern and no `UPS Tracking`, and gives null. -/
theorem upsLetterCode_not_found :
    ¬ (∀ (ch : Cheerio) (subject body pre ls ten post : Str) (l : Char), body ≠ [] →
        (∀ p ∈ uspsPatterns, reMatch p (ch.load body).bodyText = none) →
        (∀ pre' rest, PhraseAt "UPS" "Tracking" (ch.load body).bodyText pre' rest →
          ∀ c ∈ rest, isDigit c = false) →
        (ch.load body).bodyText = pre ++ ls ++ [l] ++ ten ++ post →
        (ls.length = 1 ∨ ls.length = 2) → (∀ c ∈ ls, isLetter c = true) → isLetter l = true →
        ten.length = 10 → (∀ c ∈ ten, isDigit c = true) →
        ∃ r, extractTrackingNumberFromEmail ch (some ⟨.str subject, .str body⟩) = some r ∧
          r.trackingNumber = some (ls ++ [l] ++ ten) ∧ r.carrier = some "UPS".toList) := by
  intro h
  obtain ⟨r, hr, _⟩ := h ⟨fun b => ⟨b, [], [], []⟩, .error "load"⟩ "Shipped".toList
    "UPS ABC1234567890".toList "UPS ".toList "AB".toList "1234567890".toList [] 'C'
    (by decide) (by decide)
    ((reMatch_phraseDigits_none "UPS" "Tracking" _ hw2_tracking).mp (by decide))
    (by decide) (by decide) (by decide) (by decide) (by decide) (by decide)
  have h2 : extractTrackingNumberFromEmail ⟨fun b => ⟨b, [], [], []⟩, .error "load"⟩
      (some ⟨.str "Shipped".toList, .str "UPS ABC1234567890".toList⟩) = none := by decide
  rw [h2] at hr
  exact absurd hr (by simp)

/-- C15, amended. For every document with a string subject and a non-empty
body whose plain text matches no USPS pattern, holds no `UPS Tracking`
followed by digits, and holds `UPS` (any letter case), any characters that
are not digits and then a code made of one or two digits, an ASCII letter and
ten digits, there is a leftmost such occurrence and
`extractTrackingNumberFromEmail` returns its code as trackingNumber with
carrier `UPS`. -/
theorem extractTracking_upsCode (ch : Cheerio) (subject body : Str) (hb : body ≠ [])
    (husps : ∀ p ∈ uspsPatterns, reMatch p (ch.load body).bodyText = none)
    (hups : ∀ pre rest, PhraseAt "UPS" "Tracking" (ch.load body).bodyText pre rest →
      ∀ c ∈ rest, isDigit c = false)
    (h : ∃ pre code, UpsCodeAt (ch.load body).bodyText pre code) :
    (∃ code, Leftmost UpsCodeAt (ch.load body).bodyText code) ∧
    ∀ code, Leftmost UpsCodeAt (ch.load body).bodyText code →
      ∃ r, extractTrackingNumberFromEmail ch (some ⟨.str subject, .str body⟩) = some r ∧
        r.trackingNumber = some code ∧ r.carrier = some "UPS".toList := by
  refine ⟨leftmost_exists _ UpsCodeAt upsCodeAt_iff _ h, ?_⟩
  intro code hcode
  have hsteps := trackingSteps_of_upsCode (ch.load body) code husps hups hcode
  have hne : code ≠ [] := by
    obtain ⟨_, ⟨_, _, d, l, ten, _, _, _, _, _, _, _, _, _, hc⟩, _⟩ := hcode
    rw [hc]; simp
  rw [extractTracking_eq ch subject body hb, hsteps, if_pos ((truthyStr_iff code).mpr hne)]
  exact ⟨_, rfl, rfl, rfl⟩

/-- The witness of amended C15: the body text `Your UPS number is 1Z1234567890`. -/
theorem extractTracking_upsCode_witness :
    ∃ r, extractTrackingNumberFromEmail ⟨fun b => ⟨b, [], [], []⟩, .error "load"⟩
        (some ⟨.str "Shipped".toList, .str "Your UPS number is 1Z1234567890".toList⟩) = some r ∧
      r.trackingNumber = some "1Z1234567890".toList ∧ r.carrier = some "UPS".toList :=
  (extractTracking_upsCode ⟨fun b => ⟨b, [], [], []⟩, .error "load"⟩ "Shipped".toList
      "Your UPS number is 1Z1234567890".toList (by decide) (by decide)
      ((reMatch_phraseDigits_none "UPS" "Tracking" _ hw2_tracking).mp (by decide))
      ⟨"Your ".toList, "1Z1234567890".toList,
        "UPS".toList, " number is ".toList, "1".toList, 'Z', "1234567890".toList, [],
        by decide, by decide, by decide, by decide, by decide, by decide, by decide, by decide,
        by decide⟩).2
    "1Z1234567890".toList
    ((reMatch_leftmost _ UpsCodeAt upsCodeAt_iff _ _).mp (by decide))


/-- C16. For every document with a string subject and a non-empty body whose
plain text matches no USPS and no UPS pattern and whose tracking anchors
start with one of target `href`: the tracking number is the leftmost maximal
run of 10 or more digits of `href`, and the carrier is `USPS` if `href`
contains `usps`, otherwise `UPS` if it contains `ups`, otherwise `Other`; and
when `href` has no 10 digits in a row the result is null, whatever the later
anchors hold. -/
theorem extractTracking_link (ch : Cheerio) (subject body href : Str) (others : List Str)
    (hb : body ≠ [])
    (husps : ∀ p ∈ uspsPatterns, reMatch p (ch.load body).bodyText = none)
    (hups : ∀ p ∈ upsPatterns, reMatch p (ch.load body).bodyText = none)
    (hlinks : (ch.load body).trackingHrefs = href :: others) :
    (∀ ds, LeftmostLongDigitRun 10 href ds →
      ∃ r, extractTrackingNumberFromEmail ch (some ⟨.str subject, .str body⟩) = some r ∧
        r.trackingNumber = some ds ∧
        (Contains href "usps" → r.carrier = some "USPS".toList) ∧
        (¬ Contains href "usps" → Contains href "ups" → r.carrier = some "UPS".toList) ∧
        (¬ Contains href "usps" → ¬ Contains href "ups" → r.carrier = some "Other".toList)) ∧
    (NoLongDigitRun 10 href →
      extractTrackingNumberFromEmail ch (some ⟨.str subject, .str body⟩) = none) ∧
    ((∃ ds, LeftmostLongDigitRun 10 href ds) ∨ NoLongDigitRun 10 href) := by
  have hsteps := trackingSteps_of_noText (ch.load body) husps hups
  have hp : hrefPattern = [group isDigit 10 none] := rfl
  have hnt : ¬ (truthyStr (none : Option Str) = true) := by decide
  rw [extractTracking_eq ch subject body hb, hsteps]
  refine ⟨?_, ?_, ?_⟩
  · intro ds hds
    have hr : reMatch hrefPattern href = some ds := by
      rw [hp]; exact (reMatch_longDigitRun 10 href ds).mpr hds
    have ht := reMatch_truthy _ _ _ hasGroup_hrefPattern hr
    have hl : linkStep (ch.load body) = (some ds,
        some (if includes href "usps".toList then "USPS".toList
          else if includes href "ups".toList then "UPS".toList else "Other".toList)) := by
      simp only [linkStep, hlinks, hr, ht, if_true]
    rw [hl, if_pos ht]
    obtain ⟨h1, h2, h3⟩ := carrier_of_href href
    refine ⟨_, rfl, rfl, ?_, ?_, ?_⟩
    · intro h; exact congrArg some (h1 h)
    · intro ha hb2; exact congrArg some (h2 ha hb2)
    · intro ha hb2; exact congrArg some (h3 ha hb2)
  · intro hnone
    have hr : reMatch hrefPattern href = none := by
      rw [hp]; exact (reMatch_longDigitRun_none 10 href).mpr hnone
    have hl : linkStep (ch.load body) = (none, none) := by
      simp only [linkStep, hlinks, hr, if_neg hnt]
    rw [hl, if_neg hnt]
  · cases hr : reMatch [group isDigit 10 none] href with
    | some ds => exact Or.inl ⟨ds, (reMatch_longDigitRun 10 _ ds).mp hr⟩
    | none => exact Or.inr ((reMatch_longDigitRun_none 10 _).mp hr)

/-- The witness of C16: the first link is
`https://ups.com/tracking/1Z9999999999999999`; and a first link without ten
digits in a row hides a later link that has them. -/
theorem extractTracking_link_witness :
    (∃ r, extractTrackingNumberFromEmail
          ⟨fun _ => ⟨"Track your parcel".toList, [],
            ["https://ups.com/tracking/1Z9999999999999999".toList,
              "https://usps.com/tracking/9400111122223333".toList], []⟩, .error "load"⟩
          (some ⟨.str "Shipped".toList, .str "<a>".toList⟩) = some r ∧
        r.trackingNumber = some "9999999999999999".toList ∧
        r.carrier = some "UPS".toList) ∧
    extractTrackingNumberFromEmail
        ⟨fun _ => ⟨"Track your parcel".toList, [],
          ["https://ups.com/tracking/help".toList,
            "https://ups.com/tracking/1Z9999999999999999".toList], []⟩, .error "load"⟩
        (some ⟨.str "Shipped".toList, .str "<a>".toList⟩) = none := by
  constructor
  · obtain ⟨r, hr, hn, _, hc, _⟩ := (extractTracking_link
        ⟨fun _ => ⟨"Track your parcel".toList, [],
          ["https://ups.com/tracking/1Z9999999999999999".toList,
            "https://usps.com/tracking/9400111122223333".toList], []⟩, .error "load"⟩
        "Shipped".toList "<a>".toList "https://ups.com/tracking/1Z9999999999999999".toList
        ["https://usps.com/tracking/9400111122223333".toList]
        (by decide) (by decide) (by decide) rfl).1 "9999999999999999".toList
      ((reMatch_longDigitRun 10 _ _).mp (by decide))
    exact ⟨r, hr, hn, hc (fun h => absurd ((includes_contains _ _).mpr h) (by decide))
      ((includes_contains _ _).mp (by decide))⟩
  · exact (extractTracking_link
        ⟨fun _ => ⟨"Track your parcel".toList, [],
          ["https://ups.com/tracking/help".toList,
            "https://ups.com/tracking/1Z9999999999999999".toList], []⟩, .error "load"⟩
        "Shipped".toList "<a>".toList "https://ups.com/tracking/help".toList
        ["https://ups.com/tracking/1Z9999999999999999".toList]
        (by decide) (by decide) (by decide) rfl).2.1
      ((reMatch_longDigitRun_none 10 _).mp (by decide))


/-- C17 as stated fails: the word `Dear` may occur more than once. The body
text `Dear John and Dear Jane Doe,` holds `Dear`, a blank, the run `Jane Doe`
and a comma, but the pattern matches at the first `Dear` and the result is
`John and Dear Jane Doe`. -/
theorem dearName_later_dear_missed :
    ¬ (∀ (ch : Cheerio) (subject : JsValue) (body pre after run : Str), body ≠ [] →
        ((ch.load body).billingSections = [] ∨
          reMatch billingPattern (selectionText (ch.load body).billingSections) = none) →
        (ch.load body).bodyText = pre ++ "Dear".toList ++ after →
        NameAfterDear after run →
        extractCustomerNameFromConfirmationEmail ch (some ⟨subject, .str body⟩)
          = some (trim run)) := by
  intro h
  have h1 := h ⟨fun b => ⟨b, [], [], []⟩, .error "load"⟩ (.str "Order".toList)
    "Dear John and Dear Jane Doe,".toList "Dear John and ".toList " Jane Doe,".toList
    "Jane Doe".toList (by decide) (Or.inl rfl) (by decide)
    ⟨" ".toList, [], by decide, by decide, by decide, by decide, by decide⟩
  have h2 : extractCustomerNameFromConfirmationEmail ⟨fun b => ⟨b, [], [], []⟩, .error "load"⟩
      (some ⟨.str "Order".toList, .str "Dear John and Dear Jane Doe,".toList⟩)
      = some "John and Dear Jane Doe".toList := by decide
  rw [h2] at h1
  exact absurd h1 (by decide)

/-- C17, amended. For every confirmation document with a non-empty body in
which the billing step yields no name (there is no billing section, or the
billing pattern matches nowhere in it, or the group it captures is blank),
and whose body plain text has, after the leftmost occurrence of `Dear`, one
or more whitespace characters, a run of ASCII letters and whitespace holding
at least one letter, and then a comma,
`extractCustomerNameFromConfirmationEmail` returns that run with surrounding
whitespace removed. -/
theorem extractCustomerName_dear (ch : Cheerio) (subject : JsValue)
    (body pre after run : Str) (hbody : body ≠ [])
    (hbill : truthyStr (billingStep (ch.load body)) = false)
    (htext : (ch.load body).bodyText = pre ++ "Dear".toList ++ after)
    (hname : NameAfterDear after run)
    (hleft : ∀ pre' after', (ch.load body).bodyText = pre' ++ "Dear".toList ++ after' →
      pre.length ≤ pre'.length) :
    extractCustomerNameFromConfirmationEmail ch (some ⟨subject, .str body⟩) = some (trim run) := by
  have hm := reMatch_dear _ pre after run htext hname hleft
  obtain ⟨x, hx, hxl⟩ := hname.choose_spec.choose_spec.2.2.2.2
  have hxs := not_isSpace_of_isLetter x hxl
  have hcap : run.dropWhile isSpace ≠ [] := by
    intro h0
    have := mem_dropWhile_of_not isSpace run x hx hxs
    rw [h0] at this
    simp at this
  have htrim : trim run ≠ [] := trim_ne_nil run x hx hxs
  have hb : truthyStr (billingStep (ch.load body)) = false := hbill
  have hd : trimmedGroup (reMatch dearPattern (ch.load body).bodyText) = some (trim run) := by
    simp only [hm, trimmedGroup, (truthyStr_iff _).mpr hcap, if_true, Option.map_some',
      trim_dropWhile]
  have hsteps := (customerNameSteps_noBilling (ch.load body) hb).1
    (by rw [hd]; exact (truthyStr_iff _).mpr htrim)
  rw [extractCustomerName_eq ch subject body hbody, hsteps, hd,
    if_pos ((truthyStr_iff _).mpr htrim)]

/-- The witness of amended C17: the billing section holds the label followed
by a line break and `123 Main St`, so that the billing pattern matches with
a blank group, and the body text holds `Dear Jane Doe,`. -/
theorem extractCustomerName_dear_witness :
    extractCustomerNameFromConfirmationEmail
        ⟨fun _ => ⟨"Hello. Dear Jane Doe, thank you for your order".toList, [], [],
          ["Billing Address\n123 Main St".toList]⟩, .error "load"⟩
        (some ⟨.str "Order Confirmation".toList, .str "<html>".toList⟩)
      = some "Jane Doe".toList :=
  (extractCustomerName_dear
      ⟨fun _ => ⟨"Hello. Dear Jane Doe, thank you for your order".toList, [], [],
        ["Billing Address\n123 Main St".toList]⟩, .error "load"⟩
      (.str "Order Confirmation".toList) "<html>".toList
      "Hello. ".toList " Jane Doe, thank you for your order".toList "Jane Doe".toList
      (by decide) (by decide) (by decide)
      ⟨" ".toList, " thank you for your order".toList, by decide, by decide, by decide,
        by decide, by decide⟩
      (literal_leftmost_of_none "Dear".toList _ 7 (by decide))).trans (by decide)


/-- C18. For every confirmation document with a non-empty body in which the
billing step yields no name: when the `Dear <Name>,` pattern gives a
non-empty name the result is that name, whatever `Thank you, <Name>` matches
and wherever the two phrases stand in the text; the `Thank you,` name is the
result only when `Dear` gives no non-empty name; and the result is null when
neither gives one. -/
theorem extractCustomerName_dear_first (ch : Cheerio) (subject : JsValue) (body : Str)
    (hbody : body ≠ []) (hb : truthyStr (billingStep (ch.load body)) = false) :
    (truthyStr (trimmedGroup (reMatch dearPattern (ch.load body).bodyText)) = true →
      extractCustomerNameFromConfirmationEmail ch (some ⟨subject, .str body⟩)
        = trimmedGroup (reMatch dearPattern (ch.load body).bodyText)) ∧
    (truthyStr (trimmedGroup (reMatch dearPattern (ch.load body).bodyText)) = false →
      truthyStr (trimmedGroup (reMatch thankYouPattern (ch.load body).bodyText)) = true →
      extractCustomerNameFromConfirmationEmail ch (some ⟨subject, .str body⟩)
        = trimmedGroup (reMatch thankYouPattern (ch.load body).bodyText)) ∧
    (truthyStr (trimmedGroup (reMatch dearPattern (ch.load body).bodyText)) = false →
      truthyStr (trimmedGroup (reMatch thankYouPattern (ch.load body).bodyText)) = false →
      extractCustomerNameFromConfirmationEmail ch (some ⟨subject, .str body⟩) = none) :=
  customerName_chain ch subject body hbody hb

/-- The witness of C18: the text has `Thank you, Bob` before `Dear Jane Doe,`
and the result is the name from `Dear`. -/
theorem extractCustomerName_dear_first_witness :
    extractCustomerNameFromConfirmationEmail ⟨fun b => ⟨b, [], [], []⟩, .error "load"⟩
        (some ⟨.str "Order Confirmation".toList,
          .str "Thank you, Bob. Dear Jane Doe, your order is confirmed".toList⟩)
      = some "Jane Doe".toList :=
  ((extractCustomerName_dear_first ⟨fun b => ⟨b, [], [], []⟩, .error "load"⟩
      (.str "Order Confirmation".toList)
      "Thank you, Bob. Dear Jane Doe, your order is confirmed".toList (by decide)
      (by decide)).1 (by decide)).trans (by decide)

/-- C19. Every non-null result of `extractCustomerNameFromConfirmationEmail`
is a non-empty text made of ASCII letters and whitespace only, whose first
and last characters are letters (no leading and no trailing whitespace). A
capture that trims to the empty text is not returned: when the billing
capture trims to empty the result is the non-empty name of `Dear`, and when
the `Dear` capture trims to empty it is the non-empty name of `Thank you,`. -/
theorem customerName_wellFormed (ch : Cheerio) :
    (∀ (e : Option EmailContent) (r : Str),
      extractCustomerNameFromConfirmationEmail ch e = some r →
      r ≠ [] ∧ (∀ c ∈ r, isLetter c = true ∨ isSpace c = true) ∧
      (∀ c ∈ r.head?, isLetter c = true) ∧ (∀ c ∈ r.getLast?, isLetter c = true)) ∧
    (∀ (subject : JsValue) (body : Str), body ≠ [] →
      (billingStep (ch.load body) = some [] →
        truthyStr (trimmedGroup (reMatch dearPattern (ch.load body).bodyText)) = true →
        extractCustomerNameFromConfirmationEmail ch (some ⟨subject, .str body⟩)
          = trimmedGroup (reMatch dearPattern (ch.load body).bodyText)) ∧
      (truthyStr (billingStep (ch.load body)) = false →
        trimmedGroup (reMatch dearPattern (ch.load body).bodyText) = some [] →
        truthyStr (trimmedGroup (reMatch thankYouPattern (ch.load body).bodyText)) = true →
        extractCustomerNameFromConfirmationEmail ch (some ⟨subject, .str body⟩)
          = trimmedGroup (reMatch thankYouPattern (ch.load body).bodyText))) := by
  constructor
  · intro e r h
    obtain ⟨dom, hsteps, hne⟩ := extractCustomerName_some ch e r h
    obtain ⟨cap, rfl, hcap⟩ := customerNameSteps_some dom r hsteps hne
    have hall : ∀ c ∈ trim cap, isNameChar c = true :=
      fun c hc => hcap c (mem_of_mem_trim cap c hc)
    have hletter : ∀ c, isNameChar c = true → isSpace c = false → isLetter c = true := by
      intro c h1 h2
      simpa [isNameChar, h2] using h1
    refine ⟨hne, ?_, ?_, ?_⟩
    · intro c hc
      have := hall c hc
      simpa [isNameChar] using this
    · intro c hc
      exact hletter c (hall c (List.mem_of_mem_head? hc)) (trim_head? cap c hc)
    · intro c hc
      exact hletter c (hall c (List.mem_of_mem_getLast? hc)) (trim_getLast? cap c hc)
  · intro subject body hbody
    constructor
    · intro hb hd
      have hbf : truthyStr (billingStep (ch.load body)) = false := by rw [hb]; rfl
      exact (customerName_chain ch subject body hbody hbf).1 hd
    · intro hbf hd ht
      have hdf : truthyStr (trimmedGroup (reMatch dearPattern (ch.load body).bodyText))
          = false := by rw [hd]; rfl
      exact (customerName_chain ch subject body hbody hbf).2.1 hdf ht

/-- The witness of C19: the billing capture is one blank, which trims to
empty, and the result is the trimmed name of `Dear`. -/
theorem customerName_wellFormed_witness :
    extractCustomerNameFromConfirmationEmail
        ⟨fun _ => ⟨"Dear  Jane Doe , hello".toList, [], [],
          ["Billing Address 1 Main St".toList]⟩, .error "load"⟩
        (some ⟨.str "Order".toList, .str "<div>".toList⟩) = some "Jane Doe".toList ∧
    ("Jane Doe".toList ≠ [] ∧
      (∀ c ∈ "Jane Doe".toList, isLetter c = true ∨ isSpace c = true) ∧
      (∀ c ∈ "Jane Doe".toList.head?, isLetter c = true) ∧
      (∀ c ∈ "Jane Doe".toList.getLast?, isLetter c = true)) :=
  ⟨by decide,
    (customerName_wellFormed
      ⟨fun _ => ⟨"Dear  Jane Doe , hello".toList, [], [],
        ["Billing Address 1 Main St".toList]⟩, .error "load"⟩).1
      (some ⟨.str "Order".toList, .str "<div>".toList⟩) "Jane Doe".toList (by decide)⟩


/-- C24. A run of `extractOrderNumberFromTrackingEmail` goes through the steps
of the method on the state made of the document and of the log. No step
changes the document: the document of the state after a run is the one
before it, subject and body. No step reads the log: the value returned is
the one the extractor gives on the document. So a second run, on the state
that the first run has left, returns the same value as the first and leaves
the document unchanged as well, while the log grows by the lines of each run. -/
theorem extractOrderNumber_idempotent (ch : Cheerio) (st : RunState) :
    (orderNumberRun ch st).2.document = st.document ∧
    (orderNumberRun ch (orderNumberRun ch st).2).1 = (orderNumberRun ch st).1 ∧
    (orderNumberRun ch (orderNumberRun ch st).2).2.document = st.document ∧
    (orderNumberRun ch st).1 = extractOrderNumberFromTrackingEmail ch st.document ∧
    (∀ log, (orderNumberRun ch ⟨st.document, log⟩).1 = (orderNumberRun ch st).1) := by
  have h1 := orderNumberRun_eq ch st
  have h2 := orderNumberRun_eq ch (orderNumberRun ch st).2
  refine ⟨h1.2, ?_, ?_, h1.1, ?_⟩
  · rw [h2.1, h1.2, h1.1]
  · rw [h2.2, h1.2]
  · intro log
    rw [(orderNumberRun_eq ch ⟨st.document, log⟩).1, h1.1]

/-- The witness of C24: two runs on a tracking email; the second starts with
the line logged by the first and returns the same number, `12345`. -/
theorem extractOrderNumber_idempotent_witness :
    (orderNumberRun ⟨fun b => ⟨b, [], [], []⟩, .error "load"⟩
        (orderNumberRun ⟨fun b => ⟨b, [], [], []⟩, .error "load"⟩
          ⟨some ⟨.str "Order Updated (#12345)".toList, .str "<p>shipped</p>".toList⟩, []⟩).2).1
      = some "12345".toList ∧
    (orderNumberRun ⟨fun b => ⟨b, [], [], []⟩, .error "load"⟩
        ⟨some ⟨.str "Order Updated (#12345)".toList, .str "<p>shipped</p>".toList⟩, []⟩).2.log
      = [⟨"info".toList, "Extracted order number 12345 from subject".toList⟩] :=
  ⟨((extractOrderNumber_idempotent ⟨fun b => ⟨b, [], [], []⟩, .error "load"⟩
      ⟨some ⟨.str "Order Updated (#12345)".toList, .str "<p>shipped</p>".toList⟩, []⟩).2.1).trans
      (by decide), by decide⟩


/-- C25 fails on the code. The group `[A-Za-z\s]+` of the billing pattern
takes line breaks as well as blanks, so it runs over the lines after the
name until a character that is neither a letter nor whitespace: for the
billing block `Billing Address`, `John Smith`, `Apt Four`, `123 Main St` the
method returns `John Smith`, a line break and `Apt Four`, not `John Smith`. -/
theorem billingName_runs_over_lines :
    extractCustomerNameFromConfirmationEmail
      ⟨fun _ => ⟨"Order Confirmation".toList, [], [],
        ["\nBilling Address\nJohn Smith\nApt Four\n123 Main St\n".toList]⟩, .error "load"⟩
      (some ⟨.str "Order Confirmation".toList, .str "<html>".toList⟩)
      = some "John Smith\nApt Four".toList := by
  decide

/-- C30. The third USPS pattern never decides. Every text in which it finds
a match is a text in which the second pattern, tried before it, finds one;
so the loop over the three patterns gives what the loop over the first two
gives, and for every document `extractTrackingNumberFromEmail` returns what
the same method over the list of the first two patterns returns. -/
theorem uspsThird_never_decides (ch : Cheerio) (e : Option EmailContent) :
    (∀ text r, reMatch (uspsPatterns.getD 2 []) text = some r →
      ∃ r2, reMatch (uspsPatterns.getD 1 []) text = some r2) ∧
    (∀ text, firstMatch text uspsPatterns = firstMatch text uspsFirstTwo) ∧
    uspsFirstTwo = [uspsPatterns.getD 0 [], uspsPatterns.getD 1 []] ∧
    extractTrackingOver uspsPatterns ch e = extractTrackingNumberFromEmail ch e ∧
    extractTrackingNumberFromEmail ch e = extractTrackingOver uspsFirstTwo ch e := by
  refine ⟨?_, firstMatch_uspsFirstTwo, rfl, rfl, ?_⟩
  · intro text r h
    cases h2 : reMatch (uspsPatterns.getD 1 []) text with
    | some r2 => exact ⟨r2, rfl⟩
    | none =>
      have h3 := uspsThird_none_of_second text h2
      have h' : reMatch (litI "tracking" ++ [plus isSpace] ++ litI "number" ++ [star isSpace] ++
          litI ":" ++ [star isSpace] ++ [group isDigit 1 none]) text = some r := h
      rw [h3] at h'
      exact absurd h' (by simp)
  · unfold extractTrackingNumberFromEmail extractTrackingOver trackingTryOver trackingTry
    simp only [trackingStepsOver_firstTwo]

/-- The witness of C30: a text in which the third pattern finds the number
and the second finds it first; both versions return it with the carrier USPS. -/
theorem uspsThird_never_decides_witness :
    reMatch (uspsPatterns.getD 2 []) "Your tracking number: 9400111".toList
      = some "9400111".toList ∧
    extractTrackingOver uspsFirstTwo ⟨fun b => ⟨b, [], [], []⟩, .error "load"⟩
      (some ⟨.str "Shipped".toList, .str "Your tracking number: 9400111".toList⟩)
      = some ⟨none, some "9400111".toList, some "USPS".toList⟩ :=
  ⟨by decide, ((uspsThird_never_decides ⟨fun b => ⟨b, [], [], []⟩, .error "load"⟩
    (some ⟨.str "Shipped".toList, .str "Your tracking number: 9400111".toList⟩)).2.2.2.2).symm.trans
    (by decide)⟩

end ParserService

namespace GmailService

open ParserService (Str)

/-! ## The header mapping -/

theorem getOwn_setOwn (o : Obj) (k : Str) (v : Option Str) (q : Str) :
    getOwn (setOwn o k v) q = if k = q then v else getOwn o q := by
  induction o with
  | nil => simp [setOwn, getOwn]
  | cons kv rest ih =>
    obtain ⟨k0, v0⟩ := kv
    by_cases h0 : k0 = k
    · subst h0
      by_cases hq : k0 = q
      · simp [setOwn, getOwn, hq]
      · simp [setOwn, getOwn, hq]
    · by_cases hq : k0 = q
      · subst hq
        have hkq : k ≠ k0 := fun h => h0 h.symm
        simp [setOwn, getOwn, h0, hkq]
      · simp [setOwn, getOwn, h0, hq, ih]

theorem getOwn_assign (o : Obj) (k : Str) (v : Option Str) (q : Str) :
    getOwn (assign o k v) q =
      if k = "__proto__".toList then getOwn o q
      else if k = q then v else getOwn o q := by
  unfold assign
  by_cases hk : k = "__proto__".toList
  · rw [if_pos hk, if_pos hk]
  · rw [if_neg hk, if_neg hk, getOwn_setOwn]

/-- The loop raises exactly when some entry has no name, and else builds the
mapping entry by entry. -/
theorem buildHeaders_eq (node : Node) (hs : List Header) (o : Obj) :
    buildHeaders node hs o =
      if namelessHeader hs then .error "TypeError"
      else .ok (hs.foldl (fun o h => assign o (node.toLowerCase (h.name.getD [])) h.value) o) := by
  induction hs generalizing o with
  | nil => rfl
  | cons h rest ih =>
    obtain ⟨name, value⟩ := h
    cases name with
    | none => simp [buildHeaders, headerStep, namelessHeader]
    | some n =>
      simp only [buildHeaders, headerStep, ih, namelessHeader, List.any_cons, Option.isNone_some,
        Bool.false_or, List.foldl_cons, Option.getD_some]

/-- Headers of other names leave the value of a key unchanged. -/
theorem getOwn_foldl_other (node : Node) (hs : List Header) (o : Obj) (q : Str)
    (h : ∀ x ∈ hs, node.toLowerCase (x.name.getD []) ≠ q) :
    getOwn (hs.foldl (fun o x => assign o (node.toLowerCase (x.name.getD [])) x.value) o) q
      = getOwn o q := by
  induction hs generalizing o with
  | nil => rfl
  | cons x xs ih =>
    simp only [List.foldl_cons]
    rw [ih _ (fun y hy => h y (by simp [hy])), getOwn_assign]
    have hx := h x (by simp)
    by_cases hp : node.toLowerCase (x.name.getD []) = "__proto__".toList
    · rw [if_pos hp]
    · rw [if_neg hp, if_neg hx]

/-- No header changes the key `__proto__`. -/
theorem getOwn_foldl_proto (node : Node) (hs : List Header) (o : Obj) :
    getOwn (hs.foldl (fun o x => assign o (node.toLowerCase (x.name.getD [])) x.value) o)
      "__proto__".toList = getOwn o "__proto__".toList := by
  induction hs generalizing o with
  | nil => rfl
  | cons x xs ih =>
    simp only [List.foldl_cons]
    rw [ih, getOwn_assign]
    by_cases hp : node.toLowerCase (x.name.getD []) = "__proto__".toList
    · rw [if_pos hp]
    · rw [if_neg hp, if_neg hp]

/-- The value of a key is that of the last header of that lowercased name. -/
theorem getOwn_headersOf_last (node : Node) (pre post : List Header) (h : Header)
    (hpost : ∀ x ∈ post, node.toLowerCase (x.name.getD []) ≠ node.toLowerCase (h.name.getD []))
    (hp : node.toLowerCase (h.name.getD []) ≠ "__proto__".toList) :
    getOwn (headersOf node (pre ++ h :: post)) (node.toLowerCase (h.name.getD [])) = h.value := by
  unfold headersOf
  rw [List.foldl_append, List.foldl_cons, getOwn_foldl_other node post _ _ hpost, getOwn_assign,
    if_neg hp, if_pos rfl]

/-- The mapping never holds the key `__proto__`. -/
theorem getOwn_headersOf_proto (node : Node) (hs : List Header) :
    getOwn (headersOf node hs) "__proto__".toList = none := by
  unfold headersOf
  rw [getOwn_foldl_proto]
  rfl

/-! ## The body selection -/

/-- The call of `find` raises exactly when a null entry stands before the
first part of the type, and else gives that part. -/
theorem findPart_eq (mime : Str) (items : List (Option Part)) :
    findPart mime items =
      if nullBefore mime items then .error "TypeError" else .ok (firstPart mime items) := by
  induction items with
  | nil => rfl
  | cons item rest ih =>
    cases item with
    | none => rfl
    | some part =>
      simp only [findPart, nullBefore, firstPart]
      by_cases hm : (part.mimeType == some mime) = true
      · simp [hm]
      · simp [hm, ih]

/-- The expression `part && part.body.data` on the first part of a type. -/
theorem foundPartData_eq (mime : Str) (items : List (Option Part)) :
    foundPartData (firstPart mime items) =
      if firstPartLacksBody mime items then .error "TypeError"
      else .ok (partData mime items) := by
  unfold firstPartLacksBody partData
  cases firstPart mime items with
  | none => rfl
  | some part =>
    obtain ⟨m, body⟩ := part
    cases body with
    | none => rfl
    | some b => rfl

/-- The decoding of truthy data raises exactly when the data is rejected. -/
theorem decodeData_eq (node : Node) (d : BodyData) (h : truthyData d = true) :
    decodeData node d = if rejected d then .error "TypeError" else .ok (bodyOf node d) := by
  cases d with
  | absent => simp [truthyData] at h
  | text s => rfl
  | other decoded =>
    cases decoded with
    | none => rfl
    | some t => rfl

/-- Data that is not truthy is not rejected. -/
theorem rejected_of_falsy (d : BodyData) (h : truthyData d = false) : rejected d = false := by
  cases d with
  | absent => rfl
  | text s => rfl
  | other decoded => simp [truthyData] at h

/-- The branch on an array of parts raises exactly when `partsRaise` says
so, and else gives the body of the data of the html part when it is truthy,
else that of the plain text part when it is truthy, else the empty text. -/
theorem bodyFromParts_eq (node : Node) (items : List (Option Part)) :
    bodyFromParts node items =
      if partsRaise items then .error "TypeError"
      else .ok (
        if truthyData (partData "text/html".toList items) then
          bodyOf node (partData "text/html".toList items)
        else if truthyData (partData "text/plain".toList items) then
          bodyOf node (partData "text/plain".toList items)
        else []) := by
  unfold bodyFromParts partsRaise
  rw [findPart_eq, findPart_eq]
  generalize hn1 : nullBefore "text/html".toList items = n1
  generalize hn2 : nullBefore "text/plain".toList items = n2
  cases n1 with
  | true => rfl
  | false =>
    cases n2 with
    | true => rfl
    | false =>
      simp only [Bool.false_eq_true, if_false, bind, Except.bind, Bool.false_or]
      rw [foundPartData_eq, foundPartData_eq]
      generalize hl1 : firstPartLacksBody "text/html".toList items = l1
      generalize hl2 : firstPartLacksBody "text/plain".toList items = l2
      generalize hd1 : partData "text/html".toList items = d1
      generalize hd2 : partData "text/plain".toList items = d2
      cases l1 with
      | true => rfl
      | false =>
        simp only [Bool.false_eq_true, if_false, Bool.false_or]
        cases ht1 : truthyData d1 with
        | true =>
          simp only [if_true, decodeData_eq node d1 ht1, Bool.not_true, Bool.false_and,
            Bool.or_false]
        | false =>
          simp only [Bool.false_eq_true, if_false, rejected_of_falsy d1 ht1, Bool.false_or,
            Bool.not_false, Bool.true_and]
          cases l2 with
          | true => rfl
          | false =>
            simp only [Bool.false_eq_true, if_false, Bool.false_or]
            cases ht2 : truthyData d2 with
            | true => simp only [if_true, decodeData_eq node d2 ht2]
            | false =>
              simp only [Bool.false_eq_true, if_false, rejected_of_falsy d2 ht2]
              rfl

/-- The statement that sets the body raises exactly when `selectionRaises`
says so, and else gives the body of the selected data. -/
theorem selectBody_eq (node : Node) (b : MessageBody) (parts : Parts) :
    selectBody node b parts =
      if selectionRaises b parts then .error "TypeError"
      else .ok (bodyOf node (selectedData b parts)) := by
  obtain ⟨data⟩ := b
  unfold selectBody selectionRaises selectedData
  cases ht : truthyData data with
  | true =>
    simp only [if_true, decodeData_eq node data ht, Bool.not_true, Bool.false_and, Bool.or_false]
  | false =>
    simp only [Bool.false_eq_true, if_false, rejected_of_falsy data ht, Bool.false_or,
      Bool.not_false, Bool.true_and]
    cases parts with
    | absent => rfl
    | other => rfl
    | array items =>
      simp only [bodyFromParts_eq]
      generalize partsRaise items = r
      generalize partData "text/html".toList items = d1
      generalize partData "text/plain".toList items = d2
      cases r with
      | true => rfl
      | false =>
        cases truthyData d1 <;> cases truthyData d2 <;> rfl

/-- The result of `getEmailContent` on an envelope whose payload, header
array and payload body are present. -/
theorem getEmailContent_eq (node : Node) (email : Email) (p : Payload) (hs : List Header)
    (b : MessageBody) (hp : email.payload = some p) (hh : p.headers = some hs)
    (hb : p.body = some b) :
    getEmailContent node (some email) =
      if namelessHeader hs || selectionRaises b p.parts then none
      else some ⟨email.id, email.threadId,
        orEmpty (getOwn (headersOf node hs) "subject".toList),
        bodyOf node (selectedData b p.parts), headersOf node hs,
        getOwn (headersOf node hs) "date".toList,
        getOwn (headersOf node hs) "from".toList⟩ := by
  unfold getEmailContent getEmailContentTry headersOf
  simp only [hp, hh, hb, buildHeaders_eq, selectBody_eq, bind, Except.bind, pure, Except.pure]
  generalize namelessHeader hs = n
  generalize selectionRaises b p.parts = r
  cases n <;> cases r <;> rfl

/-- The result of `getEmailContent` on an envelope without payload, without
header array or without payload body. -/
theorem getEmailContent_missing (node : Node) (email : Email)
    (h : missingObject email = true) : getEmailContent node (some email) = none := by
  unfold missingObject at h
  unfold getEmailContent getEmailContentTry
  cases hp : email.payload with
  | none => simp [hp, bind, Except.bind]
  | some p =>
    rw [hp] at h
    cases hh : p.headers with
    | none => simp [hp, hh, bind, Except.bind, pure, Except.pure]
    | some hs =>
      cases hb : p.body with
      | none =>
        simp only [hp, hh, hb, buildHeaders_eq, bind, Except.bind, pure, Except.pure]
        cases namelessHeader hs <;> rfl
      | some b => simp [hh, hb] at h

/-- The method raises nothing: its `catch` handler returns null. -/
theorem getEmailContentMethod_eq (node : Node) (email : Option Email) :
    getEmailContentMethod node email = .ok (getEmailContent node email) := by
  unfold getEmailContentMethod getEmailContent
  cases getEmailContentTry node email <;> rfl

/-- A document returned by `getEmailContent` carries the mapping built from
the header array, and the subject read from it. -/
theorem getEmailContent_some (node : Node) (email : Email) (doc : EmailDocument)
    (h : getEmailContent node (some email) = some doc) :
    ∃ p hs, email.payload = some p ∧ p.headers = some hs ∧ namelessHeader hs = false ∧
      doc.headers = headersOf node hs ∧
      doc.subject = orEmpty (getOwn doc.headers "subject".toList) := by
  cases hm : missingObject email with
  | true =>
    rw [getEmailContent_missing node email hm] at h
    cases h
  | false =>
    unfold missingObject at hm
    cases hp : email.payload with
    | none => simp [hp] at hm
    | some p =>
      rw [hp] at hm
      cases hh : p.headers with
      | none => simp [hh] at hm
      | some hs =>
        cases hb : p.body with
        | none => simp [hh, hb] at hm
        | some b =>
          rw [getEmailContent_eq node email p hs b hp hh hb] at h
          cases hn : namelessHeader hs with
          | true => simp [hn] at h
          | false =>
            refine ⟨p, hs, rfl, hh, hn, ?_⟩
            cases hr : selectionRaises b p.parts with
            | true => simp [hn, hr] at h
            | false =>
              simp only [hn, hr, Bool.or_self, Bool.false_eq_true, if_false,
                Option.some.injEq] at h
              subst h
              exact ⟨rfl, rfl⟩

/-! ## The decoder of the platform -/

/-- A first byte that gives no character opens a sequence. -/
theorem utf8First_open (b : Nat) (st : Utf8State) (h : utf8First b = (none, st)) :
    st.needed ≠ 0 := by
  unfold utf8First at h
  split at h
  · cases h
  · split at h
    · cases h; exact fun h0 => by cases h0
    · split at h
      · cases h; exact fun h0 => by cases h0
      · split at h
        · cases h; exact fun h0 => by cases h0
        · cases h

/-- The decoding gives at least one character as soon as there is a byte to
read or a sequence to end. -/
theorem utf8Decode_ne_nil (bytes : List Nat) (st : Utf8State)
    (h : bytes ≠ [] ∨ st.needed ≠ 0) : utf8Decode bytes st ≠ [] := by
  induction bytes generalizing st with
  | nil =>
    rcases h with h | h
    · exact absurd rfl h
    · simp [utf8Decode, h]
  | cons b rest ih =>
    unfold utf8Decode
    by_cases h0 : st.needed = 0
    · rw [if_pos h0]
      cases hf : utf8First b with
      | mk c st1 =>
        cases c with
        | some c => simp
        | none => exact ih st1 (Or.inr (utf8First_open b st1 hf))
    · rw [if_neg h0]
      by_cases hc : st.lower ≤ b ∧ b ≤ st.upper
      · rw [if_pos hc]
        by_cases h1 : st.needed = 1
        · rw [if_pos h1]; simp
        · rw [if_neg h1]
          exact ih _ (Or.inr (by show st.needed - 1 ≠ 0; omega))
      · rw [if_neg hc]
        cases hf : utf8First b with
        | mk c st1 =>
          cases c with
          | some c => simp
          | none => simp

/-- Two sextets or more give at least one byte. -/
theorem sextetsToBytes_ne_nil (l : List Nat) (h : 2 ≤ l.length) : sextetsToBytes l ≠ [] := by
  match l, h with
  | [a, b], _ => simp [sextetsToBytes]
  | [a, b, c], _ => simp [sextetsToBytes]
  | a :: b :: c :: d :: rest, _ => simp [sextetsToBytes]

/-- The decoder gives a text that is not empty as soon as the data holds two
characters that it reads. -/
theorem nodeBase64_ne_nil (data : Str) (h : 2 ≤ (readableSextets data).length) :
    nodeBase64 data ≠ [] :=
  utf8Decode_ne_nil _ _ (Or.inl (sextetsToBytes_ne_nil _ h))

/-- A character of neither alphabet, other than `=`, is passed over. -/
theorem readableSextets_skip (pre post : Str) (c : Char) (hc : unbase64 c = none)
    (he : c ≠ '=') :
    readableSextets (pre ++ c :: post) = readableSextets (pre ++ post) := by
  unfold readableSextets
  induction pre with
  | nil =>
    have h1 : (c != '=') = true := by simp [he]
    simp only [List.nil_append, List.takeWhile_cons, h1, if_true, List.filterMap_cons, hc]
  | cons x xs ih =>
    simp only [List.cons_append, List.takeWhile_cons]
    by_cases hx : (x != '=') = true
    · simp only [hx, if_true, List.filterMap_cons]
      rw [ih]
    · simp only [hx, if_false]
      rfl

/-! ## The claims on the normalizer -/

/-- C20 fails on the code for one header name. The loop means to record
every header, but the mapping is an object literal, and assigning a string
to its key `__proto__` changes nothing: for the header array that holds the
one entry of name `__proto__` and value `x`, the mapping of the document has
no such key. -/
theorem protoHeader_not_recorded :
    ¬ (∀ (node : Node) (email : Email) (p : Payload) (hs pre post : List Header) (h : Header)
        (name : Str) (doc : EmailDocument), email.payload = some p → p.headers = some hs →
        getEmailContent node (some email) = some doc → hs = pre ++ h :: post →
        h.name = some name →
        (∀ x ∈ post, ∀ n, x.name = some n → node.toLowerCase n ≠ node.toLowerCase name) →
        getOwn doc.headers (node.toLowerCase name) = h.value) := by
  intro hall
  have h1 := hall exampleNode
    ⟨some "m1".toList, some "t1".toList,
      some ⟨some [⟨some "__proto__".toList, some "x".toList⟩], some ⟨.absent⟩, .absent⟩⟩
    ⟨some [⟨some "__proto__".toList, some "x".toList⟩], some ⟨.absent⟩, .absent⟩
    [⟨some "__proto__".toList, some "x".toList⟩] [] [] ⟨some "__proto__".toList, some "x".toList⟩
    "__proto__".toList
    ⟨some "m1".toList, some "t1".toList, [], [], [], none, none⟩
    rfl rfl rfl rfl rfl (by simp)
  exact absurd h1 (by decide)

/-- The mapping of the headers, for every name but `__proto__`. For every
header array whose entries all have a name, the mapping built by
`getEmailContent` has as keys the lowercased header names other than
`__proto__`; the value of such a name is the value of the last header whose
lowercased name it is; a header whose lowercased name is `__proto__` is not
recorded; and every document returned for an envelope with that header array
carries this mapping, with as subject the value mapped to `subject`, or the
empty text when there is none. -/
theorem headers_mapping (node : Node) (hs : List Header) :
    (∀ pre h post, hs = pre ++ h :: post →
      (∀ x ∈ post, node.toLowerCase (x.name.getD []) ≠ node.toLowerCase (h.name.getD [])) →
      node.toLowerCase (h.name.getD []) ≠ "__proto__".toList →
      getOwn (headersOf node hs) (node.toLowerCase (h.name.getD [])) = h.value) ∧
    getOwn (headersOf node hs) "__proto__".toList = none ∧
    (∀ (email : Email) (p : Payload) (doc : EmailDocument), email.payload = some p →
      p.headers = some hs → getEmailContent node (some email) = some doc →
      doc.headers = headersOf node hs ∧
      (∀ c cs, getOwn doc.headers "subject".toList = some (c :: cs) → doc.subject = c :: cs) ∧
      (getOwn doc.headers "subject".toList = none → doc.subject = [])) := by
  refine ⟨?_, getOwn_headersOf_proto node hs, ?_⟩
  · intro pre h post hsplit hpost hp
    rw [hsplit]
    exact getOwn_headersOf_last node pre post h hpost hp
  · intro email p doc hp hh hdoc
    obtain ⟨p', hs', hp', hh', _, hheaders, hsubject⟩ := getEmailContent_some node email doc hdoc
    rw [hp] at hp'
    simp only [Option.some.injEq] at hp'
    subst hp'
    rw [hh] at hh'
    simp only [Option.some.injEq] at hh'
    subst hh'
    refine ⟨hheaders, ?_, ?_⟩
    · intro c cs hv
      rw [hsubject, hv]
      rfl
    · intro hnone
      rw [hsubject, hnone]
      rfl

/-- An example of the mapping: the name `Subject` occurs twice, in two letter
cases, and the mapping holds the second value. -/
theorem headers_mapping_example :
    getOwn (headersOf exampleNode
        [⟨some "Subject".toList, some "First".toList⟩,
          ⟨some "From".toList, some "shop@example.com".toList⟩,
          ⟨some "SUBJECT".toList, some "Order Updated (#12345)".toList⟩,
          ⟨some "Date".toList, some "today".toList⟩])
      "subject".toList = some "Order Updated (#12345)".toList := by
  decide

/-- C21 as stated fails: the part that the selection reads may have no body
object. For the payload with an empty header array, a payload body without
data and the one part of type `text/html` without a body object, the claim
gives a document with an empty body; the method returns null. -/
theorem htmlPart_without_body_null :
    ¬ (∀ (node : Node) (email : Email) (p : Payload) (b : MessageBody)
        (items : List (Option Part)), email.payload = some p → p.body = some b →
        truthyData b.data = false → p.parts = .array items →
        ∃ doc, getEmailContent node (some email) = some doc ∧
          doc.body =
            if truthyData (partData "text/html".toList items) then
              bodyOf node (partData "text/html".toList items)
            else if truthyData (partData "text/plain".toList items) then
              bodyOf node (partData "text/plain".toList items)
            else []) := by
  intro h
  obtain ⟨doc, hdoc, _⟩ := h exampleNode
    ⟨some "m1".toList, some "t1".toList,
      some ⟨some [], some ⟨.absent⟩, .array [some ⟨some "text/html".toList, none⟩]⟩⟩
    ⟨some [], some ⟨.absent⟩, .array [some ⟨some "text/html".toList, none⟩]⟩ ⟨.absent⟩
    [some ⟨some "text/html".toList, none⟩] rfl rfl rfl rfl
  have h2 : getEmailContent exampleNode (some ⟨some "m1".toList, some "t1".toList,
      some ⟨some [], some ⟨.absent⟩, .array [some ⟨some "text/html".toList, none⟩]⟩⟩) = none := by
    decide
  rw [h2] at hdoc
  cases hdoc

/-- C21, amended. For every raw envelope with a payload and a payload body
object. When the header array is missing or holds an entry without a name,
the method returns null. Otherwise: when the payload body carries a string
that is not empty, the method returns a document whose body is the decoding
of that string, whatever the parts are (for truthy data that is no string,
the body is the text of its bytes, or the method returns null when the data
is rejected); when the payload body carries no data and the parts are an
array, the method returns null if reading the parts raises an error (a null
entry before the first `text/html` or the first `text/plain` part; a first
`text/html` part without a body object or with data that is rejected; or no
data from the `text/html` part and a first `text/plain` part without a body
object or with data that is rejected), and otherwise a document whose body is
the decoding of the data of the first `text/html` part when that part exists
and has truthy data, otherwise the decoding of the data of the first
`text/plain` part when that part exists and has truthy data, and otherwise
the empty text; when the payload body carries no data and there are no
parts, the body is the empty text, and when the parts are a truthy value
that is no array, the method returns null. -/
theorem getEmailContent_body_selection (node : Node) (email : Email) (p : Payload)
    (b : MessageBody) (hp : email.payload = some p) (hb : p.body = some b) :
    ((p.headers = none ∨ ∃ hs, p.headers = some hs ∧ namelessHeader hs = true) →
      getEmailContent node (some email) = none) ∧
    (∀ hs, p.headers = some hs → namelessHeader hs = false →
      (∀ d, b.data = .text d → d ≠ [] →
        ∃ doc, getEmailContent node (some email) = some doc ∧
          doc.body = node.decodeBase64 d) ∧
      (∀ decoded, b.data = .other (some decoded) →
        ∃ doc, getEmailContent node (some email) = some doc ∧ doc.body = decoded) ∧
      (b.data = .other none → getEmailContent node (some email) = none) ∧
      (∀ items, truthyData b.data = false → p.parts = .array items →
        (partsRaise items = true → getEmailContent node (some email) = none) ∧
        (partsRaise items = false →
          ∃ doc, getEmailContent node (some email) = some doc ∧
            doc.body =
              if truthyData (partData "text/html".toList items) then
                bodyOf node (partData "text/html".toList items)
              else if truthyData (partData "text/plain".toList items) then
                bodyOf node (partData "text/plain".toList items)
              else [])) ∧
      (truthyData b.data = false → p.parts = .absent →
        ∃ doc, getEmailContent node (some email) = some doc ∧ doc.body = []) ∧
      (truthyData b.data = false → p.parts = .other →
        getEmailContent node (some email) = none)) := by
  constructor
  · rintro (hh | ⟨hs, hh, hn⟩)
    · exact getEmailContent_missing node email (by simp [missingObject, hp, hh])
    · rw [getEmailContent_eq node email p hs b hp hh hb, hn]
      rfl
  · intro hs hh hn
    have heq := getEmailContent_eq node email p hs b hp hh hb
    rw [hn] at heq
    refine ⟨?_, ?_, ?_, ?_, ?_, ?_⟩
    · intro d hd hne
      obtain ⟨c, cs, rfl⟩ := List.exists_cons_of_ne_nil hne
      have hr : selectionRaises b p.parts = false := by
        simp [selectionRaises, hd, rejected, truthyData]
      have hsel : selectedData b p.parts = .text (c :: cs) := by
        simp [selectedData, hd, truthyData]
      rw [hr, hsel] at heq
      exact ⟨_, heq, rfl⟩
    · intro decoded hd
      have hr : selectionRaises b p.parts = false := by
        simp [selectionRaises, hd, rejected, truthyData]
      have hsel : selectedData b p.parts = .other (some decoded) := by
        simp [selectedData, hd, truthyData]
      rw [hr, hsel] at heq
      exact ⟨_, heq, rfl⟩
    · intro hd
      have hr : selectionRaises b p.parts = true := by
        simp [selectionRaises, hd, rejected]
      rw [hr] at heq
      exact heq
    · intro items hdata hparts
      have hrej := rejected_of_falsy b.data hdata
      constructor
      · intro hraise
        have hr : selectionRaises b p.parts = true := by
          simp [selectionRaises, hdata, hparts, hraise]
        rw [hr] at heq
        exact heq
      · intro hraise
        have hr : selectionRaises b p.parts = false := by
          simp [selectionRaises, hdata, hparts, hraise, hrej]
        rw [hr] at heq
        refine ⟨_, heq, ?_⟩
        show bodyOf node (selectedData b p.parts) = _
        simp only [selectedData, hdata, hparts, Bool.false_eq_true, if_false]
        generalize partData "text/html".toList items = d1
        generalize partData "text/plain".toList items = d2
        cases truthyData d1 <;> cases truthyData d2 <;> rfl
    · intro hdata hparts
      have hrej := rejected_of_falsy b.data hdata
      have hr : selectionRaises b p.parts = false := by
        simp [selectionRaises, hdata, hparts, hrej]
      rw [hr] at heq
      refine ⟨_, heq, ?_⟩
      show bodyOf node (selectedData b p.parts) = _
      simp only [selectedData, hdata, hparts, Bool.false_eq_true, if_false]
      rfl
    · intro hdata hparts
      have hr : selectionRaises b p.parts = true := by
        simp [selectionRaises, hdata, hparts]
      rw [hr] at heq
      exact heq

/-- The witness of amended C21: the payload body carries no data, the first
part is the plain text and the second the HTML, whose data is taken. -/
theorem getEmailContent_body_selection_witness :
    ∃ doc, getEmailContent exampleNode (some ⟨some "m1".toList, some "t1".toList,
        some ⟨some [], some ⟨.absent⟩,
          .array [some ⟨some "text/plain".toList, some ⟨.text "cGxhaW4=".toList⟩⟩,
            some ⟨some "text/html".toList, some ⟨.text "PGI-aGk8L2I-".toList⟩⟩]⟩⟩) = some doc ∧
      doc.body = "<b>hi</b>".toList :=
  (((getEmailContent_body_selection exampleNode
    ⟨some "m1".toList, some "t1".toList,
      some ⟨some [], some ⟨.absent⟩,
        .array [some ⟨some "text/plain".toList, some ⟨.text "cGxhaW4=".toList⟩⟩,
          some ⟨some "text/html".toList, some ⟨.text "PGI-aGk8L2I-".toList⟩⟩]⟩⟩
    ⟨some [], some ⟨.absent⟩,
      .array [some ⟨some "text/plain".toList, some ⟨.text "cGxhaW4=".toList⟩⟩,
        some ⟨some "text/html".toList, some ⟨.text "PGI-aGk8L2I-".toList⟩⟩]⟩
    ⟨.absent⟩ rfl rfl).2 [] rfl rfl).2.2.2.1
    [some ⟨some "text/plain".toList, some ⟨.text "cGxhaW4=".toList⟩⟩,
      some ⟨some "text/html".toList, some ⟨.text "PGI-aGk8L2I-".toList⟩⟩]
    rfl rfl).2 (by decide)

/-- C22 as stated fails whichever way a part without a body object is
counted. If such a part makes the envelope malformed, an envelope whose
payload body carries data is malformed and still gives a document, the parts
not being read. If it does not, an envelope whose payload body carries no
data and whose `text/html` part has no body object is well formed and gives
null. -/
theorem partWithoutBody_both_ways :
    ¬ (∀ (node : Node) (email : Option Email), getEmailContent node email = none ↔
        email = none ∨
          ∃ e, email = some e ∧ (missingObject e = true ∨ somePartLacksBody e = true)) ∧
    ¬ (∀ (node : Node) (email : Option Email), getEmailContent node email = none ↔
        email = none ∨ ∃ e, email = some e ∧ missingObject e = true) := by
  constructor
  · intro h
    have h1 := (h exampleNode (some ⟨some "m1".toList, some "t1".toList,
      some ⟨some [], some ⟨.text "aGVsbG8=".toList⟩,
        .array [some ⟨some "text/html".toList, none⟩]⟩⟩)).mpr (Or.inr ⟨_, rfl, Or.inr rfl⟩)
    exact absurd h1 (by decide)
  · intro h
    have h1 := (h exampleNode (some ⟨some "m1".toList, some "t1".toList,
      some ⟨some [], some ⟨.absent⟩, .array [some ⟨some "text/html".toList, none⟩]⟩⟩)).mp
        (by decide)
    rcases h1 with h1 | ⟨e, he, hm⟩
    · exact absurd h1 (by simp)
    · simp only [Option.some.injEq] at he
      subst he
      exact absurd hm (by decide)

/-- C22, amended. For every raw envelope, well formed or not, the method
raises no exception: it returns a value, null or a document. It returns null
exactly when reading the envelope runs into an error, that is when the
envelope is null; or the payload, its header array or its body object is
missing; or an entry of the header array is null or has no string as its
name; or setting the body raises: the data to decode is a truthy value that
is no string and that `Buffer.from` rejects, or the payload body carries no
data and the parts are a truthy value that is no array, or an array in which
a null entry stands before the first `text/html` or the first `text/plain`
part or in which the part that the selection reads has no body object. In
every other case, a part without a body object that is not read among them,
it returns a document. -/
theorem getEmailContent_null_iff (node : Node) (email : Option Email) :
    getEmailContentMethod node email = .ok (getEmailContent node email) ∧
    (getEmailContent node email = none ↔
      email = none ∨
        ∃ e, email = some e ∧
          (missingObject e = true ∨
            ∃ p hs b, e.payload = some p ∧ p.headers = some hs ∧ p.body = some b ∧
              (namelessHeader hs = true ∨ selectionRaises b p.parts = true))) ∧
    (getEmailContent node email ≠ none ↔ ∃ doc, getEmailContent node email = some doc) := by
  refine ⟨getEmailContentMethod_eq node email, ?_, ?_⟩
  · cases email with
    | none => exact ⟨fun _ => Or.inl rfl, fun _ => rfl⟩
    | some e =>
      cases hm : missingObject e with
      | true =>
        exact ⟨fun _ => Or.inr ⟨e, rfl, Or.inl hm⟩,
          fun _ => getEmailContent_missing node e hm⟩
      | false =>
        have hm' := hm
        unfold missingObject at hm'
        cases hp : e.payload with
        | none => simp [hp] at hm'
        | some p =>
          rw [hp] at hm'
          cases hh : p.headers with
          | none => simp [hh] at hm'
          | some hs =>
            cases hb : p.body with
            | none => simp [hh, hb] at hm'
            | some b =>
              rw [getEmailContent_eq node e p hs b hp hh hb]
              constructor
              · intro h
                refine Or.inr ⟨e, rfl, Or.inr ⟨p, hs, b, hp, hh, hb, ?_⟩⟩
                cases hn : namelessHeader hs with
                | true => exact Or.inl rfl
                | false =>
                  cases hr : selectionRaises b p.parts with
                  | true => exact Or.inr rfl
                  | false => simp [hn, hr] at h
              · intro h
                rcases h with h | ⟨e', he, h | ⟨p', hs', b', hp', hh', hb', h⟩⟩
                · exact absurd h (by simp)
                · simp only [Option.some.injEq] at he
                  subst he
                  rw [hm] at h
                  exact absurd h (by simp)
                · simp only [Option.some.injEq] at he
                  subst he
                  rw [hp] at hp'
                  simp only [Option.some.injEq] at hp'
                  subst hp'
                  rw [hh] at hh'
                  simp only [Option.some.injEq] at hh'
                  subst hh'
                  rw [hb] at hb'
                  simp only [Option.some.injEq] at hb'
                  subst hb'
                  rcases h with h | h
                  · simp [h]
                  · simp [h]
  · cases getEmailContent node email with
    | none => simp
    | some doc => simp

/-- The witness of amended C22: a header entry without a name, in an
envelope whose payload, header array, payload body and parts are all there;
the method returns null. -/
theorem getEmailContent_null_iff_witness :
    getEmailContent exampleNode (some ⟨some "m1".toList, some "t1".toList,
        some ⟨some [⟨some "Subject".toList, some "Order".toList⟩, ⟨none, some "x".toList⟩],
          some ⟨.text "aGVsbG8=".toList⟩, .absent⟩⟩) = none :=
  (getEmailContent_null_iff exampleNode (some ⟨some "m1".toList, some "t1".toList,
      some ⟨some [⟨some "Subject".toList, some "Order".toList⟩, ⟨none, some "x".toList⟩],
        some ⟨.text "aGVsbG8=".toList⟩, .absent⟩⟩)).2.1.mpr
    (Or.inr ⟨_, rfl, Or.inr ⟨_, _, _, rfl, rfl, rfl, Or.inl rfl⟩⟩)

/-- C23 as stated fails: the data is handed to the decoder without any check
of its validity, and the decoder passes over what it cannot read. The data
`aGVs bG8=`, which holds a blank and is no valid base64url encoding, gives the
body `hello`, not the empty text. -/
theorem invalidData_still_decoded :
    ¬ (∀ (email : Email) (p : Payload) (b : MessageBody) (d : Str),
        email.payload = some p → p.body = some b → selectedData b p.parts = .text d →
        validBase64Url d = false →
        ∃ doc, getEmailContent exampleNode (some email) = some doc ∧ doc.body = []) := by
  intro h
  obtain ⟨doc, hdoc, hbody⟩ := h ⟨some "m1".toList, some "t1".toList,
      some ⟨some [], some ⟨.text "aGVs bG8=".toList⟩, .absent⟩⟩
    ⟨some [], some ⟨.text "aGVs bG8=".toList⟩, .absent⟩ ⟨.text "aGVs bG8=".toList⟩
    "aGVs bG8=".toList rfl rfl rfl (by decide)
  have h2 : getEmailContent exampleNode (some ⟨some "m1".toList, some "t1".toList,
      some ⟨some [], some ⟨.text "aGVs bG8=".toList⟩, .absent⟩⟩) =
      some ⟨some "m1".toList, some "t1".toList, [], "hello".toList, [], none, none⟩ := by
    decide
  rw [h2] at hdoc
  simp only [Option.some.injEq] at hdoc
  subst hdoc
  exact absurd hbody (by decide)

/-- C23, amended. With the decoder of the platform, for every raw envelope
whose payload, header array with named entries and payload body are present,
whose body selection raises no error and selects a string of characters
below U+0100, valid encoding or not, `getEmailContent` returns a document
whose body is the UTF-8 text of the bytes decoded from the characters that
the decoder reads, those of the two alphabets before the first `=`. There is
no check of validity and no branch for a decoding failure: a character that
the decoder does not read is passed over, so that taking it out of the data
leaves the body the same, and the body is not empty as soon as the data
holds two characters that the decoder reads. -/
theorem getEmailContent_body_decoded (lower : Str → Str) (email : Email) (p : Payload)
    (hs : List Header) (b : MessageBody) (d : Str) (hp : email.payload = some p)
    (hh : p.headers = some hs) (hb : p.body = some b) (hn : namelessHeader hs = false)
    (hr : selectionRaises b p.parts = false) (hd : selectedData b p.parts = .text d)
    (_hlatin : ∀ c ∈ d, c.toNat < 256) :
    ∃ doc, getEmailContent ⟨lower, nodeBase64⟩ (some email) = some doc ∧
      doc.body = utf8Decode (sextetsToBytes (readableSextets d)) utf8Idle ∧
      (2 ≤ (readableSextets d).length → doc.body ≠ []) ∧
      (∀ pre post c, d = pre ++ c :: post → unbase64 c = none → c ≠ '=' →
        doc.body = nodeBase64 (pre ++ post)) := by
  have heq := getEmailContent_eq ⟨lower, nodeBase64⟩ email p hs b hp hh hb
  rw [hn, hr, hd] at heq
  refine ⟨_, heq, rfl, ?_, ?_⟩
  · intro h2
    exact nodeBase64_ne_nil d h2
  · intro pre post c hsplit hc he
    show nodeBase64 d = nodeBase64 (pre ++ post)
    unfold nodeBase64
    rw [hsplit, readableSextets_skip pre post c hc he]

/-- The witness of amended C23: data with a blank in it. -/
theorem getEmailContent_body_decoded_witness :
    validBase64Url "aGVs bG8=".toList = false ∧
    ∃ doc, getEmailContent exampleNode (some ⟨some "m1".toList, some "t1".toList,
        some ⟨some [], some ⟨.text "aGVs bG8=".toList⟩, .absent⟩⟩) = some doc ∧
      doc.body = "hello".toList :=
  ⟨by decide,
    (getEmailContent_body_decoded (fun s => s.map Char.toLower)
      ⟨some "m1".toList, some "t1".toList,
        some ⟨some [], some ⟨.text "aGVs bG8=".toList⟩, .absent⟩⟩
      ⟨some [], some ⟨.text "aGVs bG8=".toList⟩, .absent⟩ [] ⟨.text "aGVs bG8=".toList⟩
      "aGVs bG8=".toList rfl rfl rfl rfl rfl rfl (by decide)).imp
      fun _ h => ⟨h.1, h.2.1.trans (by decide)⟩⟩

end GmailService

namespace ApiRoutes

open ParserService (Str Cheerio EmailContent TrackingInfo JsValue)
open GmailService (Email EmailDocument Node)

/-! ## The listings and a null document -/

/-- A `map` whose callback raises on some element raises. -/
theorem mapM_error_of_mem {α β : Type} (f : α → Except String β) (l : List α) (message : String)
    (hf : ∀ x e, f x = .error e → e = message) (h : ∃ x ∈ l, ∃ e, f x = .error e) :
    l.mapM f = .error message := by
  induction l with
  | nil =>
    obtain ⟨x, hx, _⟩ := h
    simp at hx
  | cons a rest ih =>
    rw [List.mapM_cons]
    cases ha : f a with
    | error e =>
      rw [hf a e ha]
      rfl
    | ok b =>
      obtain ⟨x, hx, e, he⟩ := h
      rcases List.mem_cons.mp hx with rfl | hx'
      · rw [ha] at he
        cases he
      · rw [ih ⟨x, hx', e, he⟩]
        rfl

/-- A `map` whose callback returns on every element returns one value for
each element. -/
theorem mapM_ok_of_all {α β : Type} (f : α → Except String β) (l : List α)
    (h : ∀ x ∈ l, ∃ y, f x = .ok y) :
    ∃ ys, l.mapM f = .ok ys ∧ ys.length = l.length := by
  induction l with
  | nil => exact ⟨[], rfl, rfl⟩
  | cons a rest ih =>
    obtain ⟨b, hb⟩ := h a (by simp)
    obtain ⟨ys, hys, hlen⟩ := ih (fun x hx => h x (by simp [hx]))
    refine ⟨b :: ys, ?_, by simp [hlen]⟩
    rw [List.mapM_cons, hb, hys]
    rfl

/-- The tracking listing answers with status 500 as soon as one fetched
email has a null document, and with one entry for each email otherwise. -/
theorem trackingListing_eq (node : Node) (ch : Cheerio) (emails : List Email) :
    ((∃ email ∈ emails, GmailService.getEmailContent node (some email) = none) →
      trackingListing node ch emails = .status 500 "TypeError") ∧
    ((∀ email ∈ emails, GmailService.getEmailContent node (some email) ≠ none) →
      ∃ entries, trackingListing node ch emails = .json entries ∧
        entries.length = emails.length) := by
  constructor
  · rintro ⟨email, hmem, hnull⟩
    have h := mapM_error_of_mem (trackingEntry node ch) emails "TypeError"
      (by
        intro x e hx
        unfold trackingEntry at hx
        cases hc : GmailService.getEmailContent node (some x) with
        | none =>
          simp only [hc] at hx
          cases hx
          rfl
        | some doc =>
          simp only [hc] at hx
          cases hx)
      ⟨email, hmem, "TypeError", by simp only [trackingEntry, hnull]⟩
    simp only [trackingListing, h]
  · intro hall
    obtain ⟨ys, hys, hlen⟩ := mapM_ok_of_all (trackingEntry node ch) emails
      (by
        intro x hx
        cases hc : GmailService.getEmailContent node (some x) with
        | none => exact absurd hc (hall x hx)
        | some doc =>
          simp only [trackingEntry, hc]
          exact ⟨_, rfl⟩)
    exact ⟨ys, by simp only [trackingListing, hys], hlen⟩

/-- The confirmation listing, for an order number that is given, answers
with status 500 as soon as one fetched email has a null document, and with
one entry for each email otherwise. -/
theorem confirmationListing_eq (node : Node) (ch : Cheerio) (orderNumber : Str)
    (emails : List Email) (ho : orderNumber ≠ []) :
    ((∃ email ∈ emails, GmailService.getEmailContent node (some email) = none) →
      confirmationListing node ch orderNumber emails = .status 500 "TypeError") ∧
    ((∀ email ∈ emails, GmailService.getEmailContent node (some email) ≠ none) →
      ∃ entries, confirmationListing node ch orderNumber emails = .json entries ∧
        entries.length = emails.length) := by
  have hne : orderNumber.isEmpty = false := by
    cases orderNumber with
    | nil => exact absurd rfl ho
    | cons c cs => rfl
  constructor
  · rintro ⟨email, hmem, hnull⟩
    have h := mapM_error_of_mem (confirmationEntry node ch orderNumber) emails "TypeError"
      (by
        intro x e hx
        unfold confirmationEntry at hx
        cases hc : GmailService.getEmailContent node (some x) with
        | none =>
          simp only [hc] at hx
          cases hx
          rfl
        | some doc =>
          simp only [hc] at hx
          cases hx)
      ⟨email, hmem, "TypeError", by simp only [confirmationEntry, hnull]⟩
    unfold confirmationListing
    rw [if_neg (by rw [hne]; simp), h]
  · intro hall
    obtain ⟨ys, hys, hlen⟩ := mapM_ok_of_all (confirmationEntry node ch orderNumber) emails
      (by
        intro x hx
        cases hc : GmailService.getEmailContent node (some x) with
        | none => exact absurd hc (hall x hx)
        | some doc =>
          simp only [confirmationEntry, hc]
          exact ⟨_, rfl⟩)
    refine ⟨ys, ?_, hlen⟩
    unfold confirmationListing
    rw [if_neg (by rw [hne]; simp), hys]

/-! ## The claim on the listings -/

/-- C26 fails on the code. Of two fetched emails the first is well formed
and the second has no payload, so that `getEmailContent` returns null for
it; reading `content.subject` raises a TypeError in the callback of `map`,
and both listings answer the whole request with status 500 instead of two
entries. -/
theorem nullDocument_fails_listing :
    GmailService.getEmailContent GmailService.exampleNode
      (some ⟨some "m2".toList, some "t2".toList, none⟩) = none ∧
    trackingListing GmailService.exampleNode ⟨fun b => ⟨b, [], [], []⟩, .error "load"⟩
      [⟨some "m1".toList, some "t1".toList,
          some ⟨some [⟨some "Subject".toList, some "Order Updated (#12345)".toList⟩],
            some ⟨.text "VVNQUyBUcmFja2luZyA5NDAw".toList⟩, .absent⟩⟩,
        ⟨some "m2".toList, some "t2".toList, none⟩] = .status 500 "TypeError" ∧
    confirmationListing GmailService.exampleNode ⟨fun b => ⟨b, [], [], []⟩, .error "load"⟩
      "12345".toList
      [⟨some "m1".toList, some "t1".toList,
          some ⟨some [⟨some "Subject".toList, some "Order Updated (#12345)".toList⟩],
            some ⟨.text "VVNQUyBUcmFja2luZyA5NDAw".toList⟩, .absent⟩⟩,
        ⟨some "m2".toList, some "t2".toList, none⟩] = .status 500 "TypeError" ∧
    trackingListing GmailService.exampleNode ⟨fun b => ⟨b, [], [], []⟩, .error "load"⟩
      [⟨some "m1".toList, some "t1".toList,
          some ⟨some [⟨some "Subject".toList, some "Order Updated (#12345)".toList⟩],
            some ⟨.text "VVNQUyBUcmFja2luZyA5NDAw".toList⟩, .absent⟩⟩] =
      .json [⟨some "m1".toList, some "t1".toList, "Order Updated (#12345)".toList, none, none,
        some "12345".toList,
        some ⟨some "12345".toList, some "9400".toList, some "USPS".toList⟩⟩] := by
  refine ⟨by decide, by decide, by decide, by decide⟩

end ApiRoutes

namespace ShopifyService

open ParserService (Str trim includes)

/-! ## The name filter -/

/-- A search name whose parts all have a length below three gives no partial
match. -/
theorem partialMatch_short_search (searchNameParts orderNameParts : List Str)
    (h : ∀ part ∈ searchNameParts, utf16Length part < 3) :
    partialMatch searchNameParts orderNameParts = false := by
  unfold partialMatch
  rw [List.any_eq_false]
  intro part hpart
  simp [h part hpart]

/-- An order name with an empty part is a partial match of every search name
that has a part of length three or more. -/
theorem partialMatch_empty_orderPart (searchNameParts orderNameParts : List Str)
    (hs : ∃ part ∈ searchNameParts, 3 ≤ utf16Length part) (ho : [] ∈ orderNameParts) :
    partialMatch searchNameParts orderNameParts = true := by
  obtain ⟨part, hpart, hlen⟩ := hs
  unfold partialMatch
  rw [List.any_eq_true]
  refine ⟨part, hpart, ?_⟩
  rw [if_neg (by omega), List.any_eq_true]
  refine ⟨[], ho, ?_⟩
  have : includes part [] = true := by
    cases part with
    | nil => rfl
    | cons c cs => simp [includes]
  simp [this]

/-- C27 fails on the code. Only the parts of the search name are skipped when
they are short; the parts of the order name are not. The order name
`Mary  Jones`, with a double blank, has an empty part, which every search
part contains: it matches the search name `John Smith`, and the order is
returned. The order name `Jo Xu` matches as well, through its part `jo` of two
characters, contained in `john`. -/
theorem shortOrderPart_matches :
    splitSpaces "mary  jones".toList = ["mary".toList, [], "jones".toList] ∧
    nameMatches (fun s => s.map Char.toLower) "john smith".toList "Mary  Jones".toList = true ∧
    searchUnfulfilledOrdersByCustomerName (fun s => s.map Char.toLower)
      [⟨"1001".toList, "Mary  Jones".toList⟩, ⟨"1002".toList, "Mary Jones".toList⟩]
      "John Smith".toList = [⟨"1001".toList, "Mary  Jones".toList⟩] ∧
    nameMatches (fun s => s.map Char.toLower) "john smith".toList "Jo Xu".toList = true := by
  refine ⟨by decide, by decide, by decide, by decide⟩

/-! ## Fulfillment -/

/-- The two tests of truthiness on strings. -/
theorem truthy_some_iff (s : Str) : truthy (some s) = true ↔ s ≠ [] := by
  cases s with
  | nil => simp [truthy]
  | cons c cs => simp [truthy]

/-- The method never rejects: its `catch` handler turns the message of every
error into a failure. -/
theorem fulfillOrderMethod_eq (axios : Axios) (service : Service) (orderId : Option Str)
    (trackingInfo : Option TrackingArg) (notifyCustomer : Bool) :
    fulfillOrderMethod axios service orderId trackingInfo notifyCustomer =
      (.ok (fulfillOrder axios service orderId trackingInfo notifyCustomer).1,
        (fulfillOrder axios service orderId trackingInfo notifyCustomer).2) := by
  unfold fulfillOrderMethod fulfillOrder
  cases h : fulfillOrderTry axios service orderId trackingInfo notifyCustomer with
  | mk r sent =>
    cases r with
    | ok v => rfl
    | error e => rfl

/-- The `try` block on valid arguments, once the order has been fetched. -/
theorem fulfillOrderTry_fetched (axios : Axios) (config : Config) (orderId number : Str)
    (carrier : Option Str) (notifyCustomer : Bool) (items : List LineItem)
    (hid : orderId ≠ []) (hnum : number ≠ [])
    (hget : axios.get (config.shop_url ++ "/admin/api/2023-01/orders/".toList ++ orderId ++
      ".json".toList) ⟨config.api_key, config.password⟩ = .ok (some ⟨some items⟩)) :
    fulfillOrderTry axios ⟨some config, true⟩ (some orderId) (some ⟨some number, carrier⟩)
        notifyCustomer =
      if (unfulfilledItems items).length = 0 then
        (.ok (.failure "No unfulfilled line items found".toList),
          [.get (config.shop_url ++ "/admin/api/2023-01/orders/".toList ++ orderId ++
            ".json".toList) ⟨config.api_key, config.password⟩])
      else
        (match axios.post (config.shop_url ++ "/admin/api/2023-01/orders/".toList ++ orderId ++
              "/fulfillments.json".toList)
            ⟨unfulfilledItems items, number, carrierOrOther carrier, notifyCustomer⟩
            ⟨config.api_key, config.password⟩ with
          | .error message => .error message
          | .ok none => .error "TypeError".toList
          | .ok (some fulfillment) =>
            match fulfillment.id with
            | none => .error "TypeError".toList
            | some fulfillmentId =>
              .ok (.success fulfillmentId number (carrierOrOther carrier)),
          [.get (config.shop_url ++ "/admin/api/2023-01/orders/".toList ++ orderId ++
              ".json".toList) ⟨config.api_key, config.password⟩,
            .post (config.shop_url ++ "/admin/api/2023-01/orders/".toList ++ orderId ++
              "/fulfillments.json".toList)
              ⟨unfulfilledItems items, number, carrierOrOther carrier, notifyCustomer⟩
              ⟨config.api_key, config.password⟩]) := by
  obtain ⟨c, cs, rfl⟩ := List.exists_cons_of_ne_nil hid
  obtain ⟨d, ds, rfl⟩ := List.exists_cons_of_ne_nil hnum
  unfold fulfillOrderTry
  simp only [truthy, Bool.not_true, Bool.false_eq_true, if_false, Option.getD_some, hget]
  by_cases h0 : (unfulfilledItems items).length = 0
  · rw [if_pos h0, if_pos h0]
  · rw [if_neg h0, if_neg h0]
    cases hpost : axios.post (config.shop_url ++ "/admin/api/2023-01/orders/".toList ++
        (c :: cs) ++ "/fulfillments.json".toList)
        ⟨unfulfilledItems items, d :: ds, carrierOrOther carrier, notifyCustomer⟩
        ⟨config.api_key, config.password⟩ with
    | error message => rfl
    | ok f =>
      cases f with
      | none => rfl
      | some fulfillment =>
        cases hfid : fulfillment.id with
        | none => simp only [hfid]
        | some fid => simp only [hfid]

/-- The requests of the method are those of its `try` block. -/
theorem fulfillOrder_requests (axios : Axios) (service : Service) (orderId : Option Str)
    (trackingInfo : Option TrackingArg) (notifyCustomer : Bool) :
    (fulfillOrder axios service orderId trackingInfo notifyCustomer).2 =
      (fulfillOrderTry axios service orderId trackingInfo notifyCustomer).2 := by
  unfold fulfillOrder
  cases h : fulfillOrderTry axios service orderId trackingInfo notifyCustomer with
  | mk r sent =>
    cases r with
    | ok v => rfl
    | error e => rfl

/-! ## The claims on the order service -/

/-- C28. For every call of `fulfillOrder` on an initialized service with an
order identifier and a tracking number that are not empty, and every order
that the first request fetches with a list of line items: when some line
item has a `fulfillment_status` other than `fulfilled`, the service issues,
after the request of the order, one fulfillment request whose `line_items`
are the line items of the order whose status is not `fulfilled`, in their
order, each with its `id` and its `quantity`, with the given tracking number
and with `tracking_company` the carrier, or `Other` when the carrier is
missing or empty; when no line item has such a status, no fulfillment
request is issued and the result is the failure
`No unfulfilled line items found`. -/
theorem fulfillOrder_lineItems (axios : Axios) (config : Config) (orderId number : Str)
    (carrier : Option Str) (notifyCustomer : Bool) (items : List LineItem)
    (hid : orderId ≠ []) (hnum : number ≠ [])
    (hget : axios.get (config.shop_url ++ "/admin/api/2023-01/orders/".toList ++ orderId ++
      ".json".toList) ⟨config.api_key, config.password⟩ = .ok (some ⟨some items⟩)) :
    ((items.filter fun item => item.fulfillment_status != some "fulfilled".toList) = [] →
      fulfillOrder axios ⟨some config, true⟩ (some orderId) (some ⟨some number, carrier⟩)
          notifyCustomer =
        (.failure "No unfulfilled line items found".toList,
          [.get (config.shop_url ++ "/admin/api/2023-01/orders/".toList ++ orderId ++
            ".json".toList) ⟨config.api_key, config.password⟩])) ∧
    ((items.filter fun item => item.fulfillment_status != some "fulfilled".toList) ≠ [] →
      (fulfillOrder axios ⟨some config, true⟩ (some orderId) (some ⟨some number, carrier⟩)
          notifyCustomer).2 =
        [.get (config.shop_url ++ "/admin/api/2023-01/orders/".toList ++ orderId ++
            ".json".toList) ⟨config.api_key, config.password⟩,
          .post (config.shop_url ++ "/admin/api/2023-01/orders/".toList ++ orderId ++
            "/fulfillments.json".toList)
            ⟨(items.filter fun item => item.fulfillment_status != some "fulfilled".toList).map
                fun item => ⟨item.id, item.quantity⟩,
              number, carrierOrOther carrier, notifyCustomer⟩
            ⟨config.api_key, config.password⟩]) ∧
    ((carrier = none ∨ carrier = some []) → carrierOrOther carrier = "Other".toList) ∧
    (∀ name, carrier = some name → name ≠ [] → carrierOrOther carrier = name) := by
  have htry := fulfillOrderTry_fetched axios config orderId number carrier notifyCustomer items
    hid hnum hget
  refine ⟨?_, ?_, ?_, ?_⟩
  · intro hnone
    have h0 : (unfulfilledItems items).length = 0 := by
      unfold unfulfilledItems
      rw [hnone]
      rfl
    rw [if_pos h0] at htry
    unfold fulfillOrder
    rw [htry]
  · intro hsome
    have h0 : ¬ (unfulfilledItems items).length = 0 := by
      unfold unfulfilledItems
      intro h
      rw [List.length_map] at h
      exact hsome (List.length_eq_zero.mp h)
    rw [if_neg h0] at htry
    rw [fulfillOrder_requests, htry]
    rfl
  · rintro (rfl | rfl) <;> rfl
  · intro name hname hne
    obtain ⟨c, cs, rfl⟩ := List.exists_cons_of_ne_nil hne
    rw [hname]
    rfl

/-- The witness of C28: of three line items the second is fulfilled; the
fulfillment request holds the first and the third, and the carrier `Other`. -/
theorem fulfillOrder_lineItems_witness :
    (fulfillOrder
      ⟨fun _ _ => .ok (some ⟨some [⟨1, 2, none⟩, ⟨2, 1, some "fulfilled".toList⟩,
          ⟨3, 5, some "partial".toList⟩]⟩),
        fun _ _ _ => .ok (some ⟨some "77".toList⟩)⟩
      ⟨some ⟨"https://shop.example".toList, "key".toList, "secret".toList⟩, true⟩
      (some "4501".toList) (some ⟨some "9400111".toList, none⟩) false).2 =
    [.get "https://shop.example/admin/api/2023-01/orders/4501.json".toList
        ⟨"key".toList, "secret".toList⟩,
      .post "https://shop.example/admin/api/2023-01/orders/4501/fulfillments.json".toList
        ⟨[⟨1, 2⟩, ⟨3, 5⟩], "9400111".toList, "Other".toList, false⟩
        ⟨"key".toList, "secret".toList⟩] :=
  (fulfillOrder_lineItems
    ⟨fun _ _ => .ok (some ⟨some [⟨1, 2, none⟩, ⟨2, 1, some "fulfilled".toList⟩,
        ⟨3, 5, some "partial".toList⟩]⟩),
      fun _ _ _ => .ok (some ⟨some "77".toList⟩)⟩
    ⟨"https://shop.example".toList, "key".toList, "secret".toList⟩
    "4501".toList "9400111".toList none false
    [⟨1, 2, none⟩, ⟨2, 1, some "fulfilled".toList⟩, ⟨3, 5, some "partial".toList⟩]
    (by decide) (by decide) rfl).2.1 (by decide)

/-- C29. For every call of `fulfillOrder` on an initialized service: with an
order identifier that is missing or empty, no HTTP request is issued and the
result is the failure `No order ID provided for fulfillment`; with an order
identifier that is given and a tracking information that is missing or has
no tracking number, no HTTP request is issued and the result is the failure
`No tracking information provided for fulfillment`. The method never
rejects: it returns a result for every input, and every error raised in its
`try` block is returned as a failure with the message of the error. -/
theorem fulfillOrder_invalid_arguments (axios : Axios) (service : Service)
    (orderId : Option Str) (trackingInfo : Option TrackingArg) (notifyCustomer : Bool)
    (hinit : service.initialized = true) :
    (truthy orderId = false →
      fulfillOrder axios service orderId trackingInfo notifyCustomer =
        (.failure "No order ID provided for fulfillment".toList, [])) ∧
    (truthy orderId = true →
      (trackingInfo = none ∨
        ∃ info, trackingInfo = some info ∧ truthy info.trackingNumber = false) →
      fulfillOrder axios service orderId trackingInfo notifyCustomer =
        (.failure "No tracking information provided for fulfillment".toList, [])) ∧
    fulfillOrderMethod axios service orderId trackingInfo notifyCustomer =
      (.ok (fulfillOrder axios service orderId trackingInfo notifyCustomer).1,
        (fulfillOrder axios service orderId trackingInfo notifyCustomer).2) ∧
    (∀ message,
      (fulfillOrderTry axios service orderId trackingInfo notifyCustomer).1 = .error message →
      (fulfillOrder axios service orderId trackingInfo notifyCustomer).1 = .failure message) := by
  refine ⟨?_, ?_, fulfillOrderMethod_eq axios service orderId trackingInfo notifyCustomer, ?_⟩
  · intro hid
    simp [fulfillOrder, fulfillOrderTry, hinit, hid]
  · intro hid htrack
    rcases htrack with rfl | ⟨info, rfl, hnum⟩
    · simp [fulfillOrder, fulfillOrderTry, hinit, hid]
    · simp [fulfillOrder, fulfillOrderTry, hinit, hid, hnum]
  · intro message hmsg
    unfold fulfillOrder
    cases h : fulfillOrderTry axios service orderId trackingInfo notifyCustomer with
    | mk r sent =>
      rw [h] at hmsg
      simp only at hmsg
      subst hmsg
      rfl

/-- The witness of C29: an empty order identifier. -/
theorem fulfillOrder_invalid_arguments_witness :
    fulfillOrder
      ⟨fun _ _ => .ok (some ⟨some [⟨1, 2, none⟩]⟩), fun _ _ _ => .ok (some ⟨some "77".toList⟩)⟩
      ⟨some ⟨"https://shop.example".toList, "key".toList, "secret".toList⟩, true⟩
      (some []) (some ⟨some "9400111".toList, none⟩) false =
    (.failure "No order ID provided for fulfillment".toList, []) :=
  (fulfillOrder_invalid_arguments
    ⟨fun _ _ => .ok (some ⟨some [⟨1, 2, none⟩]⟩), fun _ _ _ => .ok (some ⟨some "77".toList⟩)⟩
    ⟨some ⟨"https://shop.example".toList, "key".toList, "secret".toList⟩, true⟩
    (some []) (some ⟨some "9400111".toList, none⟩) false rfl).1 rfl

end ShopifyService
